import Mathlib

/-!
# ResetGuard: a verification development

A shallow embedding of `ResetGuard` (src/ResetGuard.h, src/ResetGuard.cpp) and of its
client pattern (src/ResettableObjects.cpp).

Two views of the same code are given.

* A call-level view: every public member function is a function from the state of the
  process before the call to an `Outcome` (normal return, exception, the calling thread
  suspended, undefined behaviour).  A call runs without any other thread taking a step.
* A step-level view (`Sys`, `step`): one worker thread and one controller thread take
  atomic steps (one atomic load/store/compare-exchange, one mutex or condition-variable
  operation each) in any order.
-/

namespace Resettable

/-! ## Data model -/

/-- The private enumeration `ResetGuard::reset_state` (ResetGuard.h, lines 69-74). -/
inductive reset_state where
  | valid
  | reset_required
  | ack_expected
  deriving DecidableEq, Repr

/-- Threads are known by a number. -/
abbrev ThreadId := Nat

/-- Exceptions that can leave a member function of `ResetGuard`.
`ObjectWasReset` is the class of ResetGuard.h line 9; `system_error` is what
`std::unique_lock::lock`/`unlock` throw; `bad_function_call` is what calling an empty
`std::function` throws; `handler_exception` stands for anything the registered callback
itself throws. -/
inductive Exn where
  | ObjectWasReset
  | system_error
  | bad_function_call
  | handler_exception
  deriving DecidableEq, Repr

/-- How a call of the registered callback ends: it returns, or it throws; in both cases
it leaves the guarded resource in some state. -/
inductive Completion (R : Type) where
  | normal (r : R)
  | throws (r : R)

/-- The type `ResetGuard::ResetHandler = std::function<void()>`: empty (`none`) or a
callable.  The callable acts on the guarded resource `R` (everything outside the guard
that it captured by reference). -/
abbrev ResetHandler (R : Type) := Option (R → Completion R)

/-- The data members of one `ResetGuard` object (ResetGuard.h, lines 76-80).
`m_mutex` is the owner of the `std::mutex`, `m_lock` is `m_lock.owns_lock()`.
`handlerCalls` is a ghost field, not in the source: it records, for every invocation of
`m_resetHandler` made by `reset`, the value of `m_resetState` at the moment of the
invocation. -/
structure ResetGuard (R : Type) where
  m_resetState : reset_state
  m_mutex : Option ThreadId
  m_lock : Bool
  m_resetHandler : ResetHandler R
  handlerCalls : List reset_state

/-- The object built by `ResetGuard() = default` with the member initialisers of
ResetGuard.h lines 76-80: state `valid`, mutex free, deferred lock, empty handler. -/
def ResetGuard.fresh (R : Type) : ResetGuard R :=
  { m_resetState := reset_state.valid
    m_mutex := none
    m_lock := false
    m_resetHandler := none
    handlerCalls := [] }

/-- A process: the `ResetGuard` objects it holds (named by `ι`), the guarded resource, and
the function-local `static` closure `ack_expected` of `weak_guard` (ResetGuard.cpp lines
22-25).  That closure captures `this`; being `static` it is built once, by the first call
of `weak_guard` that gets past line 20, and keeps the `this` of that call.  `none`: not
built yet. -/
structure Process (ι R : Type) where
  heap : ι → ResetGuard R
  ack_expected : Option ι
  world : R

/-- Replace the object named `this`. -/
def Process.put {ι R : Type} [DecidableEq ι] (p : Process ι R) (this : ι)
    (g : ResetGuard R) : Process ι R :=
  { p with heap := Function.update p.heap this g }

/-- The result of a member-function call.
`returned a s`: normal return of `a` in state `s`.
`raised e s`: the exception `e` leaves the function in state `s`.
`blocked s`: the calling thread is suspended in state `s` (on the mutex or on the
condition variable) and only another thread can let it continue.
`undefined`: the call has undefined behaviour, or ends the program (`std::terminate`). -/
inductive Outcome (α σ : Type) where
  | returned (a : α) (s : σ)
  | raised (e : Exn) (s : σ)
  | blocked (s : σ)
  | undefined

/-- The state in which a call ends, when there is one. -/
def Outcome.state? {α σ : Type} : Outcome α σ → Option σ
  | .returned _ s => some s
  | .raised _ s => some s
  | .blocked s => some s
  | .undefined => none

/-- An outcome without its state. -/
inductive Tag (α : Type) where
  | returned (a : α)
  | raised (e : Exn)
  | blocked
  | undefined
  deriving DecidableEq, Repr

/-- Forget the state of an outcome. -/
def Outcome.tag {α σ : Type} : Outcome α σ → Tag α
  | .returned a _ => .returned a
  | .raised e _ => .raised e
  | .blocked _ => .blocked
  | .undefined => .undefined

namespace ResetGuard

variable {ι R : Type} [DecidableEq ι]

/-! ## The member functions, call by call (ResetGuard.cpp) -/

/-- The member function `ResetGuard::lock` (lines 5-8): `m_lock.lock()`.
`std::unique_lock::lock` throws `std::system_error` when it already owns the mutex;
otherwise it locks `m_mutex`, which
suspends the caller while another thread owns it and is undefined when the caller
itself owns it. -/
def lock (self : ThreadId) (this : ι) (p : Process ι R) : Outcome Unit (Process ι R) :=
  let g := p.heap this
  if g.m_lock then .raised Exn.system_error p
  else
    match g.m_mutex with
    | none => .returned () (p.put this { g with m_mutex := some self, m_lock := true })
    | some owner => if owner = self then .undefined else .blocked p

/-- The member function `ResetGuard::unlock` (lines 10-13): `m_lock.unlock()`.
`std::unique_lock::unlock` throws `std::system_error` when it does not own the mutex; unlocking a `std::mutex` the
calling thread does not own is undefined. -/
def unlock (self : ThreadId) (this : ι) (p : Process ι R) : Outcome Unit (Process ι R) :=
  let g := p.heap this
  if g.m_lock then
    if g.m_mutex = some self then
      .returned () (p.put this { g with m_mutex := none, m_lock := false })
    else .undefined
  else .raised Exn.system_error p

/-- The member function `ResetGuard::weak_guard` (lines 15-30).
Line 17: a `valid` state returns `true` at once.
Line 22: the static closure is built if it was not, capturing `this`.
Line 26: `m_cv.wait(m_lock, ack_expected)` is `while (!ack_expected()) m_cv.wait(m_lock);`
the closure reads `m_resetState` of the object it captured.  When it holds the loop body
never runs.  When it fails, `m_cv.wait(m_lock)` needs `m_lock` to own the mutex in the
calling thread (undefined otherwise), releases it and suspends the caller; with no other
thread running, the call stays suspended.
Lines 28-29: store `valid`, return `false`. -/
def weak_guard (self : ThreadId) (this : ι) (p : Process ι R) :
    Outcome Bool (Process ι R) :=
  let g := p.heap this
  if g.m_resetState = reset_state.valid then .returned true p
  else
    let captured := p.ack_expected.getD this
    let p1 : Process ι R := { p with ack_expected := some captured }
    if (p1.heap captured).m_resetState = reset_state.ack_expected then
      .returned false (p1.put this { g with m_resetState := reset_state.valid })
    else if g.m_lock = true ∧ g.m_mutex = some self then
      .blocked (p1.put this { g with m_mutex := none, m_lock := false })
    else .undefined

/-- The member function `ResetGuard::strong_guard` (lines 32-38): throw `ObjectWasReset`
when `weak_guard` returned `false`. -/
def strong_guard (self : ThreadId) (this : ι) (p : Process ι R) :
    Outcome Unit (Process ι R) :=
  match weak_guard self this p with
  | .returned true p1 => .returned () p1
  | .returned false p1 => .raised Exn.ObjectWasReset p1
  | .raised e p1 => .raised e p1
  | .blocked p1 => .blocked p1
  | .undefined => .undefined

/-- The member function `ResetGuard::registerResetHandler` (lines 40-43):
`m_resetHandler = std::move(callback)`. -/
def registerResetHandler (callback : ResetHandler R) (this : ι) (p : Process ι R) :
    Outcome Unit (Process ι R) :=
  .returned () (p.put this { p.heap this with m_resetHandler := callback })

/-- The member function `ResetGuard::reset` (lines 45-59).
Line 48: `compare_exchange_strong(valid, reset_required)`; on failure return (line 50).
Line 54: `std::scoped_lock{ m_mutex }` locks the mutex itself (not `m_lock`): the caller
is suspended while another thread owns it, and the call is undefined when the caller owns
it already.
Line 55: call `m_resetHandler`; an empty `std::function` throws `bad_function_call`.  An
exception leaves the block, so the scoped lock releases the mutex and lines 56-58 do not
run.
Line 56: store `ack_expected`.  Line 57: the mutex is released.  Line 58: `notify_all`,
which changes nothing when no thread waits. -/
def reset (self : ThreadId) (this : ι) (p : Process ι R) : Outcome Unit (Process ι R) :=
  let g := p.heap this
  if g.m_resetState = reset_state.valid then
    let g1 := { g with m_resetState := reset_state.reset_required }
    match g1.m_mutex with
    | some owner => if owner = self then .undefined else .blocked (p.put this g1)
    | none =>
      let g2 := { g1 with m_mutex := some self }
      match g2.m_resetHandler with
      | none => .raised Exn.bad_function_call (p.put this { g2 with m_mutex := none })
      | some handler =>
        let g3 := { g2 with handlerCalls := g2.handlerCalls ++ [g2.m_resetState] }
        match handler p.world with
        | .throws w =>
          .raised Exn.handler_exception
            { p.put this { g3 with m_mutex := none } with world := w }
        | .normal w =>
          .returned ()
            { p.put this { g3 with m_resetState := reset_state.ack_expected, m_mutex := none }
              with world := w }
  else .returned () p

end ResetGuard

/-! ## Sequences of calls -/

/-- A call of one public member function of `ResetGuard`. -/
inductive Call (R : Type) where
  | lock
  | unlock
  | weak_guard
  | strong_guard
  | registerResetHandler (callback : ResetHandler R)
  | reset

/-- Keep the state of an outcome and change the returned value. -/
def Outcome.mapVal {α β σ : Type} (f : α → β) : Outcome α σ → Outcome β σ
  | .returned a s => .returned (f a) s
  | .raised e s => .raised e s
  | .blocked s => .blocked s
  | .undefined => .undefined

/-- Thread `self` makes the call `c` on the object `this`.  The value is `some b` for
`weak_guard` and `none` for the `void` functions. -/
def call {ι R : Type} [DecidableEq ι] (this : ι) :
    ThreadId × Call R → Process ι R → Outcome (Option Bool) (Process ι R)
  | (self, .lock), p => (ResetGuard.lock self this p).mapVal (fun _ => none)
  | (self, .unlock), p => (ResetGuard.unlock self this p).mapVal (fun _ => none)
  | (self, .weak_guard), p => (ResetGuard.weak_guard self this p).mapVal some
  | (self, .strong_guard), p => (ResetGuard.strong_guard self this p).mapVal (fun _ => none)
  | (_, .registerResetHandler cb), p =>
    (ResetGuard.registerResetHandler cb this p).mapVal (fun _ => none)
  | (self, .reset), p => (ResetGuard.reset self this p).mapVal (fun _ => none)

/-- Run a list of operations one after another, each to its end before the next starts,
and give the outcome of every operation that was started.  An exception is caught by the
caller of the operation and the run goes on from the state the exception left; a
suspended thread or undefined behaviour ends the run. -/
def runWith {A β σ : Type} (f : A → σ → Outcome β σ) : List A → σ → List (Outcome β σ)
  | [], _ => []
  | a :: rest, s =>
    match f a s with
    | .returned b s1 => .returned b s1 :: runWith f rest s1
    | .raised e s1 => .raised e s1 :: runWith f rest s1
    | .blocked s1 => [.blocked s1]
    | .undefined => [.undefined]

/-- The state after the run `runWith f ops s`: the state the last operation that was
started left (`none` after undefined behaviour). -/
def runEnd {A β σ : Type} (f : A → σ → Outcome β σ) : List A → σ → Option σ
  | [], s => some s
  | a :: rest, s =>
    match f a s with
    | .returned _ s1 => runEnd f rest s1
    | .raised _ s1 => runEnd f rest s1
    | .blocked s1 => some s1
    | .undefined => none

/-- The block `{ auto lock = std::scoped_lock{ resetGuard }; body }` of `count`
(ResettableObjects.cpp lines 86-89): `lock()`, the body, then `unlock()` from the
destructor of the scoped lock, also when the body throws.  An exception that leaves the
destructor ends the program. -/
def scoped_lock {ι R α : Type} [DecidableEq ι] (self : ThreadId) (this : ι)
    (body : Process ι R → Outcome α (Process ι R)) (p : Process ι R) :
    Outcome α (Process ι R) :=
  match ResetGuard.lock self this p with
  | .returned _ p1 =>
    match body p1 with
    | .returned a p2 =>
      match ResetGuard.unlock self this p2 with
      | .returned _ p3 => .returned a p3
      | .raised _ _ => .undefined
      | .blocked p3 => .blocked p3
      | .undefined => .undefined
    | .raised e p2 =>
      match ResetGuard.unlock self this p2 with
      | .returned _ p3 => .raised e p3
      | .raised _ _ => .undefined
      | .blocked p3 => .blocked p3
      | .undefined => .undefined
    | .blocked p2 => .blocked p2
    | .undefined => .undefined
  | .raised e p1 => .raised e p1
  | .blocked p1 => .blocked p1
  | .undefined => .undefined

/-- One operation of the two threads of `main`, each run to its end: a guarded operation
of the worker (a guard check, inside the scoped lock when `inScope`), or a `reset()` of
the controller. -/
inductive Op where
  | check (strong : Bool) (inScope : Bool)
  | reset
  deriving DecidableEq, Repr

/-- Run one `Op`: `worker` makes the checks, `controller` the resets.  The value is
`some b` for a weak check, `none` otherwise. -/
def runOp {ι R : Type} [DecidableEq ι] (worker controller : ThreadId) (this : ι) :
    Op → Process ι R → Outcome (Option Bool) (Process ι R)
  | .check false false, p => call this (worker, .weak_guard) p
  | .check true false, p => call this (worker, .strong_guard) p
  | .check false true, p => scoped_lock worker this (call this (worker, .weak_guard)) p
  | .check true true, p => scoped_lock worker this (call this (worker, .strong_guard)) p
  | .reset, p => call this (controller, .reset) p

/-- A process with one `ResetGuard`, freshly constructed, on which
`registerResetHandler(callback)` has been called (the first lines of `main`), and no call
of `weak_guard` yet. -/
def Process.start {R : Type} (callback : ResetHandler R) (world : R) : Process Unit R :=
  { heap := fun _ => { ResetGuard.fresh R with m_resetHandler := callback }
    ack_expected := none
    world := world }

/-- The number of guard checks of a run that reported a reset: `weak_guard` returned
`false`, or `strong_guard` threw `ObjectWasReset`. -/
def acks {σ : Type} (outs : List (Outcome (Option Bool) σ)) : Nat :=
  (outs.filter (fun o =>
    decide (o.tag = .returned (some false)) || decide (o.tag = .raised Exn.ObjectWasReset))).length

/-- The member-function calls an `Op` is made of, in order: the scoped lock of `count` is
`lock()` before the check and `unlock()` after it. -/
def Op.calls {R : Type} (worker controller : ThreadId) : Op → List (ThreadId × Call R)
  | .check strong inScope =>
    (if inScope then [(worker, Call.lock)] else []) ++
      [(worker, if strong then Call.strong_guard else Call.weak_guard)] ++
      (if inScope then [(worker, Call.unlock)] else [])
  | .reset => [(controller, Call.reset)]

/-- The member-function calls a list of `Op`s is made of, in order. -/
def script {R : Type} (worker controller : ThreadId) : List Op → List (ThreadId × Call R)
  | [] => []
  | op :: ops => Op.calls worker controller op ++ script worker controller ops

/-- A call that came to its end: it returned, or it threw `ObjectWasReset`. -/
def Outcome.completed {α σ : Type} : Outcome α σ → Bool
  | .returned _ _ => true
  | .raised Exn.ObjectWasReset _ => true
  | _ => false

/-- N calls of `reset()` one after another by one thread: the next call is made only
when the one before returned. -/
def resetN {ι R : Type} [DecidableEq ι] (self : ThreadId) (this : ι) :
    Nat → Process ι R → Outcome Unit (Process ι R)
  | 0, p => .returned () p
  | n + 1, p =>
    match ResetGuard.reset self this p with
    | .returned _ p1 => resetN self this n p1
    | o => o

/-! ## The two threads of `main`, step by step

The worker (the thread running `count`) takes the lock, makes guard checks and releases
the lock; the controller (the thread of `main`) registers the handler and calls
`reset()`.  Every atomic action on the shared data (`m_resetState`, `m_mutex`, `m_cv`)
is one step, and steps of the two threads interleave in any order.  The process holds
this one `ResetGuard`, so the static closure of `weak_guard` reads this object. -/

/-- The two threads. -/
inductive Thread where
  | worker
  | controller
  deriving DecidableEq, Repr

/-- Where the worker is.
`idle`: outside `lock()` ... `unlock()`.
`locked`: `lock()` has returned; no guard check in progress.
`wg_pred`: in `weak_guard`, line 17 saw a state that is not `valid`; the predicate of
`m_cv.wait` (line 26) is to be evaluated, with the mutex held.
`wg_block`: the predicate failed; `m_cv.wait(m_lock)` is to release the mutex and put
the thread to sleep, in one atomic action.
`wg_wait`: inside `m_cv.wait(m_lock)`: the mutex is released and the thread sleeps.
`wg_wake`: notified or woken spuriously; the mutex is to be taken again.
`wg_store`: the predicate held; line 28 is to be executed.
`wg_ret b`: `weak_guard` is about to return `b` (line 19 or 29).
`strong` tells whether `weak_guard` was called from `strong_guard`. -/
inductive WorkerPc where
  | idle
  | locked
  | wg_pred (strong : Bool)
  | wg_block (strong : Bool)
  | wg_wait (strong : Bool)
  | wg_wake (strong : Bool)
  | wg_store (strong : Bool)
  | wg_ret (strong : Bool) (b : Bool)
  deriving DecidableEq, Repr

/-- Where the controller is.
`idle`: outside `reset()`.
`rs_lock`: the compare-exchange of line 48 succeeded; line 54 is to take the mutex.
`rs_call`: the mutex is held; line 55 is to invoke the handler.
`rs_handler`: the handler is running.
`rs_store`: the handler returned; line 56 is to be executed.
`rs_unlock`: the block ends; the scoped lock is to release the mutex (line 57).
`rs_notify`: line 58 is to be executed.
`rs_throw`: an exception is leaving the block; the scoped lock is to release the mutex. -/
inductive ControllerPc where
  | idle
  | rs_lock
  | rs_call
  | rs_handler
  | rs_store
  | rs_unlock
  | rs_notify
  | rs_throw
  deriving DecidableEq, Repr

/-- What the history of a run records (ghost data, not in the source).
`cas_ok`: the compare-exchange of `reset()` succeeded.
`handler_begin st`: the handler was invoked while `m_resetState` was `st`.
`handler_end`: the handler returned.  `handler_throw`: the handler threw.
`set_ack`: line 56 stored `ack_expected`.
`reset_done`: a `reset()` whose compare-exchange succeeded returned.
`reset_raised`: an exception left `reset()`.
`guard_begin strong st`: a guard check started: line 17 loaded `st`.
`set_valid`: line 28 stored `valid`.
`guard_end strong b`: `weak_guard` returned `b`; when `strong`, `strong_guard` then
returns (`b = true`) or throws `ObjectWasReset` (`b = false`). -/
inductive Event where
  | cas_ok
  | handler_begin (st : reset_state)
  | handler_end
  | handler_throw
  | set_ack
  | reset_done
  | reset_raised
  | guard_begin (strong : Bool) (st : reset_state)
  | set_valid
  | guard_end (strong : Bool) (b : Bool)
  deriving DecidableEq, Repr

/-- The state of the two-thread system: the data members of the guard (`registered`:
`m_resetHandler` is not empty), where each thread is, and the history, newest event
first. -/
structure Sys where
  m_resetState : reset_state
  m_mutex : Option Thread
  m_lock : Bool
  registered : Bool
  wpc : WorkerPc
  cpc : ControllerPc
  history : List Event
  deriving DecidableEq, Repr

/-- The start: a fresh guard (ResetGuard.h lines 76-80), both threads outside the guard. -/
def Sys.init : Sys :=
  { m_resetState := reset_state.valid
    m_mutex := none
    m_lock := false
    registered := false
    wpc := WorkerPc.idle
    cpc := ControllerPc.idle
    history := [] }

/-- The atomic steps.
Worker: `w_lock` (`lock()`), `w_unlock` (`unlock()`), `w_check strong` (a guard check
starts: the load of line 17), `w_pred` (the predicate of line 26 is evaluated),
`w_wait` (`m_cv.wait(m_lock)` releases the mutex and sleeps), `w_wake` (a spurious
wake-up), `w_reacquire` (the woken thread takes the mutex again), `w_store` (line 28),
`w_return` (`weak_guard` returns; after `strong_guard` has thrown, the caller is taken
to handle the exception with the lock still held, as `count` does, whose scoped lock
then calls `unlock()`).
Controller: `c_register b` (`registerResetHandler` with a callable, or with an empty
function when `b` is false), `c_cas` (`reset()` starts: line 48), `c_lock` (line 54),
`c_invoke` (line 55), `c_handler_return` and `c_handler_throw` (the handler ends),
`c_store` (line 56), `c_unlock` (line 57), `c_notify` (line 58), `c_unwind` (the
exception leaves `reset()`, and the caller is taken to go on). -/
inductive Action where
  | w_lock
  | w_unlock
  | w_check (strong : Bool)
  | w_pred
  | w_wait
  | w_wake
  | w_reacquire
  | w_store
  | w_return
  | c_register (b : Bool)
  | c_cas
  | c_lock
  | c_invoke
  | c_handler_return
  | c_handler_throw
  | c_store
  | c_unlock
  | c_notify
  | c_unwind
  deriving DecidableEq, Repr

/-- One atomic step; `none` when the step cannot be taken in this state (the thread is
elsewhere, or it has to wait for the mutex).  `lock()` with `m_lock` already owning
throws `system_error` and leaves the worker where it was. -/
def step (a : Action) (s : Sys) : Option Sys :=
  match a with
  | .w_lock =>
    match s.wpc with
    | .idle =>
      if s.m_lock then some s
      else if s.m_mutex = none then
        some { s with m_mutex := some Thread.worker, m_lock := true, wpc := .locked }
      else none
    | _ => none
  | .w_unlock =>
    match s.wpc with
    | .locked => some { s with m_mutex := none, m_lock := false, wpc := .idle }
    | _ => none
  | .w_check strong =>
    match s.wpc with
    | .locked =>
      if s.m_resetState = reset_state.valid then
        some { s with wpc := .wg_ret strong true,
                      history := .guard_begin strong s.m_resetState :: s.history }
      else
        some { s with wpc := .wg_pred strong,
                      history := .guard_begin strong s.m_resetState :: s.history }
    | _ => none
  | .w_pred =>
    match s.wpc with
    | .wg_pred strong =>
      if s.m_resetState = reset_state.ack_expected then
        some { s with wpc := .wg_store strong }
      else some { s with wpc := .wg_block strong }
    | _ => none
  | .w_wait =>
    match s.wpc with
    | .wg_block strong =>
      some { s with m_mutex := none, m_lock := false, wpc := .wg_wait strong }
    | _ => none
  | .w_wake =>
    match s.wpc with
    | .wg_wait strong => some { s with wpc := .wg_wake strong }
    | _ => none
  | .w_reacquire =>
    match s.wpc with
    | .wg_wake strong =>
      if s.m_mutex = none then
        some { s with m_mutex := some Thread.worker, m_lock := true, wpc := .wg_pred strong }
      else none
    | _ => none
  | .w_store =>
    match s.wpc with
    | .wg_store strong =>
      some { s with m_resetState := reset_state.valid, wpc := .wg_ret strong false,
                    history := .set_valid :: s.history }
    | _ => none
  | .w_return =>
    match s.wpc with
    | .wg_ret strong b =>
      some { s with wpc := .locked, history := .guard_end strong b :: s.history }
    | _ => none
  | .c_register b =>
    match s.cpc with
    | .idle => some { s with registered := b }
    | _ => none
  | .c_cas =>
    match s.cpc with
    | .idle =>
      if s.m_resetState = reset_state.valid then
        some { s with m_resetState := reset_state.reset_required, cpc := .rs_lock,
                      history := .cas_ok :: s.history }
      else some s
    | _ => none
  | .c_lock =>
    match s.cpc with
    | .rs_lock =>
      if s.m_mutex = none then
        some { s with m_mutex := some Thread.controller, cpc := .rs_call }
      else none
    | _ => none
  | .c_invoke =>
    match s.cpc with
    | .rs_call =>
      if s.registered then
        some { s with cpc := .rs_handler,
                      history := .handler_begin s.m_resetState :: s.history }
      else some { s with cpc := .rs_throw }
    | _ => none
  | .c_handler_return =>
    match s.cpc with
    | .rs_handler => some { s with cpc := .rs_store, history := .handler_end :: s.history }
    | _ => none
  | .c_handler_throw =>
    match s.cpc with
    | .rs_handler =>
      some { s with cpc := .rs_throw, history := .handler_throw :: s.history }
    | _ => none
  | .c_store =>
    match s.cpc with
    | .rs_store =>
      some { s with m_resetState := reset_state.ack_expected, cpc := .rs_unlock,
                    history := .set_ack :: s.history }
    | _ => none
  | .c_unlock =>
    match s.cpc with
    | .rs_unlock => some { s with m_mutex := none, cpc := .rs_notify }
    | _ => none
  | .c_notify =>
    match s.cpc with
    | .rs_notify =>
      some { s with
        wpc := (match s.wpc with
          | .wg_wait strong => .wg_wake strong
          | other => other)
        cpc := .idle
        history := .reset_done :: s.history }
    | _ => none
  | .c_unwind =>
    match s.cpc with
    | .rs_throw =>
      some { s with m_mutex := none, cpc := .idle, history := .reset_raised :: s.history }
    | _ => none

/-! ### Reading the history (newest event first) -/

/-- A compare-exchange of `reset()` has succeeded and no guard check has started since. -/
@[simp]
def pendingCas : List Event → Bool
  | [] => false
  | .cas_ok :: _ => true
  | .guard_begin _ _ :: _ => false
  | _ :: rest => pendingCas rest

/-- A guard check is in progress, and it is the first that started since a successful
compare-exchange of `reset()`. -/
@[simp]
def inFirstCheck : List Event → Bool
  | [] => false
  | .guard_end _ _ :: _ => false
  | .guard_begin _ _ :: rest => pendingCas rest
  | _ :: rest => inFirstCheck rest

/-- A `reset()` whose compare-exchange succeeded has returned, and no guard check has
started since that compare-exchange. -/
@[simp]
def pendingReturned : List Event → Bool
  | [] => false
  | .guard_begin _ _ :: _ => false
  | .reset_done :: rest => pendingCas rest
  | _ :: rest => pendingReturned rest

/-- A compare-exchange of `reset()` has succeeded and the handler has not returned since:
the handler invocation of the reset cycle under way has not run to completion. -/
@[simp]
def handlerPending : List Event → Bool
  | [] => false
  | .cas_ok :: _ => true
  | .handler_end :: _ => false
  | _ :: rest => handlerPending rest

/-- The handler has returned and no compare-exchange of `reset()` has succeeded since:
the handler invocation of the latest reset cycle has run to completion. -/
@[simp]
def handlerCompleted : List Event → Bool
  | [] => false
  | .cas_ok :: _ => false
  | .handler_end :: _ => true
  | _ :: rest => handlerCompleted rest

/-- The guard check that started last has executed line 28. -/
@[simp]
def storedInCheck : List Event → Bool
  | [] => false
  | .set_valid :: _ => true
  | .guard_begin _ _ :: _ => false
  | _ :: rest => storedInCheck rest

/-- The state that line 17 loaded in the guard check that started last. -/
@[simp]
def loadedInCheck : List Event → Option reset_state
  | [] => none
  | .guard_begin _ st :: _ => some st
  | _ :: rest => loadedInCheck rest

/-- The property `P e before` holds of every event `e` of the history and the history
`before` it. -/
@[simp]
def everywhere (P : Event → List Event → Prop) : List Event → Prop
  | [] => True
  | e :: before => P e before ∧ everywhere P before

/-- The worker owns the mutex at this point of its code. -/
def WorkerPc.holds : WorkerPc → Bool
  | .locked => true
  | .wg_pred _ => true
  | .wg_block _ => true
  | .wg_store _ => true
  | .wg_ret _ _ => true
  | _ => false

/-- The worker is inside `weak_guard` past line 20 and before line 28 has been executed. -/
def WorkerPc.slow : WorkerPc → Bool
  | .wg_pred _ => true
  | .wg_block _ => true
  | .wg_wait _ => true
  | .wg_wake _ => true
  | .wg_store _ => true
  | _ => false

/-- The controller owns the mutex at this point of `reset()`. -/
def ControllerPc.holds : ControllerPc → Bool
  | .rs_call => true
  | .rs_handler => true
  | .rs_store => true
  | .rs_unlock => true
  | .rs_throw => true
  | _ => false

/-- The controller is in `reset()` between the compare-exchange and line 56. -/
def ControllerPc.early : ControllerPc → Bool
  | .rs_lock => true
  | .rs_call => true
  | .rs_handler => true
  | .rs_store => true
  | .rs_throw => true
  | _ => false

/-- What holds of every event of a reachable history, given the history before it.
A guard check that starts while a compare-exchange is pending does not load `valid`, and
loads `ack_expected` when that `reset()` has returned; line 28 and line 56 are executed
only after the handler has returned; a guard check that is the first since a
compare-exchange returns `false`; a check returns `false` only after it has executed
line 28, and `true` exactly when it loaded `valid`; the handler is invoked in state
`reset_required`. -/
@[simp]
def EventOk (e : Event) (before : List Event) : Prop :=
  match e with
  | .guard_begin _ st =>
    (pendingCas before = true → st ≠ reset_state.valid) ∧
    (pendingReturned before = true → st = reset_state.ack_expected)
  | .set_valid => handlerCompleted before = true
  | .set_ack => handlerCompleted before = true
  | .guard_end _ b =>
    (inFirstCheck before = true → b = false) ∧
    (b = false → storedInCheck before = true) ∧
    (b = true ↔ loadedInCheck before = some reset_state.valid)
  | .handler_begin st => st = reset_state.reset_required
  | _ => True

/-- What holds of every reachable state of the two threads. -/
structure StateOk (s : Sys) : Prop where
  mutex : s.m_mutex =
    if s.wpc.holds then some Thread.worker
    else if s.cpc.holds then some Thread.controller else none
  excl : s.wpc.holds = true → s.cpc.holds = false
  lock : s.m_lock = s.wpc.holds
  early : s.cpc.early = true → s.m_resetState = reset_state.reset_required
  unlock : s.cpc = ControllerPc.rs_unlock → s.m_resetState = reset_state.ack_expected
  slow : s.wpc.slow = true → s.m_resetState ≠ reset_state.valid
  store : ∀ strong, s.wpc = WorkerPc.wg_store strong →
    s.m_resetState = reset_state.ack_expected
  hpend : handlerPending s.history = true → s.m_resetState = reset_state.reset_required
  hcomp : s.m_resetState = reset_state.ack_expected → handlerCompleted s.history = true
  cstore : s.cpc = ControllerPc.rs_store → handlerCompleted s.history = true
  pcas : pendingCas s.history = true →
    s.m_resetState ≠ reset_state.valid ∧ s.wpc.slow = false
  first : inFirstCheck s.history = true →
    s.wpc.slow = true ∨ ∃ strong, s.wpc = WorkerPc.wg_ret strong false
  pret : pendingReturned s.history = true →
    s.m_resetState = reset_state.ack_expected ∧ s.cpc = ControllerPc.idle
  notify : s.cpc = ControllerPc.rs_notify → pendingCas s.history = true →
    s.m_resetState = reset_state.ack_expected
  stored : ∀ strong, s.wpc = WorkerPc.wg_ret strong false →
    storedInCheck s.history = true
  loaded : ∀ strong b, s.wpc = WorkerPc.wg_ret strong b →
    (b = true ↔ loadedInCheck s.history = some reset_state.valid)
  loadedSlow : s.wpc.slow = true → loadedInCheck s.history ≠ some reset_state.valid
  direct : loadedInCheck s.history = some reset_state.ack_expected → s.wpc.slow = true →
    s.m_resetState = reset_state.ack_expected ∧
      ((∃ strong, s.wpc = WorkerPc.wg_pred strong) ∨
        ∃ strong, s.wpc = WorkerPc.wg_store strong)

/-- Handler before resume, event by event.
A guard check returns `true` exactly when line 17 loaded `valid`; a check that found
another state returns (`false`, or `ObjectWasReset` from `strong_guard`) only after it
has executed line 28; line 28 and line 56 are executed only when the handler of the
latest reset cycle has returned; the handler is invoked in state `reset_required`. -/
def HandlerBeforeResume (e : Event) (before : List Event) : Prop :=
  match e with
  | .guard_end _ b =>
    (b = true ↔ loadedInCheck before = some reset_state.valid) ∧
    (b = false → storedInCheck before = true)
  | .set_valid => handlerCompleted before = true
  | .set_ack => handlerCompleted before = true
  | .handler_begin st => st = reset_state.reset_required
  | _ => True

/-- The changes of `m_resetState` one atomic step may make: none; `valid` to
`reset_required`, by the compare-exchange of `reset()`; `reset_required` to
`ack_expected`, by line 56 of `reset()`; `ack_expected` to `valid`, by line 28 of
`weak_guard`. -/
def CycleStep (a : Action) (old new : reset_state) : Prop :=
  new = old ∨
  (a = Action.c_cas ∧ old = reset_state.valid ∧ new = reset_state.reset_required) ∨
  (a = Action.c_store ∧ old = reset_state.reset_required ∧
    new = reset_state.ack_expected) ∨
  (a = Action.w_store ∧ old = reset_state.ack_expected ∧ new = reset_state.valid)

/-- Take the steps of a schedule one after another, when each can be taken. -/
def exec : List Action → Sys → Option Sys
  | [], s => some s
  | a :: rest, s =>
    match step a s with
    | some s1 => exec rest s1
    | none => none

/-- The states the two threads can reach from the start. -/
inductive Reachable : Sys → Prop where
  | init : Reachable Sys.init
  | step (a : Action) (s s1 : Sys) : Reachable s → step a s = some s1 → Reachable s1

/-- A schedule: the handler is registered, the worker takes the lock, `reset()` makes its
compare-exchange, the worker starts a `strong_guard` and goes to sleep in the wait, and
the controller takes the mutex and invokes the handler. -/
def checkDuringReset : List Action :=
  [Action.c_register true, Action.w_lock, Action.c_cas, Action.w_check true, Action.w_pred,
    Action.w_wait, Action.c_lock, Action.c_invoke]

/-- The state `checkDuringReset` ends in: the handler is running and the worker sleeps in
the wait. -/
def duringHandler : Sys :=
  { m_resetState := reset_state.reset_required
    m_mutex := some Thread.controller
    m_lock := false
    registered := true
    wpc := WorkerPc.wg_wait true
    cpc := ControllerPc.rs_handler
    history :=
      [Event.handler_begin reset_state.reset_required,
        Event.guard_begin true reset_state.reset_required, Event.cas_ok] }

/-- A schedule: `checkDuringReset`, then the handler returns, `reset()` runs to its end,
and the worker wakes, takes the mutex again, stores `valid` and returns from
`weak_guard` with `false`. -/
def checkAcrossReset : List Action :=
  checkDuringReset ++
    [Action.c_handler_return, Action.c_store, Action.c_unlock, Action.c_notify,
      Action.w_reacquire, Action.w_pred, Action.w_store, Action.w_return]

/-- The state `checkAcrossReset` ends in. -/
def afterCheckAcrossReset : Sys :=
  { m_resetState := reset_state.valid
    m_mutex := some Thread.worker
    m_lock := true
    registered := true
    wpc := WorkerPc.locked
    cpc := ControllerPc.idle
    history :=
      [Event.guard_end true false, Event.set_valid, Event.reset_done, Event.set_ack,
        Event.handler_end, Event.handler_begin reset_state.reset_required,
        Event.guard_begin true reset_state.reset_required, Event.cas_ok] }

/-! ## The member functions at their suspension points

A `reset()` that finds the mutex taken, and a guard check that has to wait, are suspended
in the middle of the function.  The definitions below are the two halves of `reset()`
and the rest of a guard check after the wait, so that a call of one thread can be
followed across the steps of the other. -/

namespace ResetGuard

variable {ι R : Type} [DecidableEq ι]

/-- Lines 47-51 of `ResetGuard::reset`: the compare-exchange.  The flag tells whether it
succeeded; on success the state is `reset_required`. -/
def reset_cas (this : ι) (p : Process ι R) : Bool × Process ι R :=
  let g := p.heap this
  if g.m_resetState = reset_state.valid then
    (true, p.put this { g with m_resetState := reset_state.reset_required })
  else (false, p)

/-- Lines 53-59 of `ResetGuard::reset`, run after a successful compare-exchange: the
block with the scoped lock on `m_mutex`, the handler, the store of `ack_expected`, and
`notify_all`. -/
def reset_finish (self : ThreadId) (this : ι) (p : Process ι R) :
    Outcome Unit (Process ι R) :=
  let g1 := p.heap this
  match g1.m_mutex with
  | some owner => if owner = self then .undefined else .blocked p
  | none =>
    let g2 := { g1 with m_mutex := some self }
    match g2.m_resetHandler with
    | none => .raised Exn.bad_function_call (p.put this { g2 with m_mutex := none })
    | some handler =>
      let g3 := { g2 with handlerCalls := g2.handlerCalls ++ [g2.m_resetState] }
      match handler p.world with
      | .throws w =>
        .raised Exn.handler_exception
          { p.put this { g3 with m_mutex := none } with world := w }
      | .normal w =>
        .returned ()
          { p.put this { g3 with m_resetState := reset_state.ack_expected, m_mutex := none }
            with world := w }

/-- The rest of `ResetGuard::weak_guard` for a thread that sleeps in `m_cv.wait(m_lock)`
(line 26) and is woken: `wait` takes the mutex again (the thread stays suspended while
another thread owns it), the loop evaluates the predicate again, which reads the object
the static closure captured, and either the thread sleeps again or lines 28-29 store
`valid` and return `false`. -/
def weak_guard_resume (self : ThreadId) (this : ι) (p : Process ι R) :
    Outcome Bool (Process ι R) :=
  let g := p.heap this
  match g.m_mutex with
  | some owner => if owner = self then .undefined else .blocked p
  | none =>
    let captured := p.ack_expected.getD this
    if (p.heap captured).m_resetState = reset_state.ack_expected then
      .returned false
        (p.put this
          { g with m_resetState := reset_state.valid, m_mutex := some self, m_lock := true })
    else .blocked p

/-- The rest of `ResetGuard::strong_guard` (lines 34-37) for a thread woken inside its
call of `weak_guard`. -/
def strong_guard_resume (self : ThreadId) (this : ι) (p : Process ι R) :
    Outcome Unit (Process ι R) :=
  match weak_guard_resume self this p with
  | .returned true p1 => .returned () p1
  | .returned false p1 => .raised Exn.ObjectWasReset p1
  | .raised e p1 => .raised e p1
  | .blocked p1 => .blocked p1
  | .undefined => .undefined

end ResetGuard

/-- The rest of the block `{ auto lock = std::scoped_lock{ resetGuard }; body }` for a
thread that was suspended inside the body: the rest of the body, then `unlock()` from
the destructor of the scoped lock. -/
def scoped_lock_resume {ι R α : Type} [DecidableEq ι] (self : ThreadId) (this : ι)
    (rest : Process ι R → Outcome α (Process ι R)) (p : Process ι R) :
    Outcome α (Process ι R) :=
  match rest p with
  | .returned a p2 =>
    match ResetGuard.unlock self this p2 with
    | .returned _ p3 => .returned a p3
    | .raised _ _ => .undefined
    | .blocked p3 => .blocked p3
    | .undefined => .undefined
  | .raised e p2 =>
    match ResetGuard.unlock self this p2 with
    | .returned _ p3 => .raised e p3
    | .raised _ _ => .undefined
    | .blocked p3 => .blocked p3
    | .undefined => .undefined
  | .blocked p2 => .blocked p2
  | .undefined => .undefined

/-! ## The demonstration (ResettableObjects.cpp)

A chain is a `Counter` inside `d` `IntermediateCounter` wrappers (`main` builds `d = 3`).
A layer is named by the number of wrappers below it: the `Counter` is layer `0`, the
outermost wrapper is layer `d`. -/

/-- A line written to `std::cout`: the counter value of `Counter::IncrementAndPrint`
(line 38), the line of an `IntermediateCounter` (line 63, the address of the object given
as its layer), or "Counter was reset!" of `count` (line 96). -/
inductive Line where
  | value (n : Nat)
  | object (layer : Nat)
  | was_reset
  deriving DecidableEq, Repr

/-- What the demonstration guards: `Counter::m_counter`, a `uint64_t`, and the output. -/
structure Demo where
  m_counter : Nat
  cout : List Line
  deriving DecidableEq, Repr

/-- The member function `ICounter::Reset` of layer `r`: `IntermediateCounter::Reset`
(lines 68-71) calls `Reset` of the layer below, `Counter::Reset` (lines 41-44) sets
`m_counter` to 0. -/
def Reset : Nat → Demo → Demo
  | 0, w => { w with m_counter := 0 }
  | r + 1, w => Reset r w

/-- A call of `Reset()` on layer `r` as a call in a process: it touches nothing but the
guarded resource. -/
def callReset {ι : Type} (r : Nat) (p : Process ι Demo) : Outcome Unit (Process ι Demo) :=
  .returned () { p with world := Reset r p.world }

/-- The lambda `onReset` of `main` (lines 108-111) for a chain of `d` wrappers: `Reset()`
on the outermost layer. -/
def onReset (d : Nat) : Demo → Completion Demo :=
  fun w => .normal (Reset d w)

/-- What the other thread does to the process just before the guard check of a layer,
while the calling thread is inside `IncrementAndPrint`. -/
abbrev Interference (ι : Type) := Nat → Process ι Demo → Process ι Demo

/-- No step of another thread during the call. -/
def noInterference {ι : Type} : Interference ι := fun _ p => p

/-- The controller makes the compare-exchange of `reset()` just before the guard check of
layer `r`, and nothing else during the call (the rest of `reset()` needs the mutex). -/
def casBefore {ι : Type} [DecidableEq ι] (this : ι) (r : Nat) : Interference ι :=
  fun layer p => if layer = r then (ResetGuard.reset_cas this p).2 else p

/-- The member function `ICounter::IncrementAndPrint` of layer `r`.
`Counter::IncrementAndPrint` (lines 35-39): `strong_guard`, then `++m_counter` (modulo
`2 ^ 64`) and print it.  `IntermediateCounter::IncrementAndPrint` (lines 60-66):
`strong_guard`, print a line, call the layer below.  No layer catches an exception. -/
def IncrementAndPrint {ι : Type} [DecidableEq ι] (env : Interference ι) (self : ThreadId)
    (this : ι) : Nat → Process ι Demo → Outcome Unit (Process ι Demo)
  | 0, p =>
    match ResetGuard.strong_guard self this (env 0 p) with
    | .returned _ p1 =>
      .returned ()
        { p1 with world :=
            { m_counter := (p1.world.m_counter + 1) % 2 ^ 64
              cout := p1.world.cout ++ [Line.value ((p1.world.m_counter + 1) % 2 ^ 64)] } }
    | .raised e p1 => .raised e p1
    | .blocked p1 => .blocked p1
    | .undefined => .undefined
  | r + 1, p =>
    match ResetGuard.strong_guard self this (env (r + 1) p) with
    | .returned _ p1 =>
      IncrementAndPrint env self this r
        { p1 with world := { p1.world with cout := p1.world.cout ++ [Line.object (r + 1)] } }
    | .raised e p1 => .raised e p1
    | .blocked p1 => .blocked p1
    | .undefined => .undefined

/-- The rest of `IncrementAndPrint` for a thread that was suspended in the guard check of
layer `r` and is woken: the rest of `strong_guard`, then the rest of the layer. -/
def IncrementAndPrint_resume {ι : Type} [DecidableEq ι] (env : Interference ι)
    (self : ThreadId) (this : ι) : Nat → Process ι Demo → Outcome Unit (Process ι Demo)
  | 0, p =>
    match ResetGuard.strong_guard_resume self this p with
    | .returned _ p1 =>
      .returned ()
        { p1 with world :=
            { m_counter := (p1.world.m_counter + 1) % 2 ^ 64
              cout := p1.world.cout ++ [Line.value ((p1.world.m_counter + 1) % 2 ^ 64)] } }
    | .raised e p1 => .raised e p1
    | .blocked p1 => .blocked p1
    | .undefined => .undefined
  | r + 1, p =>
    match ResetGuard.strong_guard_resume self this p with
    | .returned _ p1 =>
      IncrementAndPrint env self this r
        { p1 with world := { p1.world with cout := p1.world.cout ++ [Line.object (r + 1)] } }
    | .raised e p1 => .raised e p1
    | .blocked p1 => .blocked p1
    | .undefined => .undefined

/-- One pass of the inner loop of `count` (lines 82-97) on a chain of `d` wrappers, with
no step of another thread during it: the scoped lock around `IncrementAndPrint` of the
outermost layer, and the handler of `ObjectWasReset`, which prints a line; the outcome
keeps the exception to show that the pass was aborted. -/
def count_pass {ι : Type} [DecidableEq ι] (self : ThreadId) (this : ι) (d : Nat)
    (p : Process ι Demo) : Outcome Unit (Process ι Demo) :=
  match scoped_lock self this (IncrementAndPrint noInterference self this d) p with
  | .raised Exn.ObjectWasReset p1 =>
    .raised Exn.ObjectWasReset
      { p1 with world := { p1.world with cout := p1.world.cout ++ [Line.was_reset] } }
  | o => o

/-- One operation of the two threads of `main`, each run to its end: a pass of the loop
of `count` by the worker, or a `reset()` by the controller. -/
inductive DemoOp where
  | increment
  | reset
  deriving DecidableEq, Repr

/-- Run one `DemoOp` on a chain of `d` wrappers. -/
def runDemo {ι : Type} [DecidableEq ι] (worker controller : ThreadId) (this : ι) (d : Nat) :
    DemoOp → Process ι Demo → Outcome Unit (Process ι Demo)
  | .increment, p => count_pass worker this d p
  | .reset, p => ResetGuard.reset controller this p

/-- The start of `main` for a chain of `d` wrappers: a fresh guard with `onReset`
registered, the counter at `c`. -/
def Demo.start (d c : Nat) : Process Unit Demo :=
  Process.start (some (onReset d)) { m_counter := c, cout := [] }

/-! ## Two guards in one process -/

/-- The names of two `ResetGuard` objects. -/
inductive GuardName where
  | A
  | B
  deriving DecidableEq, Repr

/-- A process with two fresh guards, each with a handler that returns and leaves the
resource alone, and no call of `weak_guard` yet. -/
def twoGuards : Process GuardName Nat :=
  { heap := fun _ =>
      { ResetGuard.fresh Nat with m_resetHandler := some (fun w => Completion.normal w) }
    ack_expected := none
    world := 0 }

/-- Thread `self` makes the call `c` on the object `this`. -/
def callOn {ι R : Type} [DecidableEq ι] :
    ι × ThreadId × Call R → Process ι R → Outcome (Option Bool) (Process ι R)
  | (this, x), p => call this x p

/-! ## Theorems: the member functions call by call -/

section CallLevel

variable {ι R : Type} [DecidableEq ι]

/-- Reading back the object that was just replaced. -/
theorem Process.put_heap_same (p : Process ι R) (this : ι) (g : ResetGuard R) :
    (p.put this g).heap this = g := by
  simp [Process.put]

/-- Replacing an object leaves the guarded resource alone. -/
theorem Process.put_world (p : Process ι R) (this : ι) (g : ResetGuard R) :
    (p.put this g).world = p.world := rfl

/-- On a `valid` state `weak_guard` returns `true` and changes nothing, whatever the
lock and whatever the static closure is bound to. -/
theorem weak_guard_of_valid (self : ThreadId) (this : ι) (p : Process ι R)
    (hv : (p.heap this).m_resetState = reset_state.valid) :
    ResetGuard.weak_guard self this p = .returned true p := by
  simp [ResetGuard.weak_guard, hv]

/-- On an `ack_expected` state, when the static closure is not built yet or is bound to
this object, `weak_guard` stores `valid` and returns `false`. -/
theorem weak_guard_of_ack (self : ThreadId) (this : ι) (p : Process ι R)
    (ha : (p.heap this).m_resetState = reset_state.ack_expected)
    (hc : p.ack_expected.getD this = this) :
    ResetGuard.weak_guard self this p =
      .returned false
        (({ p with ack_expected := some this } : Process ι R).put this
          { p.heap this with m_resetState := reset_state.valid }) := by
  simp [ResetGuard.weak_guard, ha, hc]

/-- In a process with one `ResetGuard` the static closure can only be bound to it. -/
theorem captured_unit (p : Process Unit R) : p.ack_expected.getD () = () := rfl

/-- The function `weak_guard` never throws. -/
theorem weak_guard_not_raised (self : ThreadId) (this : ι) (p : Process ι R) (e : Exn)
    (p1 : Process ι R) : ResetGuard.weak_guard self this p ≠ .raised e p1 := by
  unfold ResetGuard.weak_guard
  simp only
  split_ifs <;> simp

/-- When `weak_guard` returns, the state on entry was `valid` if it returns `true`, and
the object the static closure reads was in `ack_expected` if it returns `false`. -/
theorem weak_guard_returned (self : ThreadId) (this : ι) (p p1 : Process ι R) (b : Bool)
    (h : ResetGuard.weak_guard self this p = .returned b p1) :
    (b = true ∧ (p.heap this).m_resetState = reset_state.valid ∧ p1 = p) ∨
    (b = false ∧ (p.heap this).m_resetState ≠ reset_state.valid ∧
      (p.heap (p.ack_expected.getD this)).m_resetState = reset_state.ack_expected ∧
      p1 = ({ p with ack_expected := some (p.ack_expected.getD this) } : Process ι R).put this
          { p.heap this with m_resetState := reset_state.valid }) := by
  unfold ResetGuard.weak_guard at h
  simp only at h
  split_ifs at h with h1 h2 h3
  · left
    simp only [Outcome.returned.injEq] at h
    exact ⟨h.1.symm, h1, h.2.symm⟩
  · right
    simp only [Outcome.returned.injEq] at h
    exact ⟨h.1.symm, h1, h2, h.2.symm⟩

/-- A `reset()` on a state that is not `valid` returns at once and changes nothing. -/
theorem reset_of_not_valid (self : ThreadId) (this : ι) (p : Process ι R)
    (hv : (p.heap this).m_resetState ≠ reset_state.valid) :
    ResetGuard.reset self this p = .returned () p := by
  simp [ResetGuard.reset, hv]

/-- A `reset()` on a `valid` state with the mutex free and a callback that returns. -/
theorem reset_of_valid_normal (self : ThreadId) (this : ι) (p : Process ι R)
    (handler : R → Completion R) (w : R)
    (hv : (p.heap this).m_resetState = reset_state.valid)
    (hm : (p.heap this).m_mutex = none)
    (hh : (p.heap this).m_resetHandler = some handler)
    (hw : handler p.world = .normal w) :
    ResetGuard.reset self this p =
      .returned ()
        { p.put this
            { p.heap this with
              m_resetState := reset_state.ack_expected
              m_mutex := none
              handlerCalls := (p.heap this).handlerCalls ++ [reset_state.reset_required] }
          with world := w } := by
  simp [ResetGuard.reset, hv, hm, hh, hw]

/-- A `reset()` on a `valid` state with the mutex free and a callback that throws. -/
theorem reset_of_valid_throws (self : ThreadId) (this : ι) (p : Process ι R)
    (handler : R → Completion R) (w : R)
    (hv : (p.heap this).m_resetState = reset_state.valid)
    (hm : (p.heap this).m_mutex = none)
    (hh : (p.heap this).m_resetHandler = some handler)
    (hw : handler p.world = .throws w) :
    ResetGuard.reset self this p =
      .raised Exn.handler_exception
        { p.put this
            { p.heap this with
              m_resetState := reset_state.reset_required
              m_mutex := none
              handlerCalls := (p.heap this).handlerCalls ++ [reset_state.reset_required] }
          with world := w } := by
  simp [ResetGuard.reset, hv, hm, hh, hw]

/-- A `reset()` that returns leaves a state that is not `valid`. -/
theorem reset_returned_not_valid (self : ThreadId) (this : ι) (p p1 : Process ι R)
    (h : ResetGuard.reset self this p = .returned () p1) :
    (p1.heap this).m_resetState ≠ reset_state.valid := by
  unfold ResetGuard.reset at h
  simp only at h
  split_ifs at h with h1
  · split at h
    · split_ifs at h
    · split at h
      · simp at h
      · split at h
        · simp at h
        · simp only [Outcome.returned.injEq, true_and] at h
          subst h
          simp [Process.put]
  · simp only [Outcome.returned.injEq, true_and] at h
    subst h
    exact h1

/-- Calls of `reset()` one after another do what the first of them does. -/
theorem resetN_succ (self : ThreadId) (this : ι) (n : Nat) (p : Process ι R) :
    resetN self this (n + 1) p = ResetGuard.reset self this p := by
  induction n generalizing p with
  | zero =>
    simp only [resetN]
    cases h : ResetGuard.reset self this p <;> simp
  | succ n ih =>
    rw [resetN]
    cases h : ResetGuard.reset self this p with
    | returned a p1 =>
      simp only
      rw [ih p1]
      exact reset_of_not_valid self this p1 (reset_returned_not_valid self this p p1 h)
    | raised e p1 => rfl
    | blocked p1 => rfl
    | undefined => rfl

/-- What `lock()` can do: it never touches the reset state or the handler record, and the
only exception it throws is `system_error`. -/
theorem lock_effect (self : ThreadId) (this : ι) (p : Process ι R) :
    (∀ p1, (ResetGuard.lock self this p).state? = some p1 →
      (p1.heap this).m_resetState = (p.heap this).m_resetState ∧
      (p1.heap this).handlerCalls = (p.heap this).handlerCalls) ∧
    (∀ e p1, ResetGuard.lock self this p = .raised e p1 → e = Exn.system_error) := by
  cases hl : (p.heap this).m_lock <;> cases hm : (p.heap this).m_mutex <;>
    simp [ResetGuard.lock, hl, hm, Outcome.state?, Process.put]
  split_ifs <;> simp

/-- What `unlock()` can do: it never touches the reset state or the handler record, and
the only exception it throws is `system_error`. -/
theorem unlock_effect (self : ThreadId) (this : ι) (p : Process ι R) :
    (∀ p1, (ResetGuard.unlock self this p).state? = some p1 →
      (p1.heap this).m_resetState = (p.heap this).m_resetState ∧
      (p1.heap this).handlerCalls = (p.heap this).handlerCalls) ∧
    (∀ e p1, ResetGuard.unlock self this p = .raised e p1 → e = Exn.system_error) := by
  cases hl : (p.heap this).m_lock <;>
    simp [ResetGuard.unlock, hl, Outcome.state?, Process.put]
  split_ifs <;> simp

/-- What `registerResetHandler` does: it returns, with the reset state and the handler
record as they were. -/
theorem registerResetHandler_effect (cb : ResetHandler R) (this : ι) (p : Process ι R) :
    ∃ p1, ResetGuard.registerResetHandler cb this p = .returned () p1 ∧
      (p1.heap this).m_resetState = (p.heap this).m_resetState ∧
      (p1.heap this).handlerCalls = (p.heap this).handlerCalls ∧
      (p1.heap this).m_resetHandler = cb := by
  exact ⟨_, rfl, by simp [Process.put]⟩

/-- What `weak_guard` can do, in terms of the state it ends in: return `true` on a
`valid` state with nothing changed; return `false` with the state `valid` and the
handler record as it was, when the state was not `valid` and the object the static
closure reads was in `ack_expected`; or suspend the caller with the state and the
handler record as they were, when the state was not `valid` and the object the closure
reads was not in `ack_expected`. -/
theorem weak_guard_effect (self : ThreadId) (this : ι) (p p1 : Process ι R)
    (h : (ResetGuard.weak_guard self this p).state? = some p1) :
    ((p.heap this).m_resetState = reset_state.valid ∧ p1 = p ∧
      ResetGuard.weak_guard self this p = .returned true p1) ∨
    ((p.heap this).m_resetState ≠ reset_state.valid ∧
      (p.heap (p.ack_expected.getD this)).m_resetState = reset_state.ack_expected ∧
      (p1.heap this).m_resetState = reset_state.valid ∧
      (p1.heap this).handlerCalls = (p.heap this).handlerCalls ∧
      ResetGuard.weak_guard self this p = .returned false p1) ∨
    ((p.heap this).m_resetState ≠ reset_state.valid ∧
      (p.heap (p.ack_expected.getD this)).m_resetState ≠ reset_state.ack_expected ∧
      (p1.heap this).m_resetState = (p.heap this).m_resetState ∧
      (p1.heap this).handlerCalls = (p.heap this).handlerCalls ∧
      ResetGuard.weak_guard self this p = .blocked p1) := by
  unfold ResetGuard.weak_guard at h ⊢
  simp only at h ⊢
  split_ifs at h ⊢ with h1 h2 h3
  · simp only [Outcome.state?, Option.some.injEq] at h
    subst h
    simp [h1]
  · simp only [Outcome.state?, Option.some.injEq] at h
    subst h
    simp [h1, h2, Process.put]
  · simp only [Outcome.state?, Option.some.injEq] at h
    subst h
    simp [h1, h2, Process.put]
  · simp [Outcome.state?] at h

/-- What `reset()` can do, in terms of the state it ends in: nothing, on a state that is
not `valid`; from a `valid` state, stop at `reset_required` before the handler is
invoked (suspended on the mutex, or thrown out by an empty handler), stop at
`reset_required` after one handler invocation that threw, or return in `ack_expected`
after one handler invocation. -/
theorem reset_effect (self : ThreadId) (this : ι) (p p1 : Process ι R)
    (h : (ResetGuard.reset self this p).state? = some p1) :
    ((p.heap this).m_resetState ≠ reset_state.valid ∧ p1 = p ∧
      ResetGuard.reset self this p = .returned () p1) ∨
    ((p.heap this).m_resetState = reset_state.valid ∧
      (p1.heap this).m_resetState = reset_state.reset_required ∧
      (p1.heap this).handlerCalls = (p.heap this).handlerCalls ∧
      (ResetGuard.reset self this p = .blocked p1 ∨
        ResetGuard.reset self this p = .raised Exn.bad_function_call p1)) ∨
    ((p.heap this).m_resetState = reset_state.valid ∧
      (p1.heap this).m_resetState = reset_state.reset_required ∧
      (p1.heap this).handlerCalls =
        (p.heap this).handlerCalls ++ [reset_state.reset_required] ∧
      ResetGuard.reset self this p = .raised Exn.handler_exception p1) ∨
    ((p.heap this).m_resetState = reset_state.valid ∧
      (p1.heap this).m_resetState = reset_state.ack_expected ∧
      (p1.heap this).handlerCalls =
        (p.heap this).handlerCalls ++ [reset_state.reset_required] ∧
      ResetGuard.reset self this p = .returned () p1) := by
  by_cases hv : (p.heap this).m_resetState = reset_state.valid
  · cases hm : (p.heap this).m_mutex with
    | some owner =>
      by_cases ho : owner = self
      · simp [ResetGuard.reset, hv, hm, ho, Outcome.state?] at h
      · simp only [ResetGuard.reset, hv, hm, ho, Outcome.state?, if_true, if_false,
          Option.some.injEq] at h ⊢
        subst h
        simp [Process.put]
    | none =>
      cases hh : (p.heap this).m_resetHandler with
      | none =>
        simp only [ResetGuard.reset, hv, hm, hh, Outcome.state?, if_true,
          Option.some.injEq] at h ⊢
        subst h
        simp [Process.put]
      | some handler =>
        cases hw : handler p.world with
        | normal w =>
          simp only [ResetGuard.reset, hv, hm, hh, hw, Outcome.state?, if_true,
            Option.some.injEq] at h ⊢
          subst h
          simp [Process.put]
        | throws w =>
          simp only [ResetGuard.reset, hv, hm, hh, hw, Outcome.state?, if_true,
            Option.some.injEq] at h ⊢
          subst h
          simp [Process.put]
  · simp only [ResetGuard.reset, hv, Outcome.state?, if_false, Option.some.injEq] at h ⊢
    subst h
    simp [hv]

/-- The state `strong_guard` leaves is the state its call of `weak_guard` leaves. -/
theorem strong_guard_state (self : ThreadId) (this : ι) (p : Process ι R) :
    (ResetGuard.strong_guard self this p).state? =
      (ResetGuard.weak_guard self this p).state? := by
  unfold ResetGuard.strong_guard
  cases h : ResetGuard.weak_guard self this p with
  | returned b q => cases b <;> rfl
  | raised e1 q => rfl
  | blocked q => rfl
  | undefined => rfl

end CallLevel

/-- C1. `weak_guard` in a process whose one `ResetGuard` is the object it is called on,
for every state of the lock (so also with the lock held, and then the lock stays held):
on a `valid` state it returns `true` and changes nothing at all, so the state stays
`valid` and the handler is not invoked; on an `ack_expected` state it returns `false`
and leaves the state `valid`, with the lock, the handler, the record of handler
invocations and the guarded resource as they were. -/
theorem weak_guard_contract {R : Type} (self : ThreadId) (p : Process Unit R) :
    ((p.heap ()).m_resetState = reset_state.valid →
      ResetGuard.weak_guard self () p = .returned true p) ∧
    ((p.heap ()).m_resetState = reset_state.ack_expected →
      ∃ p1, ResetGuard.weak_guard self () p = .returned false p1 ∧
        (p1.heap ()).m_resetState = reset_state.valid ∧
        (p1.heap ()).m_mutex = (p.heap ()).m_mutex ∧
        (p1.heap ()).m_lock = (p.heap ()).m_lock ∧
        (p1.heap ()).m_resetHandler = (p.heap ()).m_resetHandler ∧
        (p1.heap ()).handlerCalls = (p.heap ()).handlerCalls ∧
        p1.world = p.world) := by
  refine ⟨weak_guard_of_valid self () p, fun ha => ?_⟩
  refine ⟨_, weak_guard_of_ack self () p ha (captured_unit p), ?_⟩
  simp [Process.put]

/-- C2. `strong_guard` throws exactly when its call of `weak_guard` returns `false`, and
then it throws `ObjectWasReset` in the state `weak_guard` left; `weak_guard` returns
`false` only when the state on entry was not `valid` and `true` only when it was; on a
`valid` state `strong_guard` returns with nothing changed; on a state that is not
`valid` it never returns normally; and the state it leaves is always the state
`weak_guard` leaves.  This holds for every process, object and thread.
When the static closure of `weak_guard` is not built yet or is bound to this object:
on `ack_expected` the call throws `ObjectWasReset` and leaves the state `valid`; on
`reset_required`, with the lock held, the call is suspended in the wait with the state
still `reset_required` (it goes on when the controller has stored `ack_expected`). -/
theorem strong_guard_raises_iff {ι R : Type} [DecidableEq ι] (self : ThreadId) (this : ι)
    (p : Process ι R) :
    (∀ e p1, ResetGuard.strong_guard self this p = .raised e p1 ↔
      (e = Exn.ObjectWasReset ∧ ResetGuard.weak_guard self this p = .returned false p1)) ∧
    (∀ b p1, ResetGuard.weak_guard self this p = .returned b p1 →
      (b = false ↔ (p.heap this).m_resetState ≠ reset_state.valid)) ∧
    ((p.heap this).m_resetState = reset_state.valid →
      ResetGuard.strong_guard self this p = .returned () p) ∧
    ((p.heap this).m_resetState ≠ reset_state.valid →
      ∀ p1, ResetGuard.strong_guard self this p ≠ .returned () p1) ∧
    (ResetGuard.strong_guard self this p).state? =
      (ResetGuard.weak_guard self this p).state? ∧
    ((p.heap this).m_resetState = reset_state.ack_expected →
      p.ack_expected.getD this = this →
      ∃ p1, ResetGuard.strong_guard self this p = .raised Exn.ObjectWasReset p1 ∧
        (p1.heap this).m_resetState = reset_state.valid) ∧
    ((p.heap this).m_resetState = reset_state.reset_required →
      p.ack_expected.getD this = this →
      (p.heap this).m_lock = true → (p.heap this).m_mutex = some self →
      ∃ p1, ResetGuard.strong_guard self this p = .blocked p1 ∧
        (p1.heap this).m_resetState = reset_state.reset_required) := by
  refine ⟨?_, ?_, ?_, ?_, ?_, ?_, ?_⟩
  · intro e p1
    unfold ResetGuard.strong_guard
    cases h : ResetGuard.weak_guard self this p with
    | returned b q =>
      cases b <;> simp [eq_comm]
    | raised e1 q => exact absurd h (weak_guard_not_raised self this p e1 q)
    | blocked q => simp
    | undefined => simp
  · intro b p1 h
    rcases weak_guard_returned self this p p1 b h with ⟨hb, hv, _⟩ | ⟨hb, hv, _⟩
    · simp [hb, hv]
    · simp [hb, hv]
  · intro hv
    simp [ResetGuard.strong_guard, weak_guard_of_valid self this p hv]
  · intro hv p1
    unfold ResetGuard.strong_guard
    cases h : ResetGuard.weak_guard self this p with
    | returned b q =>
      rcases weak_guard_returned self this p q b h with ⟨_, hv1, _⟩ | ⟨hb, _, _⟩
      · exact absurd hv1 hv
      · subst hb
        simp
    | raised e1 q => simp
    | blocked q => simp
    | undefined => simp
  · exact strong_guard_state self this p
  · intro ha hc
    simp only [ResetGuard.strong_guard, weak_guard_of_ack self this p ha hc]
    exact ⟨_, rfl, by simp [Process.put]⟩
  · intro hr hc hl hm
    simp only [ResetGuard.strong_guard, ResetGuard.weak_guard, hr, hc, hl, hm,
      reduceCtorEq, if_false, and_self, if_true]
    exact ⟨_, rfl, by simp [Process.put, hr]⟩

/-- C3. `reset()` on a `valid` state, with a registered handler and the mutex free:
the call ends in a state `p1` in which exactly one handler invocation has been added to
the record, and the reset state at that invocation was `reset_required`; when the
handler returns, `reset()` returns, the state is `ack_expected`, the mutex is free again
and the guarded resource is what the one handler call made of it; when the handler
throws, `reset()` does not return. -/
theorem reset_invokes_handler_once {ι R : Type} [DecidableEq ι] (self : ThreadId)
    (this : ι) (p : Process ι R) (handler : R → Completion R)
    (hv : (p.heap this).m_resetState = reset_state.valid)
    (hm : (p.heap this).m_mutex = none)
    (hh : (p.heap this).m_resetHandler = some handler) :
    ∃ p1, (ResetGuard.reset self this p).state? = some p1 ∧
      (p1.heap this).handlerCalls =
        (p.heap this).handlerCalls ++ [reset_state.reset_required] ∧
      (∀ w, handler p.world = .normal w →
        ResetGuard.reset self this p = .returned () p1 ∧
        (p1.heap this).m_resetState = reset_state.ack_expected ∧
        (p1.heap this).m_mutex = none ∧ p1.world = w) ∧
      (∀ w, handler p.world = .throws w →
        ResetGuard.reset self this p = .raised Exn.handler_exception p1 ∧
        (p1.heap this).m_resetState = reset_state.reset_required) := by
  cases hw : handler p.world with
  | normal w =>
    have h := reset_of_valid_normal self this p handler w hv hm hh hw
    rw [h]
    refine ⟨_, rfl, ?_, ?_, ?_⟩
    · simp [Process.put]
    · intro w1 h1
      cases h1
      simp [Process.put]
    · intro w1 h1
      cases h1
  | throws w =>
    have h := reset_of_valid_throws self this p handler w hv hm hh hw
    rw [h]
    refine ⟨_, rfl, ?_, ?_, ?_⟩
    · simp [Process.put]
    · intro w1 h1
      cases h1
    · intro w1 h1
      cases h1
      simp [Process.put]

/-- C3, at a concrete input: a fresh guard whose handler sets a counter at 7 to 0. -/
theorem reset_invokes_handler_once_witness :
    ∃ p1 : Process Unit Nat,
      ResetGuard.reset 1 () (Process.start (some fun _ => Completion.normal 0) 7) =
        .returned () p1 ∧
      (p1.heap ()).handlerCalls = [reset_state.reset_required] ∧
      (p1.heap ()).m_resetState = reset_state.ack_expected ∧ p1.world = 0 := by
  obtain ⟨p1, _, hc, hn, _⟩ :=
    reset_invokes_handler_once 1 () (Process.start (some fun _ => Completion.normal 0) 7)
      (fun _ => Completion.normal 0) rfl rfl rfl
  obtain ⟨h1, h2, _, h4⟩ := hn 0 rfl
  exact ⟨p1, h1, hc, h2, h4⟩

/-- C4. `reset()` while a reset is pending is a no-op: on a `reset_required` or
`ack_expected` state it returns with nothing changed (state, handler record, resource);
`n + 1` calls of `reset()` one after another do exactly what a single call does, from
every state; and from a `valid` state with the mutex free and a registered handler that
returns, `n + 1` calls invoke the handler once, in state `reset_required`, and end in
`ack_expected`. -/
theorem reset_idempotent_while_pending {ι R : Type} [DecidableEq ι] (self : ThreadId)
    (this : ι) (p : Process ι R) (n : Nat) :
    (((p.heap this).m_resetState = reset_state.reset_required ∨
        (p.heap this).m_resetState = reset_state.ack_expected) →
      ResetGuard.reset self this p = .returned () p) ∧
    resetN self this (n + 1) p = ResetGuard.reset self this p ∧
    (∀ handler w, (p.heap this).m_resetState = reset_state.valid →
      (p.heap this).m_mutex = none → (p.heap this).m_resetHandler = some handler →
      handler p.world = .normal w →
      ∃ p1, resetN self this (n + 1) p = .returned () p1 ∧
        (p1.heap this).m_resetState = reset_state.ack_expected ∧
        (p1.heap this).handlerCalls =
          (p.heap this).handlerCalls ++ [reset_state.reset_required] ∧
        p1.world = w) := by
  refine ⟨?_, resetN_succ self this n p, ?_⟩
  · intro h
    apply reset_of_not_valid
    rcases h with h | h <;> simp [h]
  · intro handler w hv hm hh hw
    rw [resetN_succ, reset_of_valid_normal self this p handler w hv hm hh hw]
    refine ⟨_, rfl, ?_⟩
    simp [Process.put]

/-! ## Theorems: sequences of calls on one guard -/

section Sequences

variable {R : Type}

/-- In a process with one guard, putting back the object that is there changes nothing. -/
theorem Process.put_self (p : Process Unit R) (g : ResetGuard R) (h : g = p.heap ()) :
    p.put () g = p := by
  cases p with
  | mk heap cap world =>
    simp only [Process.put, Process.mk.injEq, and_true]
    funext u
    cases u
    simp [h]

/-- A guarded `strong_guard` on a `valid` state with the lock free returns and leaves the
process as it was, inside the scoped lock of `count` or outside of it. -/
theorem runOp_check_valid (worker controller : ThreadId) (inScope : Bool)
    (p : Process Unit R)
    (hv : (p.heap ()).m_resetState = reset_state.valid)
    (hm : (p.heap ()).m_mutex = none) (hl : (p.heap ()).m_lock = false) :
    runOp worker controller () (Op.check true inScope) p = .returned none p := by
  cases inScope with
  | false =>
    simp [runOp, call, ResetGuard.strong_guard, weak_guard_of_valid worker () p hv,
      Outcome.mapVal]
  | true =>
    have hput : ∀ g : ResetGuard R, (p.put () g).put ()
        { g with m_mutex := none, m_lock := false } =
        p.put () { g with m_mutex := none, m_lock := false } := by
      intro g
      simp [Process.put]
    simp only [runOp, scoped_lock, ResetGuard.lock, hl, hm, call, ResetGuard.strong_guard]
    simp [ResetGuard.weak_guard, ResetGuard.unlock, Process.put_heap_same, hv,
      Outcome.mapVal, hput]
    apply Process.put_self
    cases hg : p.heap () with
    | mk st mu lk hd calls =>
      rw [hg] at hm hl hv
      simp only at hm hl hv
      simp [hm, hl, hv]

/-- With one object in the process, replacing it gives the constant function. -/
theorem update_unit {α : Type} (f : Unit → α) (a : α) :
    Function.update f () a = fun _ => a := by
  funext u
  cases u
  simp

/-- A guarded `strong_guard` on an `ack_expected` state with the lock free throws
`ObjectWasReset` and leaves the state `valid`, the lock free and the rest as it was. -/
theorem runOp_check_ack (worker controller : ThreadId) (inScope : Bool)
    (p : Process Unit R)
    (ha : (p.heap ()).m_resetState = reset_state.ack_expected)
    (hm : (p.heap ()).m_mutex = none) (hl : (p.heap ()).m_lock = false) :
    runOp worker controller () (Op.check true inScope) p =
      .raised Exn.ObjectWasReset
        { heap := fun _ => { p.heap () with m_resetState := reset_state.valid }
          ack_expected := some ()
          world := p.world } := by
  cases inScope with
  | false =>
    simp [runOp, call, ResetGuard.strong_guard,
      weak_guard_of_ack worker () p ha (captured_unit p), Outcome.mapVal, Process.put,
      update_unit]
  | true =>
    simp only [runOp, scoped_lock, ResetGuard.lock, hl, hm, call, ResetGuard.strong_guard]
    simp [ResetGuard.weak_guard, ResetGuard.unlock, Process.put, ha, Outcome.mapVal,
      update_unit]

/-- Operations that return and leave the state as it was can be run any number of times. -/
theorem runWith_replicate {A β σ : Type} (f : A → σ → Outcome β σ) (a : A) (b : β) (s : σ)
    (h : f a s = .returned b s) (k : Nat) (rest : List A) :
    runWith f (List.replicate k a ++ rest) s =
      List.replicate k (.returned b s) ++ runWith f rest s := by
  induction k with
  | zero => simp
  | succ k ih => simp [List.replicate_succ, runWith, h, ih]

/-- The empty run. -/
theorem runWith_nil {A β σ : Type} (f : A → σ → Outcome β σ) (s : σ) :
    runWith f [] s = [] := rfl

/-- Counting the reported resets of a run, first outcome apart. -/
theorem acks_cons {σ : Type} (o : Outcome (Option Bool) σ)
    (outs : List (Outcome (Option Bool) σ)) : acks (o :: outs) = acks [o] + acks outs := by
  simp only [acks, List.filter_cons, List.filter_nil]
  split
  · simp
    omega
  · simp

/-- Changing the returned value of an outcome keeps its state. -/
theorem state?_mapVal {α β σ : Type} (f : α → β) (o : Outcome α σ) :
    (o.mapVal f).state? = o.state? := by
  cases o <;> rfl

/-- A call that leaves the reset state and the handler record alone and does not throw
`ObjectWasReset` keeps the balance between handler invocations and reported resets. -/
theorem balanced_of_frame (o : Outcome Unit (Process Unit R)) (p : Process Unit R) (n : Nat)
    (hv : (p.heap ()).m_resetState = reset_state.valid → (p.heap ()).handlerCalls.length = n)
    (ha : (p.heap ()).m_resetState = reset_state.ack_expected →
      (p.heap ()).handlerCalls.length = n + 1)
    (hframe : ∀ p1, o.state? = some p1 →
      (p1.heap ()).m_resetState = (p.heap ()).m_resetState ∧
      (p1.heap ()).handlerCalls = (p.heap ()).handlerCalls)
    (hexn : ∀ e p1, o = .raised e p1 → e = Exn.system_error)
    (p1 : Process Unit R) (h1 : (o.mapVal (fun _ => (none : Option Bool))).state? = some p1) :
    ((p1.heap ()).m_resetState = reset_state.valid →
      (p1.heap ()).handlerCalls.length =
        n + acks [o.mapVal (fun _ => (none : Option Bool))]) ∧
    ((p1.heap ()).m_resetState = reset_state.ack_expected →
      (p1.heap ()).handlerCalls.length =
        n + acks [o.mapVal (fun _ => (none : Option Bool))] + 1) := by
  rw [state?_mapVal] at h1
  obtain ⟨hs, hc⟩ := hframe p1 h1
  have h0 : acks [o.mapVal (fun _ => (none : Option Bool))] = 0 := by
    cases o with
    | returned a q => simp [acks, Outcome.mapVal, Outcome.tag]
    | raised e q =>
      have := hexn e q rfl
      subst this
      simp [acks, Outcome.mapVal, Outcome.tag]
    | blocked q => simp [acks, Outcome.mapVal, Outcome.tag]
    | undefined => simp [acks, Outcome.mapVal, Outcome.tag]
  rw [h0, hs, hc]
  exact ⟨hv, ha⟩

/-- One call keeps the balance between handler invocations and reported resets: if the
handler record is `n` long on a `valid` state and `n + 1` long on an `ack_expected`
state before the call, the same holds after it with `n` raised by one when the call
reported a reset. -/
theorem call_balanced (x : ThreadId × Call R) (p : Process Unit R) (n : Nat)
    (hv : (p.heap ()).m_resetState = reset_state.valid → (p.heap ()).handlerCalls.length = n)
    (ha : (p.heap ()).m_resetState = reset_state.ack_expected →
      (p.heap ()).handlerCalls.length = n + 1)
    (p1 : Process Unit R) (h1 : (call () x p).state? = some p1) :
    ((p1.heap ()).m_resetState = reset_state.valid →
      (p1.heap ()).handlerCalls.length = n + acks [call () x p]) ∧
    ((p1.heap ()).m_resetState = reset_state.ack_expected →
      (p1.heap ()).handlerCalls.length = n + acks [call () x p] + 1) := by
  obtain ⟨t, c⟩ := x
  cases c with
  | lock =>
    exact balanced_of_frame _ p n hv ha (lock_effect t () p).1 (lock_effect t () p).2 p1 h1
  | unlock =>
    exact balanced_of_frame _ p n hv ha (unlock_effect t () p).1 (unlock_effect t () p).2 p1 h1
  | registerResetHandler cb =>
    obtain ⟨q, hq, hs, hc, _⟩ := registerResetHandler_effect cb () p
    refine balanced_of_frame (ResetGuard.registerResetHandler cb () p) p n hv ha ?_ ?_ p1 h1
    · intro q1 hq1
      rw [hq] at hq1
      simp only [Outcome.state?, Option.some.injEq] at hq1
      subst hq1
      exact ⟨hs, hc⟩
    · intro e q1 hq1
      rw [hq] at hq1
      cases hq1
  | weak_guard =>
    simp only [call, state?_mapVal] at h1 ⊢
    rcases weak_guard_effect t () p p1 h1 with ⟨hs, hp, ho⟩ | ⟨hs, hcap, hs1, hc1, ho⟩ |
      ⟨hs, hcap, hs1, hc1, ho⟩
    · subst hp
      simp [ho, Outcome.mapVal, acks, Outcome.tag]
      exact ⟨hv, ha⟩
    · have hcap1 : (p.heap ()).m_resetState = reset_state.ack_expected := hcap
      simp [ho, Outcome.mapVal, acks, Outcome.tag, hs1, hc1, ha hcap1]
    · have hcap1 : (p.heap ()).m_resetState ≠ reset_state.ack_expected := hcap
      simp [ho, Outcome.mapVal, acks, Outcome.tag, hs1, hc1, hs, hcap1]
  | strong_guard =>
    have hst : (ResetGuard.weak_guard t () p).state? = some p1 := by
      rw [← (strong_guard_state t () p)]
      simpa only [call, state?_mapVal] using h1
    simp only [call] at h1 ⊢
    rcases weak_guard_effect t () p p1 hst with ⟨hs, hp, ho⟩ | ⟨hs, hcap, hs1, hc1, ho⟩ |
      ⟨hs, hcap, hs1, hc1, ho⟩
    · subst hp
      simp [ResetGuard.strong_guard, ho, Outcome.mapVal, acks, Outcome.tag]
      exact ⟨hv, ha⟩
    · have hcap1 : (p.heap ()).m_resetState = reset_state.ack_expected := hcap
      simp [ResetGuard.strong_guard, ho, Outcome.mapVal, acks, Outcome.tag, hs1, hc1,
        ha hcap1]
    · have hcap1 : (p.heap ()).m_resetState ≠ reset_state.ack_expected := hcap
      simp [ResetGuard.strong_guard, ho, Outcome.mapVal, acks, Outcome.tag, hs1, hc1, hs,
        hcap1]
  | reset =>
    simp only [call, state?_mapVal] at h1 ⊢
    rcases reset_effect t () p p1 h1 with ⟨hs, hp, ho⟩ | ⟨hs, hs1, hc1, ho | ho⟩ |
      ⟨hs, hs1, hc1, ho⟩ | ⟨hs, hs1, hc1, ho⟩
    · subst hp
      simp [ho, Outcome.mapVal, acks, Outcome.tag]
      exact ⟨hv, ha⟩
    · simp [ho, Outcome.mapVal, acks, Outcome.tag, hs1]
    · simp [ho, Outcome.mapVal, acks, Outcome.tag, hs1]
    · simp [ho, Outcome.mapVal, acks, Outcome.tag, hs1]
    · simp [ho, Outcome.mapVal, acks, Outcome.tag, hs1, hc1, hv hs]

/-- A run of calls keeps the balance between handler invocations and reported resets. -/
theorem run_balanced (calls : List (ThreadId × Call R)) :
    ∀ (p : Process Unit R) (n : Nat),
      ((p.heap ()).m_resetState = reset_state.valid →
        (p.heap ()).handlerCalls.length = n) →
      ((p.heap ()).m_resetState = reset_state.ack_expected →
        (p.heap ()).handlerCalls.length = n + 1) →
      ∀ p1, runEnd (call ()) calls p = some p1 →
        ((p1.heap ()).m_resetState = reset_state.valid →
          (p1.heap ()).handlerCalls.length = n + acks (runWith (call ()) calls p)) ∧
        ((p1.heap ()).m_resetState = reset_state.ack_expected →
          (p1.heap ()).handlerCalls.length =
            n + acks (runWith (call ()) calls p) + 1) := by
  induction calls with
  | nil =>
    intro p n hv ha p1 h1
    simp only [runEnd, Option.some.injEq] at h1
    subst h1
    simpa [runWith, acks] using ⟨hv, ha⟩
  | cons x rest ih =>
    intro p n hv ha p1 h1
    have hb := call_balanced x p n hv ha
    rw [runEnd] at h1
    rw [runWith]
    cases ho : call () x p with
    | returned a q =>
      rw [ho] at h1 hb
      simp only at h1 ⊢
      obtain ⟨hv1, ha1⟩ := hb q rfl
      have := ih q _ hv1 ha1 p1 h1
      rw [acks_cons]
      simpa [Nat.add_assoc] using this
    | raised e q =>
      rw [ho] at h1 hb
      simp only at h1 ⊢
      obtain ⟨hv1, ha1⟩ := hb q rfl
      have := ih q _ hv1 ha1 p1 h1
      rw [acks_cons]
      simpa [Nat.add_assoc] using this
    | blocked q =>
      rw [ho] at h1 hb
      simp only [Option.some.injEq] at h1 ⊢
      subst h1
      exact hb q rfl
    | undefined =>
      rw [ho] at h1
      simp at h1

/-- With the lock free, a handler that returns and the state `valid` or `ack_expected`,
the calls of one operation all come to their end and leave the process in such a state
again. -/
theorem calls_complete (worker controller : ThreadId) (handler : R → Completion R)
    (hn : ∀ x, ∃ y, handler x = .normal y) (op : Op) (p : Process Unit R)
    (hm : (p.heap ()).m_mutex = none) (hl : (p.heap ()).m_lock = false)
    (hh : (p.heap ()).m_resetHandler = some handler)
    (hs : (p.heap ()).m_resetState = reset_state.valid ∨
      (p.heap ()).m_resetState = reset_state.ack_expected)
    (rest : List (ThreadId × Call R)) :
    ∃ outs q, runWith (call ()) (Op.calls worker controller op ++ rest) p =
        outs ++ runWith (call ()) rest q ∧
      outs.length = (Op.calls worker controller op : List (ThreadId × Call R)).length ∧
      (∀ o ∈ outs, o.completed = true) ∧
      (q.heap ()).m_mutex = none ∧ (q.heap ()).m_lock = false ∧
      (q.heap ()).m_resetHandler = some handler ∧
      ((q.heap ()).m_resetState = reset_state.valid ∨
        (q.heap ()).m_resetState = reset_state.ack_expected) := by
  cases op with
  | reset =>
    rcases hs with hs | hs
    · obtain ⟨y, hy⟩ := hn p.world
      simp only [Op.calls, List.singleton_append, runWith, call,
        reset_of_valid_normal controller () p handler y hs hm hh hy, Outcome.mapVal]
      refine ⟨[_], _, rfl, rfl, ?_, ?_⟩
      · simp [Outcome.completed]
      · simp [Process.put, hl, hh]
    · simp only [Op.calls, List.singleton_append, runWith, call,
        reset_of_not_valid controller () p (by simp [hs]), Outcome.mapVal]
      refine ⟨[_], _, rfl, rfl, ?_, ?_⟩
      · simp [Outcome.completed]
      · simp [hm, hl, hh, hs]
  | check strong inScope =>
    cases strong <;> cases inScope <;> rcases hs with hs | hs <;>
      simp only [Op.calls, runWith, call, ResetGuard.lock, ResetGuard.unlock,
        ResetGuard.weak_guard, ResetGuard.strong_guard, Outcome.mapVal, hm, hl, hs,
        Process.put, update_unit, if_true, if_false, List.nil_append, List.cons_append,
        List.append_nil, Bool.false_eq_true, Option.getD, reduceCtorEq, and_self]
    all_goals
      first
      | exact ⟨[_], _, rfl, rfl, by simp [Outcome.completed], by simp [hh, hm, hl, hs]⟩
      | exact ⟨[_, _, _], _, rfl, rfl, by simp [Outcome.completed], by simp [hh, hm, hl, hs]⟩

/-- With the lock free, a handler that returns and the state `valid` or `ack_expected`,
every call of a list of operations is made and comes to its end. -/
theorem script_completes (worker controller : ThreadId) (handler : R → Completion R)
    (hn : ∀ x, ∃ y, handler x = .normal y) (ops : List Op) :
    ∀ p : Process Unit R, (p.heap ()).m_mutex = none → (p.heap ()).m_lock = false →
      (p.heap ()).m_resetHandler = some handler →
      ((p.heap ()).m_resetState = reset_state.valid ∨
        (p.heap ()).m_resetState = reset_state.ack_expected) →
      (runWith (call ()) (script worker controller ops) p).length =
          (script worker controller ops : List (ThreadId × Call R)).length ∧
        ∀ o ∈ runWith (call ()) (script worker controller ops) p, o.completed = true := by
  induction ops with
  | nil =>
    intro p _ _ _ _
    simp [script, runWith]
  | cons op ops ih =>
    intro p hm hl hh hs
    obtain ⟨outs, q, hrun, hlen, hall, hm1, hl1, hh1, hs1⟩ :=
      calls_complete worker controller handler hn op p hm hl hh hs
        (script worker controller ops)
    obtain ⟨ihlen, ihall⟩ := ih q hm1 hl1 hh1 hs1
    rw [script, hrun]
    refine ⟨by simp [hlen, ihlen], ?_⟩
    intro o ho
    rcases List.mem_append.mp ho with h | h
    · exact hall o h
    · exact ihall o h

/-- The outcomes of a run whose first operation returns: that outcome, then the outcomes
of the rest of the run from the state it left. -/
theorem runWith_cons_returned {A β σ : Type} (f : A → σ → Outcome β σ) (a : A)
    (rest : List A) (s s1 : σ) (b : β) (h : f a s = .returned b s1) :
    runWith f (a :: rest) s = .returned b s1 :: runWith f rest s1 := by
  simp [runWith, h]

/-- The end of a run whose first operation returns is the end of the rest of the run from
the state it left. -/
theorem runEnd_cons_returned {A β σ : Type} (f : A → σ → Outcome β σ) (a : A)
    (rest : List A) (s s1 : σ) (b : β) (h : f a s = .returned b s1) :
    runEnd f (a :: rest) s = runEnd f rest s1 := by
  simp [runEnd, h]

/-- A `weak_guard` with the mutex free on a state `valid` or `ack_expected`: it returns
`true` exactly when the state was `valid`, and leaves the state `valid` and the handler
record as it was. -/
theorem call_weak_guard_quiet (t : ThreadId) (handler : R → Completion R)
    (p : Process Unit R) (hm : (p.heap ()).m_mutex = none)
    (hh : (p.heap ()).m_resetHandler = some handler)
    (hs : (p.heap ()).m_resetState = reset_state.valid ∨
      (p.heap ()).m_resetState = reset_state.ack_expected) :
    ∃ p1, call () (t, Call.weak_guard) p =
        .returned (some (decide ((p.heap ()).m_resetState = reset_state.valid))) p1 ∧
      (p1.heap ()).m_mutex = none ∧ (p1.heap ()).m_resetHandler = some handler ∧
      (p1.heap ()).m_resetState = reset_state.valid ∧
      (p1.heap ()).handlerCalls = (p.heap ()).handlerCalls := by
  rcases hs with hs | hs
  · exact ⟨p, by simp [call, weak_guard_of_valid t () p hs, Outcome.mapVal, hs],
      hm, hh, hs, rfl⟩
  · exact ⟨({ p with ack_expected := some () } : Process Unit R).put ()
        { p.heap () with m_resetState := reset_state.valid },
      by simp [call, weak_guard_of_ack t () p hs (captured_unit p), Outcome.mapVal, hs],
      by simp [Process.put, hm], by simp [Process.put, hh], by simp [Process.put],
      by simp [Process.put]⟩

/-- A `reset()` with the mutex free, a handler that returns, and the state `valid` or
`ack_expected`: it returns and leaves `ack_expected`; the handler is invoked once when
the state was `valid` and not at all when it was `ack_expected`. -/
theorem call_reset_quiet (t : ThreadId) (handler : R → Completion R)
    (hn : ∀ x, ∃ y, handler x = .normal y)
    (p : Process Unit R) (hm : (p.heap ()).m_mutex = none)
    (hh : (p.heap ()).m_resetHandler = some handler)
    (hs : (p.heap ()).m_resetState = reset_state.valid ∨
      (p.heap ()).m_resetState = reset_state.ack_expected) :
    ∃ p1, call () (t, Call.reset) p = .returned none p1 ∧
      (p1.heap ()).m_mutex = none ∧ (p1.heap ()).m_resetHandler = some handler ∧
      (p1.heap ()).m_resetState = reset_state.ack_expected ∧
      (p1.heap ()).handlerCalls.length =
        (p.heap ()).handlerCalls.length +
          (if (p.heap ()).m_resetState = reset_state.valid then 1 else 0) := by
  rcases hs with hs | hs
  · obtain ⟨y, hy⟩ := hn p.world
    exact ⟨{ p.put ()
          { p.heap () with
            m_resetState := reset_state.ack_expected
            m_mutex := none
            handlerCalls := (p.heap ()).handlerCalls ++ [reset_state.reset_required] }
        with world := y },
      by simp [call, reset_of_valid_normal t () p handler y hs hm hh hy, Outcome.mapVal],
      by simp [Process.put], by simp [Process.put, hh], by simp [Process.put],
      by simp [Process.put, hs]⟩
  · have hnv : (p.heap ()).m_resetState ≠ reset_state.valid := by simp [hs]
    exact ⟨p, by simp [call, reset_of_not_valid t () p hnv, Outcome.mapVal],
      hm, hh, hs, by simp [hs]⟩

/-- A run of `reset()` and `weak_guard()` calls, by any threads, from a state `valid` or
`ack_expected` with the mutex free and a handler that returns: every call returns, the
run with more calls after it goes on from the state it left, and that state is `valid`
after a `weak_guard` and `ack_expected` after a `reset()`. -/
theorem reset_weak_guard_run (handler : R → Completion R)
    (hn : ∀ x, ∃ y, handler x = .normal y) (calls : List (ThreadId × Call R)) :
    ∀ p : Process Unit R, (∀ c ∈ calls, c.2 = Call.reset ∨ c.2 = Call.weak_guard) →
      (p.heap ()).m_mutex = none → (p.heap ()).m_resetHandler = some handler →
      ((p.heap ()).m_resetState = reset_state.valid ∨
        (p.heap ()).m_resetState = reset_state.ack_expected) →
      ∃ p1, (p1.heap ()).m_mutex = none ∧ (p1.heap ()).m_resetHandler = some handler ∧
        ((p1.heap ()).m_resetState = reset_state.valid ∨
          (p1.heap ()).m_resetState = reset_state.ack_expected) ∧
        (∀ rest, runWith (call ()) (calls ++ rest) p =
          runWith (call ()) calls p ++ runWith (call ()) rest p1) ∧
        (∀ rest, runEnd (call ()) (calls ++ rest) p = runEnd (call ()) rest p1) ∧
        (∀ o ∈ runWith (call ()) calls p, ∃ v q, o = .returned v q) ∧
        (runWith (call ()) calls p).length = calls.length ∧
        (calls = [] → p1 = p) ∧
        (∀ pre u, calls = pre ++ [(u, Call.weak_guard)] →
          (p1.heap ()).m_resetState = reset_state.valid) ∧
        (∀ pre u, calls = pre ++ [(u, Call.reset)] →
          (p1.heap ()).m_resetState = reset_state.ack_expected) := by
  induction calls with
  | nil =>
    intro p _ hm hh hs
    exact ⟨p, hm, hh, hs, by simp [runWith], by simp, by simp [runWith], by simp [runWith],
      fun _ => rfl, by simp, by simp⟩
  | cons c calls ih =>
    intro p hc hm hh hs
    obtain ⟨t, k⟩ := c
    have hstep : ∃ v q, call () (t, k) p = .returned v q ∧
        (q.heap ()).m_mutex = none ∧ (q.heap ()).m_resetHandler = some handler ∧
        ((q.heap ()).m_resetState = reset_state.valid ∨
          (q.heap ()).m_resetState = reset_state.ack_expected) ∧
        (k = Call.weak_guard → (q.heap ()).m_resetState = reset_state.valid) ∧
        (k = Call.reset → (q.heap ()).m_resetState = reset_state.ack_expected) := by
      rcases hc (t, k) (by simp) with hk | hk
      · simp only at hk
        subst hk
        obtain ⟨q, h1, h2, h3, h4, _⟩ := call_reset_quiet t handler hn p hm hh hs
        exact ⟨_, q, h1, h2, h3, Or.inr h4, by simp, fun _ => h4⟩
      · simp only at hk
        subst hk
        obtain ⟨q, h1, h2, h3, h4, _⟩ := call_weak_guard_quiet t handler p hm hh hs
        exact ⟨_, q, h1, h2, h3, Or.inl h4, fun _ => h4, by simp⟩
    obtain ⟨v, q, hq, hm1, hh1, hs1, hw, hr⟩ := hstep
    obtain ⟨p1, hm2, hh2, hs2, hrun, hend, hall, hlen, hnil, hlw, hlr⟩ :=
      ih q (fun c hcm => hc c (List.mem_cons_of_mem _ hcm)) hm1 hh1 hs1
    refine ⟨p1, hm2, hh2, hs2, ?_, ?_, ?_, ?_, by simp, ?_, ?_⟩
    · intro rest
      rw [List.cons_append, runWith_cons_returned _ _ _ _ _ _ hq,
        runWith_cons_returned _ _ _ _ _ _ hq, hrun rest, List.cons_append]
    · intro rest
      rw [List.cons_append, runEnd_cons_returned _ _ _ _ _ _ hq, hend rest]
    · intro o ho
      rw [runWith_cons_returned _ _ _ _ _ _ hq, List.mem_cons] at ho
      rcases ho with ho | ho
      · exact ⟨v, q, ho⟩
      · exact hall o ho
    · rw [runWith_cons_returned _ _ _ _ _ _ hq, List.length_cons, hlen, List.length_cons]
    · intro pre u h
      cases pre with
      | nil =>
        simp only [List.nil_append, List.cons.injEq, Prod.mk.injEq] at h
        obtain ⟨⟨_, hk⟩, hcalls⟩ := h
        rw [hnil hcalls]
        exact hw hk
      | cons a pre =>
        simp only [List.cons_append, List.cons.injEq] at h
        exact hlw pre u h.2
    · intro pre u h
      cases pre with
      | nil =>
        simp only [List.nil_append, List.cons.injEq, Prod.mk.injEq] at h
        obtain ⟨⟨_, hk⟩, hcalls⟩ := h
        rw [hnil hcalls]
        exact hr hk
      | cons a pre =>
        simp only [List.cons_append, List.cons.injEq] at h
        exact hlr pre u h.2

/-- The sentence of the specification: `a` calls of `weak_guard`, then `n + 1` calls of
`reset()`, then `b + 1` calls of `weak_guard`, on a fresh guard with a handler that
returns, give `true` `a` times, the resets return, then `false` once, then `true` `b`
times. -/
theorem weak_guard_pattern (handler : R → Completion R)
    (hn : ∀ x, ∃ y, handler x = .normal y) (world : R) (t1 t2 : ThreadId) (a n b : Nat) :
    (runWith (call ())
        (List.replicate a (t1, Call.weak_guard) ++
          (List.replicate (n + 1) (t2, Call.reset) ++
            List.replicate (b + 1) (t1, Call.weak_guard)))
        (Process.start (some handler) world)).map Outcome.tag =
      List.replicate a (Tag.returned (some true)) ++
        (List.replicate (n + 1) (Tag.returned none) ++
          Tag.returned (some false) :: List.replicate b (Tag.returned (some true))) := by
  have h0 : call () (t1, Call.weak_guard) (Process.start (some handler) world) =
      .returned (some true) (Process.start (some handler) world) := by
    simp [call, weak_guard_of_valid t1 () (Process.start (some handler) world) rfl,
      Outcome.mapVal]
  obtain ⟨p1, h1, hm1, hh1, hs1, _⟩ :=
    call_reset_quiet t2 handler hn (Process.start (some handler) world) rfl rfl (Or.inl rfl)
  have h1r : call () (t2, Call.reset) p1 = .returned none p1 := by
    simp [call, reset_of_not_valid t2 () p1 (by simp [hs1]), Outcome.mapVal]
  obtain ⟨p2, h2, _, _, hs2, _⟩ :=
    call_weak_guard_quiet t1 handler p1 hm1 hh1 (Or.inr hs1)
  have h2t : call () (t1, Call.weak_guard) p2 = .returned (some true) p2 := by
    simp [call, weak_guard_of_valid t1 () p2 hs2, Outcome.mapVal]
  have e : List.replicate b (t1, (Call.weak_guard : Call R)) =
      List.replicate b (t1, Call.weak_guard) ++ [] := (List.append_nil _).symm
  rw [runWith_replicate _ _ _ _ h0 a, List.replicate_succ, List.cons_append,
    runWith_cons_returned _ _ _ _ _ _ h1, runWith_replicate _ _ _ _ h1r n,
    List.replicate_succ, runWith_cons_returned _ _ _ _ _ _ h2, e,
    runWith_replicate _ _ _ _ h2t b, runWith_nil]
  simp [Outcome.tag, hs1, List.replicate_succ]

end Sequences

/-- C6. Exactly one `false` per completed reset cycle.  Take a fresh guard on which
`registerResetHandler(callback)` has been called and any finite sequence of calls of its
member functions, by any threads (so every sequence of `reset()` and `weak_guard()`
calls, and every prefix of one).
No `weak_guard` call throws, in any state.
In the state after the sequence, the number of handler invocations equals the number of
guard checks that reported a reset (`weak_guard` returned `false`) when the state is
`valid`, and is one more when the state is `ack_expected`.
And when the handler is one that returns, every call of a sequence made of resets of the
controller and guarded checks of the worker is made and comes to its end: none is
suspended or undefined.
The results themselves, when the handler is one that returns and the sequence is made of
`reset()` and `weak_guard()` calls by any threads: every call returns; a `weak_guard`
made next returns `true` when the sequence is empty or ends with a `weak_guard`, and
`false` when it ends with a `reset()`, and it leaves the state `valid` and invokes no
handler; a `reset()` made next returns, and it invokes the handler once when the
sequence is empty or ends with a `weak_guard` and not at all when it ends with a
`reset()`.  So a `weak_guard` returns `false` exactly when the call before it was a
`reset()`: once for each reset that invoked the handler and was followed by a check.
In particular `a` checks, `n + 1` resets and `b + 1` checks give `true` `a` times, then
`false` once, then `true` `b` times. -/
theorem weak_guard_one_false_per_reset {R : Type} (callback : ResetHandler R) (world : R)
    (calls : List (ThreadId × Call R)) :
    (∀ (t : ThreadId) (q q1 : Process Unit R) (e : Exn),
      call () (t, Call.weak_guard) q ≠ .raised e q1) ∧
    (∀ p1, runEnd (call ()) calls (Process.start callback world) = some p1 →
      ((p1.heap ()).m_resetState = reset_state.valid →
        (p1.heap ()).handlerCalls.length =
          acks (runWith (call ()) calls (Process.start callback world))) ∧
      ((p1.heap ()).m_resetState = reset_state.ack_expected →
        (p1.heap ()).handlerCalls.length =
          acks (runWith (call ()) calls (Process.start callback world)) + 1)) ∧
    (∀ (handler : R → Completion R) (worker controller : ThreadId) (ops : List Op),
      callback = some handler → (∀ x, ∃ y, handler x = .normal y) →
      calls = script worker controller ops →
      (runWith (call ()) calls (Process.start callback world)).length = calls.length ∧
      ∀ o ∈ runWith (call ()) calls (Process.start callback world), o.completed = true) ∧
    (∀ (handler : R → Completion R), callback = some handler →
      (∀ x, ∃ y, handler x = .normal y) →
      (∀ c ∈ calls, c.2 = Call.reset ∨ c.2 = Call.weak_guard) →
      ∃ p1, runEnd (call ()) calls (Process.start callback world) = some p1 ∧
        (runWith (call ()) calls (Process.start callback world)).length = calls.length ∧
        (∀ o ∈ runWith (call ()) calls (Process.start callback world),
          ∃ v q, o = .returned v q) ∧
        (∀ t, (calls = [] ∨ ∃ pre u, calls = pre ++ [(u, Call.weak_guard)]) →
          (runWith (call ()) (calls ++ [(t, Call.weak_guard)])
              (Process.start callback world)).map Outcome.tag =
            (runWith (call ()) calls (Process.start callback world)).map Outcome.tag ++
              [Tag.returned (some true)] ∧
          ∃ p2, runEnd (call ()) (calls ++ [(t, Call.reset)])
              (Process.start callback world) = some p2 ∧
            (p2.heap ()).handlerCalls.length = (p1.heap ()).handlerCalls.length + 1) ∧
        (∀ t, (∃ pre u, calls = pre ++ [(u, Call.reset)]) →
          (runWith (call ()) (calls ++ [(t, Call.weak_guard)])
              (Process.start callback world)).map Outcome.tag =
            (runWith (call ()) calls (Process.start callback world)).map Outcome.tag ++
              [Tag.returned (some false)] ∧
          ∃ p2, runEnd (call ()) (calls ++ [(t, Call.reset)])
              (Process.start callback world) = some p2 ∧
            (p2.heap ()).handlerCalls.length = (p1.heap ()).handlerCalls.length) ∧
        (∀ t, (runWith (call ()) (calls ++ [(t, Call.reset)])
              (Process.start callback world)).map Outcome.tag =
            (runWith (call ()) calls (Process.start callback world)).map Outcome.tag ++
              [Tag.returned none]) ∧
        (∀ t, ∃ p2, runEnd (call ()) (calls ++ [(t, Call.weak_guard)])
              (Process.start callback world) = some p2 ∧
            (p2.heap ()).m_resetState = reset_state.valid ∧
            (p2.heap ()).handlerCalls = (p1.heap ()).handlerCalls)) ∧
    (∀ (handler : R → Completion R) (t1 t2 : ThreadId) (a n b : Nat),
      callback = some handler → (∀ x, ∃ y, handler x = .normal y) →
      (runWith (call ())
          (List.replicate a (t1, Call.weak_guard) ++
            (List.replicate (n + 1) (t2, Call.reset) ++
              List.replicate (b + 1) (t1, Call.weak_guard)))
          (Process.start callback world)).map Outcome.tag =
        List.replicate a (Tag.returned (some true)) ++
          (List.replicate (n + 1) (Tag.returned none) ++
            Tag.returned (some false) :: List.replicate b (Tag.returned (some true)))) := by
  refine ⟨?_, ?_, ?_, ?_, ?_⟩
  · intro t q q1 e h
    simp only [call] at h
    cases hw : ResetGuard.weak_guard t () q with
    | returned b s => simp [hw, Outcome.mapVal] at h
    | raised e1 s => exact weak_guard_not_raised t () q e1 s hw
    | blocked s => simp [hw, Outcome.mapVal] at h
    | undefined => simp [hw, Outcome.mapVal] at h
  · intro p1 h1
    have := run_balanced calls (Process.start callback world) 0
      (by intro _; rfl) (by intro h; cases h) p1 h1
    simpa using this
  · intro handler worker controller ops hcb hn hcalls
    subst hcb hcalls
    exact script_completes worker controller handler hn ops
      (Process.start (some handler) world) rfl rfl rfl (Or.inl rfl)
  · intro handler hcb hn hc
    subst hcb
    obtain ⟨p1, hm, hh, hs, hrun, hend, hall, hlen, hnil, hlw, hlr⟩ :=
      reset_weak_guard_run handler hn calls (Process.start (some handler) world) hc
        rfl rfl (Or.inl rfl)
    have hp1 : runEnd (call ()) calls (Process.start (some handler) world) = some p1 := by
      have := hend []
      rwa [List.append_nil] at this
    have hreset : ∀ t, ∃ p2, call () (t, Call.reset) p1 = .returned none p2 ∧
        (p2.heap ()).handlerCalls.length = (p1.heap ()).handlerCalls.length +
          (if (p1.heap ()).m_resetState = reset_state.valid then 1 else 0) := by
      intro t
      obtain ⟨p2, h1, _, _, _, h5⟩ := call_reset_quiet t handler hn p1 hm hh hs
      exact ⟨p2, h1, h5⟩
    have hcheck : ∀ t, ∃ p2, call () (t, Call.weak_guard) p1 =
          .returned (some (decide ((p1.heap ()).m_resetState = reset_state.valid))) p2 ∧
        (p2.heap ()).m_resetState = reset_state.valid ∧
        (p2.heap ()).handlerCalls = (p1.heap ()).handlerCalls := by
      intro t
      obtain ⟨p2, h1, _, _, h4, h5⟩ := call_weak_guard_quiet t handler p1 hm hh hs
      exact ⟨p2, h1, h4, h5⟩
    refine ⟨p1, hp1, hlen, hall, ?_, ?_, ?_, ?_⟩
    · intro t hlast
      have hv : (p1.heap ()).m_resetState = reset_state.valid := by
        rcases hlast with h | ⟨pre, u, h⟩
        · rw [hnil h]
          rfl
        · exact hlw pre u h
      obtain ⟨p2, h1, _, _⟩ := hcheck t
      obtain ⟨p3, h3, h4⟩ := hreset t
      refine ⟨?_, p3, ?_, ?_⟩
      · rw [hrun, runWith_cons_returned _ _ _ _ _ _ h1]
        simp [runWith, Outcome.tag, hv]
      · rw [hend, runEnd_cons_returned _ _ _ _ _ _ h3]
        rfl
      · simpa [hv] using h4
    · intro t hlast
      obtain ⟨pre, u, h⟩ := hlast
      have ha : (p1.heap ()).m_resetState = reset_state.ack_expected := hlr pre u h
      obtain ⟨p2, h1, _, _⟩ := hcheck t
      obtain ⟨p3, h3, h4⟩ := hreset t
      refine ⟨?_, p3, ?_, ?_⟩
      · rw [hrun, runWith_cons_returned _ _ _ _ _ _ h1]
        simp [runWith, Outcome.tag, ha]
      · rw [hend, runEnd_cons_returned _ _ _ _ _ _ h3]
        rfl
      · simpa [ha] using h4
    · intro t
      obtain ⟨p3, h3, _⟩ := hreset t
      rw [hrun, runWith_cons_returned _ _ _ _ _ _ h3]
      simp [runWith, Outcome.tag]
    · intro t
      obtain ⟨p2, h1, h2, h3⟩ := hcheck t
      refine ⟨p2, ?_, h2, h3⟩
      rw [hend, runEnd_cons_returned _ _ _ _ _ _ h1]
      rfl
  · intro handler t1 t2 a n b hcb hn
    subst hcb
    exact weak_guard_pattern handler hn world t1 t2 a n b

/-- C6 on a concrete run, with a handler that counts its invocations: two checks, a
reset, three checks give `true`, `true`, then `false` once, then `true`, `true`. -/
theorem weak_guard_one_false_per_reset_witness :
    (runWith (call ())
        [(1, Call.weak_guard), (1, Call.weak_guard), (2, Call.reset),
          (1, Call.weak_guard), (1, Call.weak_guard), (1, Call.weak_guard)]
        (Process.start (some fun w => Completion.normal (w + 1)) (0 : Nat))).map
        Outcome.tag =
      [Tag.returned (some true), Tag.returned (some true), Tag.returned none,
        Tag.returned (some false), Tag.returned (some true), Tag.returned (some true)] :=
  (weak_guard_one_false_per_reset (some fun w => Completion.normal (w + 1)) (0 : Nat)
    []).2.2.2.2 (fun w => Completion.normal (w + 1)) 1 2 2 0 2 rfl (fun x => ⟨x + 1, rfl⟩)

/-- C5. Strong check aborts exactly on the reset boundary.  The worker makes `N` calls of
`strong_guard` on a fresh guard with a registered handler, each inside the scoped lock
of `count` (`inScope = true`) or each without it, and the controller performs one
`reset()`, whose handler returns, between call `k` and call `k + 1`.  The outcomes in
order are: calls `1..k` return, `reset()` returns, call `k + 1` throws `ObjectWasReset`,
calls `k + 2..N` return. -/
theorem strong_guard_aborts_on_reset_boundary {R : Type} (worker controller : ThreadId)
    (handler : R → Completion R) (world w : R) (inScope : Bool) (N k : Nat) (hk : k < N)
    (hw : handler world = .normal w) :
    (runWith (runOp worker controller ())
        (List.replicate k (Op.check true inScope) ++
          Op.reset :: List.replicate (N - k) (Op.check true inScope))
        (Process.start (some handler) world)).map Outcome.tag =
      List.replicate k (Tag.returned none) ++
        Tag.returned none :: Tag.raised Exn.ObjectWasReset ::
          List.replicate (N - k - 1) (Tag.returned none) := by
  obtain ⟨m, hm⟩ : ∃ m, N - k = m + 1 := ⟨N - k - 1, by omega⟩
  have hm1 : N - k - 1 = m := by omega
  rw [hm1, hm]
  rw [runWith_replicate (runOp worker controller ()) (Op.check true inScope) none
    (Process.start (some handler) world)
    (runOp_check_valid worker controller inScope _ rfl rfl rfl) k]
  have hreset := reset_of_valid_normal controller () (Process.start (some handler) world)
    handler w rfl rfl rfl hw
  rw [runWith]
  simp only [runOp, call, hreset, Outcome.mapVal]
  rw [List.replicate_succ, runWith, runOp_check_ack worker controller inScope _
    (by simp [Process.put]) (by simp [Process.put])
    (by simp [Process.put, Process.start, ResetGuard.fresh])]
  simp only
  have hlast := runWith_replicate (runOp worker controller ()) (Op.check true inScope) none
    _ (runOp_check_valid worker controller inScope
        ({ heap := fun _ =>
            { (({ (Process.start (some handler) world).put ()
                { (Process.start (some handler) world).heap () with
                  m_resetState := reset_state.ack_expected
                  m_mutex := none
                  handlerCalls := ((Process.start (some handler) world).heap ()).handlerCalls ++
                    [reset_state.reset_required] } with world := w } : Process Unit R).heap ())
              with m_resetState := reset_state.valid }
           ack_expected := some ()
           world := w } : Process Unit R)
        rfl (by simp [Process.put]) (by simp [Process.put, Process.start, ResetGuard.fresh])) m []
  rw [List.append_nil] at hlast
  rw [hlast]
  simp [runWith_nil, Outcome.tag]

/-- C5 at the scenario of the specification: `N = 1000`, `k = 500`, a handler that sets a
counter to 0: calls 1-500 return, call 501 throws, calls 502-1000 return. -/
theorem strong_guard_aborts_on_reset_boundary_witness :
    (runWith (runOp 1 2 ())
        (List.replicate 500 (Op.check true true) ++
          Op.reset :: List.replicate (1000 - 500) (Op.check true true))
        (Process.start (some fun _ : Nat => Completion.normal 0) 500)).map Outcome.tag =
      List.replicate 500 (Tag.returned none) ++
        Tag.returned none :: Tag.raised Exn.ObjectWasReset ::
          List.replicate (1000 - 500 - 1) (Tag.returned none) :=
  strong_guard_aborts_on_reset_boundary 1 2 (fun _ => Completion.normal 0) 500 0 true
    1000 500 (by decide) rfl

/-! ## Theorems: the two threads step by step -/

section Steps

/-- When the handler has completed, it is not pending. -/
theorem handlerPending_of_completed (h : List Event) :
    handlerCompleted h = true → handlerPending h = false := by
  induction h with
  | nil => simp
  | cons e rest ih => cases e <;> simp_all

/-- The start satisfies the invariant. -/
theorem stateOk_init : StateOk Sys.init := by
  constructor <;> simp [Sys.init, WorkerPc.holds, ControllerPc.holds, WorkerPc.slow,
    ControllerPc.early]

/-- Which places of the two threads own the mutex, are before line 28, are before
line 56. -/
@[simp]
theorem pc_simps :
    (WorkerPc.idle.holds = false ∧ WorkerPc.locked.holds = true ∧
      (∀ b, (WorkerPc.wg_pred b).holds = true) ∧ (∀ b, (WorkerPc.wg_block b).holds = true) ∧
      (∀ b, (WorkerPc.wg_wait b).holds = false) ∧ (∀ b, (WorkerPc.wg_wake b).holds = false) ∧
      (∀ b, (WorkerPc.wg_store b).holds = true) ∧
      (∀ b c, (WorkerPc.wg_ret b c).holds = true)) ∧
    (WorkerPc.idle.slow = false ∧ WorkerPc.locked.slow = false ∧
      (∀ b, (WorkerPc.wg_pred b).slow = true) ∧ (∀ b, (WorkerPc.wg_block b).slow = true) ∧
      (∀ b, (WorkerPc.wg_wait b).slow = true) ∧ (∀ b, (WorkerPc.wg_wake b).slow = true) ∧
      (∀ b, (WorkerPc.wg_store b).slow = true) ∧
      (∀ b c, (WorkerPc.wg_ret b c).slow = false)) ∧
    (ControllerPc.idle.holds = false ∧ ControllerPc.rs_lock.holds = false ∧
      ControllerPc.rs_call.holds = true ∧ ControllerPc.rs_handler.holds = true ∧
      ControllerPc.rs_store.holds = true ∧ ControllerPc.rs_unlock.holds = true ∧
      ControllerPc.rs_notify.holds = false ∧ ControllerPc.rs_throw.holds = true) ∧
    (ControllerPc.idle.early = false ∧ ControllerPc.rs_lock.early = true ∧
      ControllerPc.rs_call.early = true ∧ ControllerPc.rs_handler.early = true ∧
      ControllerPc.rs_store.early = true ∧ ControllerPc.rs_unlock.early = false ∧
      ControllerPc.rs_notify.early = false ∧ ControllerPc.rs_throw.early = true) := by
  refine ⟨⟨?_, ?_, ?_, ?_, ?_, ?_, ?_, ?_⟩, ⟨?_, ?_, ?_, ?_, ?_, ?_, ?_, ?_⟩,
    ⟨?_, ?_, ?_, ?_, ?_, ?_, ?_, ?_⟩, ⟨?_, ?_, ?_, ?_, ?_, ?_, ?_, ?_⟩⟩ <;> intros <;> rfl


/-- When a `reset()` has returned with no guard check since its compare-exchange, that
compare-exchange is pending. -/
theorem pendingCas_of_pendingReturned (h : List Event) :
    pendingReturned h = true → pendingCas h = true := by
  induction h with
  | nil => simp
  | cons e rest ih => cases e <;> simp_all

/-- The step `w_lock` keeps the invariant. -/
theorem stateOk_w_lock (s s1 : Sys) (hs : StateOk s)
    (he : everywhere EventOk s.history) (h : step (Action.w_lock) s = some s1) :
    StateOk s1 ∧ everywhere EventOk s1.history := by
  obtain ⟨st, mu, lk, reg, wpc, cpc, hist⟩ := s
  obtain ⟨i1, i2, i3, i4, i5, i6, i7, i8, i9, i10, i11, i12, i13, i14, i15, i16, i17, i18⟩ := hs
  simp only at i1 i2 i3 i4 i5 i6 i7 i8 i9 i10 i11 i12 i13 i14 i15 i16 i17 i18 he
  cases wpc <;> simp only [step, reduceCtorEq] at h
  simp only [pc_simps] at i3
  subst i3
  simp only [Bool.false_eq_true, if_false] at h
  all_goals try split_ifs at h with hc1 hc2
  all_goals
    simp only [Option.some.injEq] at h
    subst h
    have hcf : cpc.holds = false := by
      cases hh : cpc.holds with
      | false => rfl
      | true =>
        rw [hh] at i1
        simp at i1
        rw [i1] at hc1
        cases hc1
    refine ⟨⟨?_, ?_, ?_, ?_, ?_, ?_, ?_, ?_, ?_, ?_, ?_, ?_, ?_, ?_, ?_, ?_, ?_, ?_⟩, ?_⟩
    · simp
    · simp at *; simp [*]
    · simp
    · simpa using i4
    · simpa using i5
    · simp
    · simp
    · simpa using i8
    · simpa using i9
    · simpa using i10
    · simpa using i11
    · simpa using i12
    · simpa using i13
    · simpa using i14
    · simp
    · simp
    · simp
    · simp
    · exact he

/-- The step `w_unlock` keeps the invariant. -/
theorem stateOk_w_unlock (s s1 : Sys) (hs : StateOk s)
    (he : everywhere EventOk s.history) (h : step (Action.w_unlock) s = some s1) :
    StateOk s1 ∧ everywhere EventOk s1.history := by
  obtain ⟨st, mu, lk, reg, wpc, cpc, hist⟩ := s
  obtain ⟨i1, i2, i3, i4, i5, i6, i7, i8, i9, i10, i11, i12, i13, i14, i15, i16, i17, i18⟩ := hs
  simp only at i1 i2 i3 i4 i5 i6 i7 i8 i9 i10 i11 i12 i13 i14 i15 i16 i17 i18 he
  cases wpc <;> simp only [step, reduceCtorEq] at h
  all_goals try split_ifs at h with hc1 hc2
  all_goals
    simp only [Option.some.injEq] at h
    subst h
    refine ⟨⟨?_, ?_, ?_, ?_, ?_, ?_, ?_, ?_, ?_, ?_, ?_, ?_, ?_, ?_, ?_, ?_, ?_, ?_⟩, ?_⟩
    · simp at *; simp [*]
    · simp
    · simp
    · simpa using i4
    · simpa using i5
    · simp
    · simp
    · simpa using i8
    · simpa using i9
    · simpa using i10
    · simpa using i11
    · simpa using i12
    · simpa using i13
    · simpa using i14
    · simp
    · simp
    · simp
    · simp
    · exact he

/-- The step `w_check` keeps the invariant. -/
theorem stateOk_w_check (strong : Bool) (s s1 : Sys) (hs : StateOk s)
    (he : everywhere EventOk s.history) (h : step (Action.w_check strong) s = some s1) :
    StateOk s1 ∧ everywhere EventOk s1.history := by
  obtain ⟨st, mu, lk, reg, wpc, cpc, hist⟩ := s
  obtain ⟨i1, i2, i3, i4, i5, i6, i7, i8, i9, i10, i11, i12, i13, i14, i15, i16, i17, i18⟩ := hs
  simp only at i1 i2 i3 i4 i5 i6 i7 i8 i9 i10 i11 i12 i13 i14 i15 i16 i17 i18 he
  cases wpc <;> simp only [step, reduceCtorEq] at h
  all_goals try split_ifs at h with hc1 hc2
  all_goals
    simp only [Option.some.injEq] at h
    subst h
    refine ⟨⟨?_, ?_, ?_, ?_, ?_, ?_, ?_, ?_, ?_, ?_, ?_, ?_, ?_, ?_, ?_, ?_, ?_, ?_⟩, ?_⟩
    · simpa using i1
    · simpa using i2
    · simpa using i3
    · simpa using i4
    · simpa using i5
    · first
      | (simp; done)
      | (simpa using i6)
      | (simp at *; simp [*]; done)
    · simp
    · simpa using i8
    · simpa using i9
    · simpa using i10
    · simp
    · simp_all
    · simp
    · simp
    · simp
    · first
      | (simp; done)
      | (simpa using i16)
      | (simp at *; simp [*]; done)
    · first
      | (simp; done)
      | (simpa using i17)
      | (simp at *; simp [*]; done)
    · simp
    · simp_all

/-- The step `w_pred` keeps the invariant. -/
theorem stateOk_w_pred (s s1 : Sys) (hs : StateOk s)
    (he : everywhere EventOk s.history) (h : step (Action.w_pred) s = some s1) :
    StateOk s1 ∧ everywhere EventOk s1.history := by
  obtain ⟨st, mu, lk, reg, wpc, cpc, hist⟩ := s
  obtain ⟨i1, i2, i3, i4, i5, i6, i7, i8, i9, i10, i11, i12, i13, i14, i15, i16, i17, i18⟩ := hs
  simp only at i1 i2 i3 i4 i5 i6 i7 i8 i9 i10 i11 i12 i13 i14 i15 i16 i17 i18 he
  cases wpc <;> simp only [step, reduceCtorEq] at h
  all_goals try split_ifs at h with hc1 hc2
  all_goals
    simp only [Option.some.injEq] at h
    subst h
    refine ⟨⟨?_, ?_, ?_, ?_, ?_, ?_, ?_, ?_, ?_, ?_, ?_, ?_, ?_, ?_, ?_, ?_, ?_, ?_⟩, ?_⟩
    · simpa using i1
    · simpa using i2
    · simpa using i3
    · simpa using i4
    · simpa using i5
    · simpa using i6
    · first
      | (simp; done)
      | (simpa using i7)
      | (simp at *; simp [*]; done)
    · simpa using i8
    · simpa using i9
    · simpa using i10
    · simpa using i11
    · simp
    · simpa using i13
    · simpa using i14
    · simp
    · simp
    · simpa using i17
    · simp_all
    · exact he

/-- The step `w_wait` keeps the invariant. -/
theorem stateOk_w_wait (s s1 : Sys) (hs : StateOk s)
    (he : everywhere EventOk s.history) (h : step (Action.w_wait) s = some s1) :
    StateOk s1 ∧ everywhere EventOk s1.history := by
  obtain ⟨st, mu, lk, reg, wpc, cpc, hist⟩ := s
  obtain ⟨i1, i2, i3, i4, i5, i6, i7, i8, i9, i10, i11, i12, i13, i14, i15, i16, i17, i18⟩ := hs
  simp only at i1 i2 i3 i4 i5 i6 i7 i8 i9 i10 i11 i12 i13 i14 i15 i16 i17 i18 he
  cases wpc <;> simp only [step, reduceCtorEq] at h
  all_goals try split_ifs at h with hc1 hc2
  all_goals
    simp only [Option.some.injEq] at h
    subst h
    refine ⟨⟨?_, ?_, ?_, ?_, ?_, ?_, ?_, ?_, ?_, ?_, ?_, ?_, ?_, ?_, ?_, ?_, ?_, ?_⟩, ?_⟩
    · simp at *; simp [*]
    · simp
    · simp
    · simpa using i4
    · simpa using i5
    · simpa using i6
    · simp
    · simpa using i8
    · simpa using i9
    · simpa using i10
    · simpa using i11
    · simp
    · simpa using i13
    · simpa using i14
    · simp
    · simp
    · simpa using i17
    · simpa using i18
    · exact he

/-- The step `w_wake` keeps the invariant. -/
theorem stateOk_w_wake (s s1 : Sys) (hs : StateOk s)
    (he : everywhere EventOk s.history) (h : step (Action.w_wake) s = some s1) :
    StateOk s1 ∧ everywhere EventOk s1.history := by
  obtain ⟨st, mu, lk, reg, wpc, cpc, hist⟩ := s
  obtain ⟨i1, i2, i3, i4, i5, i6, i7, i8, i9, i10, i11, i12, i13, i14, i15, i16, i17, i18⟩ := hs
  simp only at i1 i2 i3 i4 i5 i6 i7 i8 i9 i10 i11 i12 i13 i14 i15 i16 i17 i18 he
  cases wpc <;> simp only [step, reduceCtorEq] at h
  all_goals try split_ifs at h with hc1 hc2
  all_goals
    simp only [Option.some.injEq] at h
    subst h
    refine ⟨⟨?_, ?_, ?_, ?_, ?_, ?_, ?_, ?_, ?_, ?_, ?_, ?_, ?_, ?_, ?_, ?_, ?_, ?_⟩, ?_⟩
    · simpa using i1
    · simp
    · simpa using i3
    · simpa using i4
    · simpa using i5
    · simpa using i6
    · simp
    · simpa using i8
    · simpa using i9
    · simpa using i10
    · simpa using i11
    · simp
    · simpa using i13
    · simpa using i14
    · simp
    · simp
    · simpa using i17
    · simpa using i18
    · exact he

/-- The step `w_reacquire` keeps the invariant. -/
theorem stateOk_w_reacquire (s s1 : Sys) (hs : StateOk s)
    (he : everywhere EventOk s.history) (h : step (Action.w_reacquire) s = some s1) :
    StateOk s1 ∧ everywhere EventOk s1.history := by
  obtain ⟨st, mu, lk, reg, wpc, cpc, hist⟩ := s
  obtain ⟨i1, i2, i3, i4, i5, i6, i7, i8, i9, i10, i11, i12, i13, i14, i15, i16, i17, i18⟩ := hs
  simp only at i1 i2 i3 i4 i5 i6 i7 i8 i9 i10 i11 i12 i13 i14 i15 i16 i17 i18 he
  cases wpc <;> simp only [step, reduceCtorEq] at h
  all_goals try split_ifs at h with hc1 hc2
  all_goals
    simp only [Option.some.injEq] at h
    subst h
    have hcf : cpc.holds = false := by
      cases hh : cpc.holds with
      | false => rfl
      | true =>
        rw [hh] at i1
        simp at i1
        rw [i1] at hc1
        cases hc1
    refine ⟨⟨?_, ?_, ?_, ?_, ?_, ?_, ?_, ?_, ?_, ?_, ?_, ?_, ?_, ?_, ?_, ?_, ?_, ?_⟩, ?_⟩
    · simp
    · simp at *; simp [*]
    · simp
    · simpa using i4
    · simpa using i5
    · simpa using i6
    · simp
    · simpa using i8
    · simpa using i9
    · simpa using i10
    · simpa using i11
    · simp
    · simpa using i13
    · simpa using i14
    · simp
    · simp
    · simpa using i17
    · simp at *; simp [*]
    · exact he

/-- The step `w_store` keeps the invariant. -/
theorem stateOk_w_store (s s1 : Sys) (hs : StateOk s)
    (he : everywhere EventOk s.history) (h : step (Action.w_store) s = some s1) :
    StateOk s1 ∧ everywhere EventOk s1.history := by
  obtain ⟨st, mu, lk, reg, wpc, cpc, hist⟩ := s
  obtain ⟨i1, i2, i3, i4, i5, i6, i7, i8, i9, i10, i11, i12, i13, i14, i15, i16, i17, i18⟩ := hs
  simp only at i1 i2 i3 i4 i5 i6 i7 i8 i9 i10 i11 i12 i13 i14 i15 i16 i17 i18 he
  cases wpc <;> simp only [step, reduceCtorEq] at h
  all_goals try split_ifs at h with hc1 hc2
  all_goals
    simp only [Option.some.injEq] at h
    subst h
    have hx : cpc.holds = false := by simpa using i2
    have hy : pendingReturned hist = false := by
      cases hp : pendingReturned hist with
      | false => rfl
      | true =>
        have := (i11 (pendingCas_of_pendingReturned hist hp)).2
        simp at this
    have hz : cpc ≠ ControllerPc.rs_unlock := by
      intro hc
      rw [hc] at hx
      simp at hx
    refine ⟨⟨?_, ?_, ?_, ?_, ?_, ?_, ?_, ?_, ?_, ?_, ?_, ?_, ?_, ?_, ?_, ?_, ?_, ?_⟩, ?_⟩
    · simpa using i1
    · simpa using i2
    · simpa using i3
    · simp_all
    · simp at *; simp [*]
    · simp
    · simp
    · simp_all
    · simp
    · simpa using i10
    · simpa using i11
    · simp
    · simp at *; simp [*]
    · simp at *; simp [*]
    · simp
    · simp at *; simp [*]
    · simp
    · simp
    · simp at *; simp [*]

/-- The step `w_return` keeps the invariant. -/
theorem stateOk_w_return (s s1 : Sys) (hs : StateOk s)
    (he : everywhere EventOk s.history) (h : step (Action.w_return) s = some s1) :
    StateOk s1 ∧ everywhere EventOk s1.history := by
  obtain ⟨st, mu, lk, reg, wpc, cpc, hist⟩ := s
  obtain ⟨i1, i2, i3, i4, i5, i6, i7, i8, i9, i10, i11, i12, i13, i14, i15, i16, i17, i18⟩ := hs
  simp only at i1 i2 i3 i4 i5 i6 i7 i8 i9 i10 i11 i12 i13 i14 i15 i16 i17 i18 he
  cases wpc <;> simp only [step, reduceCtorEq] at h
  all_goals try split_ifs at h with hc1 hc2
  all_goals
    simp only [Option.some.injEq] at h
    subst h
    refine ⟨⟨?_, ?_, ?_, ?_, ?_, ?_, ?_, ?_, ?_, ?_, ?_, ?_, ?_, ?_, ?_, ?_, ?_, ?_⟩, ?_⟩
    · simpa using i1
    · simpa using i2
    · simpa using i3
    · simpa using i4
    · simpa using i5
    · simp
    · simp
    · simpa using i8
    · simpa using i9
    · simpa using i10
    · simpa using i11
    · simp
    · simpa using i13
    · simpa using i14
    · simp
    · simp
    · simp
    · simp
    · simp_all

/-- The step `c_register` keeps the invariant. -/
theorem stateOk_c_register (b : Bool) (s s1 : Sys) (hs : StateOk s)
    (he : everywhere EventOk s.history) (h : step (Action.c_register b) s = some s1) :
    StateOk s1 ∧ everywhere EventOk s1.history := by
  obtain ⟨st, mu, lk, reg, wpc, cpc, hist⟩ := s
  obtain ⟨i1, i2, i3, i4, i5, i6, i7, i8, i9, i10, i11, i12, i13, i14, i15, i16, i17, i18⟩ := hs
  simp only at i1 i2 i3 i4 i5 i6 i7 i8 i9 i10 i11 i12 i13 i14 i15 i16 i17 i18 he
  cases cpc <;> simp only [step, reduceCtorEq] at h
  all_goals try split_ifs at h with hc1 hc2
  all_goals
    simp only [Option.some.injEq] at h
    subst h
    refine ⟨⟨?_, ?_, ?_, ?_, ?_, ?_, ?_, ?_, ?_, ?_, ?_, ?_, ?_, ?_, ?_, ?_, ?_, ?_⟩, ?_⟩
    · simpa using i1
    · simp
    · simpa using i3
    · simp
    · simp
    · simpa using i6
    · simpa using i7
    · simpa using i8
    · simpa using i9
    · simp
    · simpa using i11
    · simpa using i12
    · simpa using i13
    · simp
    · simpa using i15
    · simpa using i16
    · simpa using i17
    · simpa using i18
    · exact he

/-- The step `c_cas` keeps the invariant. -/
theorem stateOk_c_cas (s s1 : Sys) (hs : StateOk s)
    (he : everywhere EventOk s.history) (h : step (Action.c_cas) s = some s1) :
    StateOk s1 ∧ everywhere EventOk s1.history := by
  obtain ⟨st, mu, lk, reg, wpc, cpc, hist⟩ := s
  obtain ⟨i1, i2, i3, i4, i5, i6, i7, i8, i9, i10, i11, i12, i13, i14, i15, i16, i17, i18⟩ := hs
  simp only at i1 i2 i3 i4 i5 i6 i7 i8 i9 i10 i11 i12 i13 i14 i15 i16 i17 i18 he
  cases cpc <;> simp only [step, reduceCtorEq] at h
  all_goals try split_ifs at h with hc1 hc2
  all_goals
    simp only [Option.some.injEq] at h
    subst h
    refine ⟨⟨?_, ?_, ?_, ?_, ?_, ?_, ?_, ?_, ?_, ?_, ?_, ?_, ?_, ?_, ?_, ?_, ?_, ?_⟩, ?_⟩
    · simpa using i1
    · simp
    · simpa using i3
    · simp
    · simp
    · simpa using i6
    · simp_all
    · simpa using i8
    · simpa using i9
    · simp
    · simp_all
    · simpa using i12
    · simp_all
    · simp
    · simpa using i15
    · simpa using i16
    · simpa using i17
    · simp_all
    · simp [he]

/-- The step `c_lock` keeps the invariant. -/
theorem stateOk_c_lock (s s1 : Sys) (hs : StateOk s)
    (he : everywhere EventOk s.history) (h : step (Action.c_lock) s = some s1) :
    StateOk s1 ∧ everywhere EventOk s1.history := by
  obtain ⟨st, mu, lk, reg, wpc, cpc, hist⟩ := s
  obtain ⟨i1, i2, i3, i4, i5, i6, i7, i8, i9, i10, i11, i12, i13, i14, i15, i16, i17, i18⟩ := hs
  simp only at i1 i2 i3 i4 i5 i6 i7 i8 i9 i10 i11 i12 i13 i14 i15 i16 i17 i18 he
  cases cpc <;> simp only [step, reduceCtorEq] at h
  all_goals try split_ifs at h with hc1 hc2
  all_goals
    simp only [Option.some.injEq] at h
    subst h
    have hwf : wpc.holds = false := by
      cases hh : wpc.holds with
      | false => rfl
      | true =>
        rw [hh] at i1
        simp at i1
        rw [i1] at hc1
        cases hc1
    refine ⟨⟨?_, ?_, ?_, ?_, ?_, ?_, ?_, ?_, ?_, ?_, ?_, ?_, ?_, ?_, ?_, ?_, ?_, ?_⟩, ?_⟩
    · simp at *; simp [*]
    · simp at *; simp [*]
    · simpa using i3
    · simpa using i4
    · simp
    · simpa using i6
    · simpa using i7
    · simpa using i8
    · simpa using i9
    · simp
    · simpa using i11
    · simpa using i12
    · simpa using i13
    · simp
    · simpa using i15
    · simpa using i16
    · simpa using i17
    · simpa using i18
    · exact he

/-- The step `c_invoke` keeps the invariant. -/
theorem stateOk_c_invoke (s s1 : Sys) (hs : StateOk s)
    (he : everywhere EventOk s.history) (h : step (Action.c_invoke) s = some s1) :
    StateOk s1 ∧ everywhere EventOk s1.history := by
  obtain ⟨st, mu, lk, reg, wpc, cpc, hist⟩ := s
  obtain ⟨i1, i2, i3, i4, i5, i6, i7, i8, i9, i10, i11, i12, i13, i14, i15, i16, i17, i18⟩ := hs
  simp only at i1 i2 i3 i4 i5 i6 i7 i8 i9 i10 i11 i12 i13 i14 i15 i16 i17 i18 he
  cases cpc <;> simp only [step, reduceCtorEq] at h
  all_goals try split_ifs at h with hc1 hc2
  all_goals
    simp only [Option.some.injEq] at h
    subst h
    refine ⟨⟨?_, ?_, ?_, ?_, ?_, ?_, ?_, ?_, ?_, ?_, ?_, ?_, ?_, ?_, ?_, ?_, ?_, ?_⟩, ?_⟩
    · simpa using i1
    · simpa using i2
    · simpa using i3
    · simpa using i4
    · simp
    · simpa using i6
    · simpa using i7
    · simpa using i8
    · simpa using i9
    · simp
    · simpa using i11
    · simpa using i12
    · simpa using i13
    · simp
    · simpa using i15
    · simpa using i16
    · simpa using i17
    · simpa using i18
    · simp at *; simp [*]

/-- The step `c_handler_return` keeps the invariant. -/
theorem stateOk_c_handler_return (s s1 : Sys) (hs : StateOk s)
    (he : everywhere EventOk s.history) (h : step (Action.c_handler_return) s = some s1) :
    StateOk s1 ∧ everywhere EventOk s1.history := by
  obtain ⟨st, mu, lk, reg, wpc, cpc, hist⟩ := s
  obtain ⟨i1, i2, i3, i4, i5, i6, i7, i8, i9, i10, i11, i12, i13, i14, i15, i16, i17, i18⟩ := hs
  simp only at i1 i2 i3 i4 i5 i6 i7 i8 i9 i10 i11 i12 i13 i14 i15 i16 i17 i18 he
  cases cpc <;> simp only [step, reduceCtorEq] at h
  all_goals try split_ifs at h with hc1 hc2
  all_goals
    simp only [Option.some.injEq] at h
    subst h
    refine ⟨⟨?_, ?_, ?_, ?_, ?_, ?_, ?_, ?_, ?_, ?_, ?_, ?_, ?_, ?_, ?_, ?_, ?_, ?_⟩, ?_⟩
    · simpa using i1
    · simpa using i2
    · simpa using i3
    · simpa using i4
    · simp
    · simpa using i6
    · simpa using i7
    · simp
    · simp
    · simp
    · simpa using i11
    · simpa using i12
    · simpa using i13
    · simp
    · simpa using i15
    · simpa using i16
    · simpa using i17
    · simpa using i18
    · simp [he]

/-- The step `c_handler_throw` keeps the invariant. -/
theorem stateOk_c_handler_throw (s s1 : Sys) (hs : StateOk s)
    (he : everywhere EventOk s.history) (h : step (Action.c_handler_throw) s = some s1) :
    StateOk s1 ∧ everywhere EventOk s1.history := by
  obtain ⟨st, mu, lk, reg, wpc, cpc, hist⟩ := s
  obtain ⟨i1, i2, i3, i4, i5, i6, i7, i8, i9, i10, i11, i12, i13, i14, i15, i16, i17, i18⟩ := hs
  simp only at i1 i2 i3 i4 i5 i6 i7 i8 i9 i10 i11 i12 i13 i14 i15 i16 i17 i18 he
  cases cpc <;> simp only [step, reduceCtorEq] at h
  all_goals try split_ifs at h with hc1 hc2
  all_goals
    simp only [Option.some.injEq] at h
    subst h
    refine ⟨⟨?_, ?_, ?_, ?_, ?_, ?_, ?_, ?_, ?_, ?_, ?_, ?_, ?_, ?_, ?_, ?_, ?_, ?_⟩, ?_⟩
    · simpa using i1
    · simpa using i2
    · simpa using i3
    · simpa using i4
    · simp
    · simpa using i6
    · simpa using i7
    · simpa using i8
    · simpa using i9
    · simp
    · simpa using i11
    · simpa using i12
    · simpa using i13
    · simp
    · simpa using i15
    · simpa using i16
    · simpa using i17
    · simpa using i18
    · simp [he]

/-- The step `c_store` keeps the invariant. -/
theorem stateOk_c_store (s s1 : Sys) (hs : StateOk s)
    (he : everywhere EventOk s.history) (h : step (Action.c_store) s = some s1) :
    StateOk s1 ∧ everywhere EventOk s1.history := by
  obtain ⟨st, mu, lk, reg, wpc, cpc, hist⟩ := s
  obtain ⟨i1, i2, i3, i4, i5, i6, i7, i8, i9, i10, i11, i12, i13, i14, i15, i16, i17, i18⟩ := hs
  simp only at i1 i2 i3 i4 i5 i6 i7 i8 i9 i10 i11 i12 i13 i14 i15 i16 i17 i18 he
  cases cpc <;> simp only [step, reduceCtorEq] at h
  all_goals try split_ifs at h with hc1 hc2
  all_goals
    simp only [Option.some.injEq] at h
    subst h
    have hx : handlerPending hist = false := handlerPending_of_completed hist (i10 rfl)
    refine ⟨⟨?_, ?_, ?_, ?_, ?_, ?_, ?_, ?_, ?_, ?_, ?_, ?_, ?_, ?_, ?_, ?_, ?_, ?_⟩, ?_⟩
    · simpa using i1
    · simpa using i2
    · simpa using i3
    · simp
    · simp
    · simp
    · simp
    · simp at *; simp [*]
    · simp at *; simp [*]
    · simp
    · simp_all
    · simpa using i12
    · simpa using i13
    · simp
    · simpa using i15
    · simpa using i16
    · simpa using i17
    · simp_all
    · simp at *; simp [*]

/-- The step `c_unlock` keeps the invariant. -/
theorem stateOk_c_unlock (s s1 : Sys) (hs : StateOk s)
    (he : everywhere EventOk s.history) (h : step (Action.c_unlock) s = some s1) :
    StateOk s1 ∧ everywhere EventOk s1.history := by
  obtain ⟨st, mu, lk, reg, wpc, cpc, hist⟩ := s
  obtain ⟨i1, i2, i3, i4, i5, i6, i7, i8, i9, i10, i11, i12, i13, i14, i15, i16, i17, i18⟩ := hs
  simp only at i1 i2 i3 i4 i5 i6 i7 i8 i9 i10 i11 i12 i13 i14 i15 i16 i17 i18 he
  cases cpc <;> simp only [step, reduceCtorEq] at h
  all_goals try split_ifs at h with hc1 hc2
  all_goals
    simp only [Option.some.injEq] at h
    subst h
    refine ⟨⟨?_, ?_, ?_, ?_, ?_, ?_, ?_, ?_, ?_, ?_, ?_, ?_, ?_, ?_, ?_, ?_, ?_, ?_⟩, ?_⟩
    · simp at *; simp [*]
    · simp
    · simpa using i3
    · simp
    · simp
    · simpa using i6
    · simpa using i7
    · simpa using i8
    · simpa using i9
    · simp
    · simpa using i11
    · simpa using i12
    · simpa using i13
    · simp at *; simp [*]
    · simpa using i15
    · simpa using i16
    · simpa using i17
    · simpa using i18
    · exact he

/-- The step `c_notify` keeps the invariant. -/
theorem stateOk_c_notify (s s1 : Sys) (hs : StateOk s)
    (he : everywhere EventOk s.history) (h : step (Action.c_notify) s = some s1) :
    StateOk s1 ∧ everywhere EventOk s1.history := by
  obtain ⟨st, mu, lk, reg, wpc, cpc, hist⟩ := s
  obtain ⟨i1, i2, i3, i4, i5, i6, i7, i8, i9, i10, i11, i12, i13, i14, i15, i16, i17, i18⟩ := hs
  simp only at i1 i2 i3 i4 i5 i6 i7 i8 i9 i10 i11 i12 i13 i14 i15 i16 i17 i18 he
  cases cpc <;> simp only [step, reduceCtorEq] at h
  cases wpc <;> simp only at h
  all_goals try split_ifs at h with hc1 hc2
  all_goals
    simp only [Option.some.injEq] at h
    subst h
    refine ⟨⟨?_, ?_, ?_, ?_, ?_, ?_, ?_, ?_, ?_, ?_, ?_, ?_, ?_, ?_, ?_, ?_, ?_, ?_⟩, ?_⟩
    · simpa using i1
    · simp
    · simpa using i3
    · simp
    · simp
    · simpa using i6
    · simpa using i7
    · simpa using i8
    · simpa using i9
    · simp
    · simpa using i11
    · simpa using i12
    · simp_all
    · simp
    · simpa using i15
    · simpa using i16
    · simpa using i17
    · simpa using i18
    · simp [he]

/-- The step `c_unwind` keeps the invariant. -/
theorem stateOk_c_unwind (s s1 : Sys) (hs : StateOk s)
    (he : everywhere EventOk s.history) (h : step (Action.c_unwind) s = some s1) :
    StateOk s1 ∧ everywhere EventOk s1.history := by
  obtain ⟨st, mu, lk, reg, wpc, cpc, hist⟩ := s
  obtain ⟨i1, i2, i3, i4, i5, i6, i7, i8, i9, i10, i11, i12, i13, i14, i15, i16, i17, i18⟩ := hs
  simp only at i1 i2 i3 i4 i5 i6 i7 i8 i9 i10 i11 i12 i13 i14 i15 i16 i17 i18 he
  cases cpc <;> simp only [step, reduceCtorEq] at h
  all_goals try split_ifs at h with hc1 hc2
  all_goals
    simp only [Option.some.injEq] at h
    subst h
    refine ⟨⟨?_, ?_, ?_, ?_, ?_, ?_, ?_, ?_, ?_, ?_, ?_, ?_, ?_, ?_, ?_, ?_, ?_, ?_⟩, ?_⟩
    · simp at *; simp [*]
    · simp
    · simpa using i3
    · simp
    · simp
    · simpa using i6
    · simpa using i7
    · simpa using i8
    · simpa using i9
    · simp
    · simpa using i11
    · simpa using i12
    · simp at *; simp [*]
    · simp
    · simpa using i15
    · simpa using i16
    · simpa using i17
    · simpa using i18
    · simp [he]

/-- Every step keeps the invariant, on the state and on the history. -/
theorem stateOk_step (a : Action) (s s1 : Sys) (hs : StateOk s)
    (he : everywhere EventOk s.history) (h : step a s = some s1) :
    StateOk s1 ∧ everywhere EventOk s1.history := by
  cases a with
  | w_lock => exact stateOk_w_lock s s1 hs he h
  | w_unlock => exact stateOk_w_unlock s s1 hs he h
  | w_check strong => exact stateOk_w_check strong s s1 hs he h
  | w_pred => exact stateOk_w_pred s s1 hs he h
  | w_wait => exact stateOk_w_wait s s1 hs he h
  | w_wake => exact stateOk_w_wake s s1 hs he h
  | w_reacquire => exact stateOk_w_reacquire s s1 hs he h
  | w_store => exact stateOk_w_store s s1 hs he h
  | w_return => exact stateOk_w_return s s1 hs he h
  | c_register b => exact stateOk_c_register b s s1 hs he h
  | c_cas => exact stateOk_c_cas s s1 hs he h
  | c_lock => exact stateOk_c_lock s s1 hs he h
  | c_invoke => exact stateOk_c_invoke s s1 hs he h
  | c_handler_return => exact stateOk_c_handler_return s s1 hs he h
  | c_handler_throw => exact stateOk_c_handler_throw s s1 hs he h
  | c_store => exact stateOk_c_store s s1 hs he h
  | c_unlock => exact stateOk_c_unlock s s1 hs he h
  | c_notify => exact stateOk_c_notify s s1 hs he h
  | c_unwind => exact stateOk_c_unwind s s1 hs he h

/-- Every reachable state satisfies the invariant, and so does every event of its
history. -/
theorem reachable_ok (s : Sys) (h : Reachable s) :
    StateOk s ∧ everywhere EventOk s.history := by
  induction h with
  | init => exact ⟨stateOk_init, trivial⟩
  | step a s s1 _ hstep ih => exact stateOk_step a s s1 ih.1 ih.2 hstep

/-- A schedule that can be run from the start ends in a reachable state. -/
theorem reachable_of_exec (acts : List Action) :
    ∀ s s1 : Sys, Reachable s → exec acts s = some s1 → Reachable s1 := by
  induction acts with
  | nil =>
    intro s s1 hs h
    simp only [exec, Option.some.injEq] at h
    exact h ▸ hs
  | cons a rest ih =>
    intro s s1 hs h
    rw [exec] at h
    cases hstep : step a s with
    | none => simp [hstep] at h
    | some s2 =>
      rw [hstep] at h
      exact ih s2 s1 (Reachable.step a s s2 hs hstep) h

/-- A property of every event follows from a stronger one. -/
theorem everywhere_mono (P Q : Event → List Event → Prop)
    (hPQ : ∀ e before, P e before → Q e before) (hist : List Event) :
    everywhere P hist → everywhere Q hist := by
  induction hist with
  | nil => intro _; trivial
  | cons e rest ih =>
    intro h
    exact ⟨hPQ e rest h.1, ih h.2⟩

end Steps

/-- C8. Handler before resume, in every interleaving of the worker and the controller.
In every reachable state: at every event of the history `HandlerBeforeResume` holds (a
guard check that found the state not `valid` returns or throws only after it has stored
`valid`, and `valid` is stored only when the handler of the latest reset cycle has
returned); while the handler of a reset cycle has not returned the state is
`reset_required`, so it is not `valid`; and while the worker is inside a guard check
that found the state not `valid` and has not yet stored `valid`, the state is not
`valid` and the check is not about to return. -/
theorem handler_before_resume (s : Sys) (h : Reachable s) :
    everywhere HandlerBeforeResume s.history ∧
    (handlerPending s.history = true → s.m_resetState = reset_state.reset_required) ∧
    (s.m_resetState = reset_state.ack_expected → handlerCompleted s.history = true) ∧
    (∀ strong, s.wpc = WorkerPc.wg_store strong → handlerCompleted s.history = true) ∧
    (s.wpc.slow = true → s.m_resetState ≠ reset_state.valid) := by
  obtain ⟨hs, he⟩ := reachable_ok s h
  refine ⟨?_, hs.hpend, hs.hcomp, fun strong hw => hs.hcomp (hs.store strong hw), hs.slow⟩
  refine everywhere_mono EventOk HandlerBeforeResume ?_ s.history he
  intro e before hok
  cases e <;> simp only [EventOk, HandlerBeforeResume] at hok ⊢
  · exact hok
  · exact hok
  · exact hok
  · exact ⟨hok.2.2, hok.2.1⟩

/-- C8 on the schedule `checkAcrossReset`: a `strong_guard` that found `reset_required`
slept through the handler and threw only after the handler had returned. -/
theorem handler_before_resume_witness :
    exec checkAcrossReset Sys.init = some afterCheckAcrossReset ∧
    everywhere HandlerBeforeResume afterCheckAcrossReset.history ∧
    exec checkDuringReset Sys.init = some duringHandler ∧
    handlerPending duringHandler.history = true ∧
    duringHandler.m_resetState = reset_state.reset_required :=
  ⟨rfl,
    (handler_before_resume afterCheckAcrossReset
      (reachable_of_exec checkAcrossReset Sys.init afterCheckAcrossReset
        Reachable.init rfl)).1,
    rfl, rfl,
    (handler_before_resume duringHandler
      (reachable_of_exec checkDuringReset Sys.init duringHandler Reachable.init rfl)).2.1
      rfl⟩

/-- C9. The handler never runs while the worker owns the mutex, in every interleaving of
the worker and the controller.  In every reachable state: the worker owns the mutex
exactly at the places between its `lock()` and `unlock()` other than the wait of a guard
check; the controller owns it exactly inside the block of `reset()`; and while the
handler runs the controller owns the mutex, the worker does not, `m_lock` does not own
it, and the worker is outside `lock()` ... `unlock()` or inside the wait of a guard
check. -/
theorem handler_excludes_worker (s : Sys) (h : Reachable s) :
    (s.m_mutex = some Thread.worker ↔ s.wpc.holds = true) ∧
    (s.m_mutex = some Thread.controller ↔ s.cpc.holds = true) ∧
    (s.cpc = ControllerPc.rs_handler →
      s.m_mutex = some Thread.controller ∧ s.wpc.holds = false ∧ s.m_lock = false ∧
      (s.wpc = WorkerPc.idle ∨ ∃ strong,
        s.wpc = WorkerPc.wg_wait strong ∨ s.wpc = WorkerPc.wg_wake strong)) := by
  obtain ⟨hs, _⟩ := reachable_ok s h
  have hm := hs.mutex
  have hx := hs.excl
  have hl := hs.lock
  refine ⟨?_, ?_, ?_⟩
  · cases hw : s.wpc.holds <;> cases hc : s.cpc.holds <;> simp [hw, hc] at hm hx ⊢ <;>
      simp [hm]
  · cases hw : s.wpc.holds <;> cases hc : s.cpc.holds <;> simp [hw, hc] at hm hx ⊢ <;>
      simp [hm]
  · intro hc
    have hch : s.cpc.holds = true := by rw [hc]; simp
    have hwh : s.wpc.holds = false := by
      cases hw : s.wpc.holds with
      | false => rfl
      | true => simp [hx hw] at hch
    refine ⟨by simp [hm, hwh, hch], hwh, by rw [hl, hwh], ?_⟩
    cases hw : s.wpc <;> rw [hw] at hwh <;> simp at hwh ⊢

/-- C9 on the schedule `checkDuringReset`: the handler runs while the worker, which had
taken the lock, sleeps in the wait of its guard check; the controller owns the mutex. -/
theorem handler_excludes_worker_witness :
    exec checkDuringReset Sys.init = some duringHandler ∧
    duringHandler.cpc = ControllerPc.rs_handler ∧
    duringHandler.m_mutex = some Thread.controller ∧ duringHandler.wpc.holds = false ∧
    duringHandler.m_lock = false ∧
    (duringHandler.wpc = WorkerPc.idle ∨ ∃ strong,
      duringHandler.wpc = WorkerPc.wg_wait strong ∨
        duringHandler.wpc = WorkerPc.wg_wake strong) :=
  ⟨rfl, rfl,
    (handler_excludes_worker duringHandler
      (reachable_of_exec checkDuringReset Sys.init duringHandler Reachable.init rfl)).2.2
      rfl⟩

/-- Every atomic step from a reachable state changes `m_resetState` along the cycle
only, and line 56 is executed only after the handler has returned. -/
theorem step_cycle (s : Sys) (h : Reachable s) (a : Action) (s1 : Sys)
    (hstep : step a s = some s1) :
    CycleStep a s.m_resetState s1.m_resetState ∧
    (a = Action.c_store → handlerCompleted s.history = true) := by
  obtain ⟨hs, _⟩ := reachable_ok s h
  have hearly := hs.early
  have hstore := hs.store
  have hcstore := hs.cstore
  obtain ⟨st, mu, lk, reg, wpc, cpc, hist⟩ := s
  simp only at hearly hstore hcstore
  cases a
  case w_store =>
    cases wpc <;> simp only [step, reduceCtorEq, Option.some.injEq] at hstep
    subst hstep
    simp [CycleStep, hstore _ rfl]
  case c_store =>
    cases cpc <;> simp only [step, reduceCtorEq, Option.some.injEq] at hstep
    subst hstep
    simp [CycleStep, hearly (by simp), hcstore rfl]
  case c_cas =>
    cases cpc <;> simp only [step, reduceCtorEq] at hstep
    split_ifs at hstep with hv <;> simp only [Option.some.injEq] at hstep <;> subst hstep
    · simp [CycleStep, hv]
    · simp [CycleStep]
  case c_notify =>
    cases cpc <;> simp only [step, reduceCtorEq, Option.some.injEq] at hstep
    subst hstep
    simp [CycleStep]
  all_goals
    cases wpc <;> cases cpc <;> simp only [step, reduceCtorEq] at hstep
    all_goals try split_ifs at hstep
    all_goals
      simp only [Option.some.injEq] at hstep
      subst hstep
      simp [CycleStep]

/-- C10. The reset state starts as `valid` and only moves around the cycle.
Step by step, for the two threads in any interleaving: every atomic step from a
reachable state leaves `m_resetState` alone or makes one of the three changes of
`CycleStep`, each by its own line of code (`valid` to `reset_required` by the
compare-exchange of `reset()`, `reset_required` to `ack_expected` by line 56 after the
handler has returned, `ack_expected` to `valid` by line 28 of a guard check).
Call by call, for every state of a process with one guard: `lock`, `unlock` and
`registerResetHandler` leave the state as it was; `reset()` leaves a state that is not
`valid` as it was and takes `valid` to `reset_required` or `ack_expected`, never to
`valid`; a guard check leaves the state as it was or takes `ack_expected` to `valid`. -/
theorem reset_state_cycle {R : Type} (s : Sys) (h : Reachable s) (self : ThreadId)
    (p p1 : Process Unit R) :
    Sys.init.m_resetState = reset_state.valid ∧
    ((ResetGuard.fresh R).m_resetState = reset_state.valid) ∧
    (∀ a s1, step a s = some s1 →
      CycleStep a s.m_resetState s1.m_resetState ∧
      (a = Action.c_store → handlerCompleted s.history = true)) ∧
    ((ResetGuard.lock self () p).state? = some p1 →
      (p1.heap ()).m_resetState = (p.heap ()).m_resetState) ∧
    ((ResetGuard.unlock self () p).state? = some p1 →
      (p1.heap ()).m_resetState = (p.heap ()).m_resetState) ∧
    (∀ cb, (ResetGuard.registerResetHandler cb () p).state? = some p1 →
      (p1.heap ()).m_resetState = (p.heap ()).m_resetState) ∧
    ((ResetGuard.reset self () p).state? = some p1 →
      ((p.heap ()).m_resetState ≠ reset_state.valid ∧
        (p1.heap ()).m_resetState = (p.heap ()).m_resetState) ∨
      ((p.heap ()).m_resetState = reset_state.valid ∧
        ((p1.heap ()).m_resetState = reset_state.reset_required ∨
          (p1.heap ()).m_resetState = reset_state.ack_expected))) ∧
    ((ResetGuard.weak_guard self () p).state? = some p1 →
      (p1.heap ()).m_resetState = (p.heap ()).m_resetState ∨
      ((p.heap ()).m_resetState = reset_state.ack_expected ∧
        (p1.heap ()).m_resetState = reset_state.valid)) ∧
    ((ResetGuard.strong_guard self () p).state? = some p1 →
      (p1.heap ()).m_resetState = (p.heap ()).m_resetState ∨
      ((p.heap ()).m_resetState = reset_state.ack_expected ∧
        (p1.heap ()).m_resetState = reset_state.valid)) := by
  have hweak : (ResetGuard.weak_guard self () p).state? = some p1 →
      (p1.heap ()).m_resetState = (p.heap ()).m_resetState ∨
      ((p.heap ()).m_resetState = reset_state.ack_expected ∧
        (p1.heap ()).m_resetState = reset_state.valid) := by
    intro hw
    rcases weak_guard_effect self () p p1 hw with ⟨_, hp, _⟩ | ⟨_, hcap, hv, _⟩ |
      ⟨_, _, hsame, _⟩
    · left
      rw [hp]
    · right
      exact ⟨hcap, hv⟩
    · left
      exact hsame
  refine ⟨rfl, rfl, fun a s1 hstep => step_cycle s h a s1 hstep,
    fun hl => ((lock_effect self () p).1 p1 hl).1,
    fun hu => ((unlock_effect self () p).1 p1 hu).1, ?_, ?_, hweak, ?_⟩
  · intro cb hr
    obtain ⟨q, hq, hsame, _⟩ := registerResetHandler_effect cb () p
    rw [hq] at hr
    simp only [Outcome.state?, Option.some.injEq] at hr
    rw [← hr]
    exact hsame
  · intro hr
    rcases reset_effect self () p p1 hr with ⟨hn, hp, _⟩ | ⟨hv, h1, _⟩ | ⟨hv, h1, _⟩ |
      ⟨hv, h1, _⟩
    · left
      exact ⟨hn, by rw [hp]⟩
    · right
      exact ⟨hv, Or.inl h1⟩
    · right
      exact ⟨hv, Or.inl h1⟩
    · right
      exact ⟨hv, Or.inr h1⟩
  · intro hsg
    rw [strong_guard_state] at hsg
    exact hweak hsg

/-- C10 on the schedule `checkDuringReset` and on a fresh process: from the state in
which the handler runs, the handler returning leaves `reset_required` in place; and
`lock()` on a fresh guard leaves the state `valid`. -/
theorem reset_state_cycle_witness :
    exec checkDuringReset Sys.init = some duringHandler ∧
    (∀ a s1, step a duringHandler = some s1 →
      CycleStep a duringHandler.m_resetState s1.m_resetState ∧
      (a = Action.c_store → handlerCompleted duringHandler.history = true)) ∧
    (∀ p1 : Process Unit Nat,
      (ResetGuard.lock 1 () (Process.start none 0)).state? = some p1 →
      (p1.heap ()).m_resetState = reset_state.valid) :=
  ⟨rfl,
    (@reset_state_cycle Nat duringHandler
      (reachable_of_exec checkDuringReset Sys.init duringHandler Reachable.init rfl)
      1 (Process.start none 0) (Process.start none 0)).2.2.1,
    fun p1 hp =>
      (@reset_state_cycle Nat duringHandler
        (reachable_of_exec checkDuringReset Sys.init duringHandler Reachable.init rfl)
        1 (Process.start none 0) p1).2.2.2.1 hp⟩

/-! ## Theorems: errors, the lock, and the handler -/

/-- C11, as the code has it.  `reset()` returns with nothing changed from every state that
is not `valid`, whether or not a handler is registered; from `valid`, with the mutex
free and a registered handler that returns, it returns; and an exception leaves
`reset()` only from state `valid` with the mutex free, when the call of the handler
fails: `bad_function_call` when no handler is registered, or the exception of the
handler itself. -/
theorem reset_raises_only_on_handler_failure {ι R : Type} [DecidableEq ι] (self : ThreadId)
    (this : ι) (p : Process ι R) :
    ((p.heap this).m_resetState ≠ reset_state.valid →
      ResetGuard.reset self this p = .returned () p) ∧
    (∀ handler w, (p.heap this).m_resetState = reset_state.valid →
      (p.heap this).m_mutex = none → (p.heap this).m_resetHandler = some handler →
      handler p.world = .normal w →
      ∃ p1, ResetGuard.reset self this p = .returned () p1) ∧
    (∀ e p1, ResetGuard.reset self this p = .raised e p1 →
      (p.heap this).m_resetState = reset_state.valid ∧ (p.heap this).m_mutex = none ∧
      (((p.heap this).m_resetHandler = none ∧ e = Exn.bad_function_call) ∨
        ∃ handler w, (p.heap this).m_resetHandler = some handler ∧
          handler p.world = .throws w ∧ e = Exn.handler_exception)) := by
  refine ⟨reset_of_not_valid self this p, ?_, ?_⟩
  · intro handler w hv hm hh hw
    exact ⟨_, reset_of_valid_normal self this p handler w hv hm hh hw⟩
  · intro e p1 h
    by_cases hv : (p.heap this).m_resetState = reset_state.valid
    · cases hm : (p.heap this).m_mutex with
      | some owner =>
        by_cases ho : owner = self <;> simp [ResetGuard.reset, hv, hm, ho] at h
      | none =>
        cases hh : (p.heap this).m_resetHandler with
        | none =>
          simp only [ResetGuard.reset, hv, hm, hh, if_true, Outcome.raised.injEq] at h
          exact ⟨hv, rfl, Or.inl ⟨rfl, h.1.symm⟩⟩
        | some handler =>
          cases hw : handler p.world with
          | normal w => simp [ResetGuard.reset, hv, hm, hh, hw] at h
          | throws w =>
            simp only [ResetGuard.reset, hv, hm, hh, hw, if_true, Outcome.raised.injEq] at h
            exact ⟨hv, rfl, Or.inr ⟨handler, w, rfl, hw, h.1.symm⟩⟩
    · rw [reset_of_not_valid self this p hv] at h
      cases h

/-- C11 as stated fails: on a freshly constructed guard, on which `registerResetHandler`
has not been called, `reset()` throws `bad_function_call`. -/
theorem reset_raises_without_handler :
    (ResetGuard.reset 1 () (Process.start (none : ResetHandler Nat) 0)).tag =
      Tag.raised Exn.bad_function_call ∧
    ((Process.start (none : ResetHandler Nat) 0).heap ()).m_resetState =
      reset_state.valid := ⟨rfl, rfl⟩

/-- C12, as the code has it.  A guard check made without the lock (for every state of
`m_lock` and of the mutex) completes whenever it does not have to wait: on `valid`,
`weak_guard` returns `true` and `strong_guard` returns; on `ack_expected`, `weak_guard`
returns `false` and `strong_guard` throws `ObjectWasReset`, both leaving `valid`.  Only on
`reset_required`, where line 26 has to wait, does the lock matter: when `m_lock` does not
own the mutex in the calling thread the call is undefined. -/
theorem guard_check_without_lock {R : Type} (self : ThreadId) (p : Process Unit R) :
    ((p.heap ()).m_resetState = reset_state.valid →
      ResetGuard.weak_guard self () p = .returned true p ∧
      ResetGuard.strong_guard self () p = .returned () p) ∧
    ((p.heap ()).m_resetState = reset_state.ack_expected →
      ∃ p1, ResetGuard.weak_guard self () p = .returned false p1 ∧
        ResetGuard.strong_guard self () p = .raised Exn.ObjectWasReset p1 ∧
        (p1.heap ()).m_resetState = reset_state.valid) ∧
    ((p.heap ()).m_resetState = reset_state.reset_required →
      ¬((p.heap ()).m_lock = true ∧ (p.heap ()).m_mutex = some self) →
      ResetGuard.weak_guard self () p = .undefined ∧
      ResetGuard.strong_guard self () p = .undefined) := by
  refine ⟨?_, ?_, ?_⟩
  · intro hv
    simp [ResetGuard.strong_guard, weak_guard_of_valid self () p hv]
  · intro ha
    have h := weak_guard_of_ack self () p ha (captured_unit p)
    refine ⟨_, h, ?_, ?_⟩
    · simp [ResetGuard.strong_guard, h]
    · simp [Process.put]
  · intro hr hl
    have h : ResetGuard.weak_guard self () p = .undefined := by
      simp only [ResetGuard.weak_guard, hr, reduceCtorEq, if_false, Option.getD]
      cases hc : p.ack_expected <;> simp [hr, hl]
    simp [ResetGuard.strong_guard, h]

/-- C12 as stated fails: on a freshly constructed guard, with no `lock()` since
construction, `weak_guard` completes and returns `true`, and `strong_guard` returns. -/
theorem guard_check_completes_without_lock :
    ((Process.start (none : ResetHandler Nat) 0).heap ()).m_lock = false ∧
    ((Process.start (none : ResetHandler Nat) 0).heap ()).m_mutex = none ∧
    (ResetGuard.weak_guard 1 () (Process.start (none : ResetHandler Nat) 0)).tag =
      Tag.returned true ∧
    (ResetGuard.strong_guard 1 () (Process.start (none : ResetHandler Nat) 0)).tag =
      Tag.returned () := ⟨rfl, rfl, rfl, rfl⟩

/-- C16. `registerResetHandler` stores the callback and overwrites an earlier one.  For
every two callbacks `h1`, `h2` and every state: registering `h1` and then `h2` returns
both times, leaves the reset state and the handler record as they were, leaves `h2` as
the handler, and leaves the process exactly as registering `h2` alone does, so that
nothing `reset()` does afterwards depends on `h1`; and from `valid` with the mutex free,
when `h2` is a callable that returns, `reset()` makes one handler invocation and the
guarded resource is what `h2` made of it. -/
theorem registerResetHandler_overwrites {ι R : Type} [DecidableEq ι] (self : ThreadId)
    (this : ι) (p : Process ι R) (h1 h2 : ResetHandler R) :
    ∃ p1 p2, ResetGuard.registerResetHandler h1 this p = .returned () p1 ∧
      ResetGuard.registerResetHandler h2 this p1 = .returned () p2 ∧
      ResetGuard.registerResetHandler h2 this p = .returned () p2 ∧
      (p2.heap this).m_resetHandler = h2 ∧
      (p1.heap this).m_resetState = (p.heap this).m_resetState ∧
      (p2.heap this).m_resetState = (p.heap this).m_resetState ∧
      (p2.heap this).handlerCalls = (p.heap this).handlerCalls ∧
      (∀ g w, h2 = some g → (p.heap this).m_resetState = reset_state.valid →
        (p.heap this).m_mutex = none → g p.world = .normal w →
        ∃ p3, ResetGuard.reset self this p2 = .returned () p3 ∧ p3.world = w ∧
          (p3.heap this).handlerCalls =
            (p.heap this).handlerCalls ++ [reset_state.reset_required] ∧
          (p3.heap this).m_resetState = reset_state.ack_expected) := by
  refine ⟨_, _, rfl, rfl, ?_, ?_, ?_, ?_, ?_, ?_⟩
  · simp [ResetGuard.registerResetHandler, Process.put]
  · simp [Process.put]
  · simp [Process.put]
  · simp [Process.put]
  · simp [Process.put]
  · intro g w hg hv hm hw
    subst hg
    rw [reset_of_valid_normal self this _ g w (by simp [Process.put, hv])
      (by simp [Process.put, hm]) (by simp [Process.put]) (by simpa [Process.put] using hw)]
    exact ⟨_, rfl, rfl, by simp [Process.put], by simp [Process.put]⟩

/-- C16 with two callbacks that can be told apart: `h1` writes 1 and `h2` writes 2 into
the guarded resource; after registering `h1` and then `h2` on a fresh guard, `reset()`
leaves 2. -/
theorem registerResetHandler_overwrites_witness :
    ∃ p1 p2 p3 : Process Unit Nat,
      ResetGuard.registerResetHandler (some fun _ => Completion.normal 1) ()
        (Process.start none 0) = .returned () p1 ∧
      ResetGuard.registerResetHandler (some fun _ => Completion.normal 2) () p1 =
        .returned () p2 ∧
      ResetGuard.reset 1 () p2 = .returned () p3 ∧ p3.world = 2 ∧
      (p3.heap ()).handlerCalls = [reset_state.reset_required] := by
  obtain ⟨p1, p2, e1, e2, _, _, _, _, _, hr⟩ :=
    registerResetHandler_overwrites 1 () (Process.start none (0 : Nat))
      (some fun _ => Completion.normal 1) (some fun _ => Completion.normal 2)
  obtain ⟨p3, e3, hw, hc, _⟩ := hr (fun _ => Completion.normal 2) 2 rfl rfl rfl rfl
  exact ⟨p1, p2, p3, e1, e2, e3, hw, hc⟩

/-- C18. A failed handler invocation strands the state machine.  When `reset()` is called
on a `valid` state with the mutex free and the call of the handler fails (no handler is
registered, or the handler throws), an exception leaves `reset()`
(`bad_function_call`, or the exception of the handler), the state is left at
`reset_required`, the mutex is free again, and any number of later calls of `reset()`,
by any thread, return with nothing changed, so the handler is not invoked again. -/
theorem failed_handler_strands {ι R : Type} [DecidableEq ι] (self : ThreadId) (this : ι)
    (p : Process ι R)
    (hv : (p.heap this).m_resetState = reset_state.valid)
    (hm : (p.heap this).m_mutex = none)
    (hf : (p.heap this).m_resetHandler = none ∨
      ∃ handler w, (p.heap this).m_resetHandler = some handler ∧
        handler p.world = .throws w) :
    ∃ e p1, ResetGuard.reset self this p = .raised e p1 ∧
      (e = Exn.bad_function_call ∨ e = Exn.handler_exception) ∧
      (p1.heap this).m_resetState = reset_state.reset_required ∧
      (p1.heap this).m_mutex = none ∧
      (∀ t, ResetGuard.reset t this p1 = .returned () p1) ∧
      (∀ t n, resetN t this n p1 = .returned () p1) := by
  have later : ∀ p1 : Process ι R,
      (p1.heap this).m_resetState = reset_state.reset_required →
      (∀ t, ResetGuard.reset t this p1 = .returned () p1) ∧
      (∀ t n, resetN t this n p1 = .returned () p1) := by
    intro p1 h1
    have hnv : (p1.heap this).m_resetState ≠ reset_state.valid := by simp [h1]
    refine ⟨fun t => reset_of_not_valid t this p1 hnv, fun t n => ?_⟩
    cases n with
    | zero => rfl
    | succ n => rw [resetN_succ]; exact reset_of_not_valid t this p1 hnv
  rcases hf with hh | ⟨handler, w, hh, hw⟩
  · have h : ResetGuard.reset self this p = .raised Exn.bad_function_call
        (p.put this { p.heap this with m_resetState := reset_state.reset_required,
                                       m_mutex := none }) := by
      simp [ResetGuard.reset, hv, hm, hh]
    exact ⟨_, _, h, Or.inl rfl, by simp [Process.put], by simp [Process.put],
      later _ (by simp [Process.put])⟩
  · have h := reset_of_valid_throws self this p handler w hv hm hh hw
    exact ⟨_, _, h, Or.inr rfl, by simp [Process.put], by simp [Process.put],
      later _ (by simp [Process.put])⟩

/-- C18 on a fresh guard with no handler registered: `reset()` throws
`bad_function_call` and leaves `reset_required`; three later calls change nothing. -/
theorem failed_handler_strands_witness :
    ∃ p1 : Process Unit Nat,
      ResetGuard.reset 1 () (Process.start none 0) = .raised Exn.bad_function_call p1 ∧
      (p1.heap ()).m_resetState = reset_state.reset_required ∧
      (p1.heap ()).handlerCalls = [] ∧
      resetN 1 () 3 p1 = .returned () p1 := by
  obtain ⟨e, p1, h, _, hs, _, _, hn⟩ :=
    failed_handler_strands 1 () (Process.start (none : ResetHandler Nat) 0) rfl rfl
      (Or.inl rfl)
  have he : ResetGuard.reset 1 () (Process.start (none : ResetHandler Nat) 0) =
      .raised Exn.bad_function_call
        ((Process.start (none : ResetHandler Nat) 0).put ()
          { (Process.start (none : ResetHandler Nat) 0).heap () with
            m_resetState := reset_state.reset_required, m_mutex := none }) := rfl
  rw [he] at h
  simp only [Outcome.raised.injEq] at h
  obtain ⟨_, hp⟩ := h
  subst hp
  exact ⟨_, he, hs, by simp [Process.put, Process.start, ResetGuard.fresh], hn 1 3⟩

/-- C17, at the failing input.  In a process with the guards `A` and `B`: after a reset
of `A` and a `weak_guard` on `A` (which returns `false` and builds the static closure on
`A`), a reset of `B` leaves `B` in `ack_expected`, and `weak_guard` on `B` with the lock
held is suspended in the wait instead of returning `false`; the same calls on `B`
without the earlier calls on `A` return `false`.  And with `A` in `ack_expected` again and
`B` in `reset_required` (the compare-exchange of a reset of `B` is made while the worker
holds the lock of `B`), `weak_guard` on `B` returns `false` at once, although the handler
of `B` has not been invoked. -/
theorem static_closure_reads_first_guard :
    (runWith callOn
        [(GuardName.A, 2, Call.reset), (GuardName.A, 1, Call.lock),
          (GuardName.A, 1, Call.weak_guard), (GuardName.A, 1, Call.unlock),
          (GuardName.B, 2, Call.reset), (GuardName.B, 1, Call.lock),
          (GuardName.B, 1, Call.weak_guard)] twoGuards).map Outcome.tag =
      [Tag.returned none, Tag.returned none, Tag.returned (some false), Tag.returned none,
        Tag.returned none, Tag.returned none, Tag.blocked] ∧
    (runWith callOn
        [(GuardName.B, 2, Call.reset), (GuardName.B, 1, Call.lock),
          (GuardName.B, 1, Call.weak_guard)] twoGuards).map Outcome.tag =
      [Tag.returned none, Tag.returned none, Tag.returned (some false)] ∧
    (runEnd callOn
        [(GuardName.A, 2, Call.reset), (GuardName.A, 1, Call.lock),
          (GuardName.A, 1, Call.weak_guard), (GuardName.A, 1, Call.unlock),
          (GuardName.A, 2, Call.reset), (GuardName.B, 1, Call.lock)] twoGuards).map
        (fun p =>
          (((ResetGuard.reset_cas GuardName.B p).2.heap GuardName.B).m_resetState,
            ((ResetGuard.reset_cas GuardName.B p).2.heap GuardName.B).handlerCalls,
            (ResetGuard.weak_guard 1 GuardName.B (ResetGuard.reset_cas GuardName.B p).2).tag,
            (ResetGuard.weak_guard 1 GuardName.B
              (ResetGuard.reset_cas GuardName.B p).2).state?.map
                (fun q => (q.heap GuardName.B).m_resetState))) =
      some (reset_state.reset_required, [], Tag.returned false, some reset_state.valid) := by
  refine ⟨?_, ?_, ?_⟩ <;> rfl

/-- C15. `Reset()` on the outermost layer resets every layer: for every number of
wrappers and every value of the counter, it sets the counter to 0 and leaves the output
as it was; as a call in a process it returns and leaves every guard (reset state, lock,
handler) and the static closure as they were, so it makes no guard check. -/
theorem outermost_Reset_zeroes_counter {ι : Type} (d : Nat) (p : Process ι Demo) :
    (Reset d p.world).m_counter = 0 ∧ (Reset d p.world).cout = p.world.cout ∧
    ∃ p1, callReset d p = .returned () p1 ∧ p1.world.m_counter = 0 ∧
      p1.heap = p.heap ∧ p1.ack_expected = p.ack_expected ∧
      onReset d p.world = .normal p1.world := by
  have h : ∀ w : Demo, Reset d w = { w with m_counter := 0 } := by
    intro w
    induction d with
    | zero => rfl
    | succ d ih => simpa [Reset] using ih
  refine ⟨by rw [h], by rw [h], _, rfl, ?_, rfl, rfl, rfl⟩
  simp [h]

/-! ## Theorems: the demonstration -/

section Demonstration

/-- The member function `reset()` is its compare-exchange followed, when that succeeded,
by the rest of the function. -/
theorem reset_eq_cas_finish {ι R : Type} [DecidableEq ι] (self : ThreadId) (this : ι)
    (p : Process ι R) :
    ResetGuard.reset self this p =
      if (ResetGuard.reset_cas this p).1 = true then
        ResetGuard.reset_finish self this (ResetGuard.reset_cas this p).2
      else .returned () p := by
  by_cases hv : (p.heap this).m_resetState = reset_state.valid
  · cases hm : (p.heap this).m_mutex with
    | some owner =>
      simp [ResetGuard.reset, ResetGuard.reset_cas, ResetGuard.reset_finish, hv, hm,
        Process.put]
    | none =>
      cases hh : (p.heap this).m_resetHandler with
      | none =>
        simp [ResetGuard.reset, ResetGuard.reset_cas, ResetGuard.reset_finish, hv, hm, hh,
          Process.put]
      | some handler =>
        cases hw : handler p.world <;>
          simp [ResetGuard.reset, ResetGuard.reset_cas, ResetGuard.reset_finish, hv, hm,
            hh, hw, Process.put]
  · simp [ResetGuard.reset, ResetGuard.reset_cas, hv]

/-- In a chain, `Reset` of any layer sets the counter to 0 and nothing else. -/
theorem Reset_eq (d : Nat) (w : Demo) : Reset d w = { w with m_counter := 0 } := by
  induction d with
  | zero => rfl
  | succ d ih => simpa [Reset] using ih

/-- On a `valid` state and with no step of another thread, `IncrementAndPrint` of a chain
returns, with the counter raised by one modulo `2 ^ 64` and the guard as it was. -/
theorem chain_valid (self : ThreadId) (d : Nat) (mu : Option ThreadId) (lk : Bool)
    (hd : ResetHandler Demo) (calls : List reset_state) (cap : Option Unit) (c : Nat) :
    ∀ out, ∃ out1,
      IncrementAndPrint noInterference self () d
          { heap := fun _ => ⟨reset_state.valid, mu, lk, hd, calls⟩
            ack_expected := cap
            world := ⟨c, out⟩ } =
        .returned ()
          { heap := fun _ => ⟨reset_state.valid, mu, lk, hd, calls⟩
            ack_expected := cap
            world := ⟨(c + 1) % 2 ^ 64, out1⟩ } := by
  induction d with
  | zero =>
    intro out
    exact ⟨out ++ [Line.value ((c + 1) % 2 ^ 64)], by
      simp [IncrementAndPrint, noInterference, ResetGuard.strong_guard,
        ResetGuard.weak_guard]⟩
  | succ d ih =>
    intro out
    obtain ⟨out1, h⟩ := ih (out ++ [Line.object (d + 1)])
    exact ⟨out1, by simpa [IncrementAndPrint, noInterference, ResetGuard.strong_guard,
      ResetGuard.weak_guard] using h⟩

/-- The scoped lock around `IncrementAndPrint`, on a `valid` state with the lock free:
the call returns, the counter is raised by one modulo `2 ^ 64`, the guard is as it was. -/
theorem guarded_chain_valid (self : ThreadId) (d : Nat) (hd : ResetHandler Demo)
    (calls : List reset_state) (cap : Option Unit) (c : Nat) (out : List Line) :
    ∃ out1,
      scoped_lock self () (IncrementAndPrint noInterference self () d)
          { heap := fun _ => ⟨reset_state.valid, none, false, hd, calls⟩
            ack_expected := cap
            world := ⟨c, out⟩ } =
        .returned ()
          { heap := fun _ => ⟨reset_state.valid, none, false, hd, calls⟩
            ack_expected := cap
            world := ⟨(c + 1) % 2 ^ 64, out1⟩ } := by
  obtain ⟨out1, h⟩ := chain_valid self d (some self) true hd calls cap c out
  exact ⟨out1, by simp [scoped_lock, ResetGuard.lock, ResetGuard.unlock, Process.put,
    update_unit, h]⟩

/-- The scoped lock around `IncrementAndPrint`, on an `ack_expected` state with the lock
free: the guard check of the outermost layer throws `ObjectWasReset`, which leaves the
block; the state is `valid`, the counter and the output are as they were. -/
theorem guarded_chain_ack (self : ThreadId) (d : Nat) (hd : ResetHandler Demo)
    (calls : List reset_state) (cap : Option Unit) (w : Demo) :
    scoped_lock self () (IncrementAndPrint noInterference self () d)
        { heap := fun _ => ⟨reset_state.ack_expected, none, false, hd, calls⟩
          ack_expected := cap
          world := w } =
      .raised Exn.ObjectWasReset
        { heap := fun _ => ⟨reset_state.valid, none, false, hd, calls⟩
          ack_expected := some ()
          world := w } := by
  cases d <;>
    simp [scoped_lock, ResetGuard.lock, ResetGuard.unlock, Process.put, update_unit,
      IncrementAndPrint, noInterference, ResetGuard.strong_guard, ResetGuard.weak_guard]

/-- A `reset()` of the demonstration on a `valid` state with the mutex free: it returns
in `ack_expected` with the counter at 0. -/
theorem demo_reset (self : ThreadId) (d : Nat) (lk : Bool) (calls : List reset_state)
    (cap : Option Unit) (c : Nat) (out : List Line) :
    ResetGuard.reset self ()
        { heap := fun _ => ⟨reset_state.valid, none, lk, some (onReset d), calls⟩
          ack_expected := cap
          world := ⟨c, out⟩ } =
      .returned ()
        { heap := fun _ =>
            ⟨reset_state.ack_expected, none, lk, some (onReset d),
              calls ++ [reset_state.reset_required]⟩
          ack_expected := cap
          world := ⟨0, out⟩ } := by
  simp [ResetGuard.reset, onReset, Reset_eq, Process.put, update_unit]

/-- The compare-exchange of `reset()` arrives just before the guard check of layer `r` of
a chain of `d` wrappers, `r ≤ d`, while the worker holds the lock: the layers above `r`
pass their guard check, the one of layer `r` finds `reset_required`, releases the mutex
and waits.  The counter is as it was. -/
theorem chain_blocks (self : ThreadId) (r : Nat) (hd : ResetHandler Demo)
    (calls : List reset_state) (cap : Option Unit) (c : Nat) :
    ∀ d, r ≤ d → ∀ out, ∃ out1,
      IncrementAndPrint (casBefore () r) self () d
          { heap := fun _ => ⟨reset_state.valid, some self, true, hd, calls⟩
            ack_expected := cap
            world := ⟨c, out⟩ } =
        .blocked
          { heap := fun _ => ⟨reset_state.reset_required, none, false, hd, calls⟩
            ack_expected := some ()
            world := ⟨c, out1⟩ } := by
  intro d
  induction d with
  | zero =>
    intro hr out
    obtain rfl : r = 0 := by omega
    exact ⟨out, by
      simp [IncrementAndPrint, casBefore, ResetGuard.reset_cas, ResetGuard.strong_guard,
        ResetGuard.weak_guard, Process.put, update_unit]⟩
  | succ d ih =>
    intro hr out
    by_cases h : r = d + 1
    · subst h
      exact ⟨out, by
        simp [IncrementAndPrint, casBefore, ResetGuard.reset_cas, ResetGuard.strong_guard,
          ResetGuard.weak_guard, Process.put, update_unit]⟩
    · obtain ⟨out1, h1⟩ := ih (by omega) (out ++ [Line.object (d + 1)])
      have h2 : ¬ d + 1 = r := fun e => h e.symm
      exact ⟨out1, by
        simpa [IncrementAndPrint, casBefore, h2, ResetGuard.strong_guard,
          ResetGuard.weak_guard] using h1⟩

/-- The rest of `reset()` of the demonstration after its compare-exchange, with the mutex
free: the handler runs, the state becomes `ack_expected`, the counter is 0. -/
theorem demo_reset_finish (self : ThreadId) (d : Nat) (lk : Bool)
    (calls : List reset_state) (cap : Option Unit) (c : Nat) (out : List Line) :
    ResetGuard.reset_finish self ()
        { heap := fun _ => ⟨reset_state.reset_required, none, lk, some (onReset d), calls⟩
          ack_expected := cap
          world := ⟨c, out⟩ } =
      .returned ()
        { heap := fun _ =>
            ⟨reset_state.ack_expected, none, lk, some (onReset d),
              calls ++ [reset_state.reset_required]⟩
          ack_expected := cap
          world := ⟨0, out⟩ } := by
  simp [ResetGuard.reset_finish, onReset, Reset_eq, Process.put, update_unit]

/-- A worker that waits in the guard check of layer `r` is woken on `ack_expected` with
the mutex free: the guard check throws `ObjectWasReset`, which leaves every layer and the
scoped block; the state is `valid`, the lock is free, the counter is as it was. -/
theorem chain_resume_ack (env : Interference Unit) (self : ThreadId) (r : Nat)
    (lk : Bool) (hd : ResetHandler Demo) (calls : List reset_state) (cap : Option Unit)
    (w : Demo) :
    scoped_lock_resume self ()
        (IncrementAndPrint_resume env self () r)
        { heap := fun _ => ⟨reset_state.ack_expected, none, lk, hd, calls⟩
          ack_expected := cap
          world := w } =
      .raised Exn.ObjectWasReset
        { heap := fun _ => ⟨reset_state.valid, none, false, hd, calls⟩
          ack_expected := cap
          world := w } := by
  cases r <;> cases cap <;>
    simp [scoped_lock_resume, IncrementAndPrint_resume, ResetGuard.strong_guard_resume,
      ResetGuard.weak_guard_resume, ResetGuard.unlock, Process.put, update_unit]

/-- The start of the demonstration, field by field. -/
theorem Demo.start_eq (d c : Nat) :
    Demo.start d c =
      { heap := fun _ => ⟨reset_state.valid, none, false, some (onReset d), []⟩
        ack_expected := none
        world := ⟨c, []⟩ } := rfl

/-- C13: in a chain of `d` wrappers around the counter, all on one guard, a reset that
is first observed by the guard check of any layer `r ≤ d` raises `ObjectWasReset` out of
the whole scoped call, with the counter at 0 (the handler has run: the state went through
`ack_expected`) and the state `valid` again; the next top-level call returns and leaves
the counter at 1.  Shown for a reset completed before the call (seen by the outermost
layer) and for a reset whose compare-exchange arrives during the call, just before the
guard check of layer `r`, where the worker waits until the controller has finished. -/
theorem reset_unwinds_chain (worker controller : ThreadId) (d r c : Nat) (hr : r ≤ d) :
    (∃ p1 p2 p3,
      ResetGuard.reset controller () (Demo.start d c) = .returned () p1 ∧
      scoped_lock worker () (IncrementAndPrint noInterference worker () d) p1 =
        .raised Exn.ObjectWasReset p2 ∧
      p2.world.m_counter = 0 ∧ (p2.heap ()).m_resetState = reset_state.valid ∧
      (p2.heap ()).m_mutex = none ∧
      scoped_lock worker () (IncrementAndPrint noInterference worker () d) p2 =
        .returned () p3 ∧
      p3.world.m_counter = 1) ∧
    (∃ p1 p2 p3 p4 p5,
      ResetGuard.lock worker () (Demo.start d c) = .returned () p1 ∧
      IncrementAndPrint (casBefore () r) worker () d p1 = .blocked p2 ∧
      p2.world.m_counter = c ∧ (p2.heap ()).m_resetState = reset_state.reset_required ∧
      ResetGuard.reset_finish controller () p2 = .returned () p3 ∧
      p3.world.m_counter = 0 ∧ (p3.heap ()).m_resetState = reset_state.ack_expected ∧
      (p3.heap ()).handlerCalls = [reset_state.reset_required] ∧
      scoped_lock_resume worker () (IncrementAndPrint_resume noInterference worker () r) p3 =
        .raised Exn.ObjectWasReset p4 ∧
      p4.world.m_counter = 0 ∧ (p4.heap ()).m_resetState = reset_state.valid ∧
      (p4.heap ()).m_mutex = none ∧
      scoped_lock worker () (IncrementAndPrint noInterference worker () d) p4 =
        .returned () p5 ∧
      p5.world.m_counter = 1) := by
  constructor
  · obtain ⟨out1, h3⟩ :=
      guarded_chain_valid worker d (some (onReset d)) [reset_state.reset_required]
        (some ()) 0 []
    have h1 := demo_reset controller d false [] none c []
    rw [← Demo.start_eq] at h1
    exact ⟨_, _, _, h1, guarded_chain_ack worker d _ _ _ _, rfl, rfl, rfl, h3, rfl⟩
  · obtain ⟨out1, h2⟩ :=
      chain_blocks worker r (some (onReset d)) [] none c d hr []
    obtain ⟨out2, h5⟩ :=
      guarded_chain_valid worker d (some (onReset d)) [reset_state.reset_required]
        (some ()) 0 out1
    have h1 : ResetGuard.lock worker () (Demo.start d c) =
        .returned ()
          { heap := fun _ => ⟨reset_state.valid, some worker, true, some (onReset d), []⟩
            ack_expected := none
            world := ⟨c, []⟩ } := by
      rw [Demo.start_eq]
      simp [ResetGuard.lock, Process.put, update_unit]
    exact ⟨_, _, _, _, _, h1, h2, rfl, rfl, demo_reset_finish controller d _ _ _ _ _,
      rfl, rfl, rfl, chain_resume_ack _ worker r _ _ _ _ _, rfl, rfl, rfl, h5, rfl⟩

/-- C13 at a concrete input: the chain of `main` (three wrappers), the counter at 41,
the reset first observed by the guard check of layer 1. -/
theorem reset_unwinds_chain_witness :
    (1 ≤ 3) ∧
    ((∃ p1 p2 p3,
      ResetGuard.reset 2 () (Demo.start 3 41) = .returned () p1 ∧
      scoped_lock 1 () (IncrementAndPrint noInterference 1 () 3) p1 =
        .raised Exn.ObjectWasReset p2 ∧
      p2.world.m_counter = 0 ∧ (p2.heap ()).m_resetState = reset_state.valid ∧
      (p2.heap ()).m_mutex = none ∧
      scoped_lock 1 () (IncrementAndPrint noInterference 1 () 3) p2 = .returned () p3 ∧
      p3.world.m_counter = 1) ∧
    (∃ p1 p2 p3 p4 p5,
      ResetGuard.lock 1 () (Demo.start 3 41) = .returned () p1 ∧
      IncrementAndPrint (casBefore () 1) 1 () 3 p1 = .blocked p2 ∧
      p2.world.m_counter = 41 ∧ (p2.heap ()).m_resetState = reset_state.reset_required ∧
      ResetGuard.reset_finish 2 () p2 = .returned () p3 ∧
      p3.world.m_counter = 0 ∧ (p3.heap ()).m_resetState = reset_state.ack_expected ∧
      (p3.heap ()).handlerCalls = [reset_state.reset_required] ∧
      scoped_lock_resume 1 () (IncrementAndPrint_resume noInterference 1 () 1) p3 =
        .raised Exn.ObjectWasReset p4 ∧
      p4.world.m_counter = 0 ∧ (p4.heap ()).m_resetState = reset_state.valid ∧
      (p4.heap ()).m_mutex = none ∧
      scoped_lock 1 () (IncrementAndPrint noInterference 1 () 3) p4 = .returned () p5 ∧
      p5.world.m_counter = 1)) :=
  ⟨by decide, reset_unwinds_chain 1 2 3 1 41 (by decide)⟩

/-- A pass of the loop of `count` on a `valid` state with the lock free returns, with
the counter raised by one modulo `2 ^ 64` and the guard as it was. -/
theorem count_pass_valid (self : ThreadId) (d : Nat) (hd : ResetHandler Demo)
    (calls : List reset_state) (cap : Option Unit) (c : Nat) (out : List Line) :
    ∃ out1,
      count_pass self () d
          { heap := fun _ => ⟨reset_state.valid, none, false, hd, calls⟩
            ack_expected := cap
            world := ⟨c, out⟩ } =
        .returned ()
          { heap := fun _ => ⟨reset_state.valid, none, false, hd, calls⟩
            ack_expected := cap
            world := ⟨(c + 1) % 2 ^ 64, out1⟩ } := by
  obtain ⟨out1, h⟩ := guarded_chain_valid self d hd calls cap c out
  exact ⟨out1, by simp [count_pass, h]⟩

/-- A pass of the loop of `count` on an `ack_expected` state with the lock free is
aborted by `ObjectWasReset`: the counter is as it was, the state is `valid`. -/
theorem count_pass_ack (self : ThreadId) (d : Nat) (hd : ResetHandler Demo)
    (calls : List reset_state) (cap : Option Unit) (c : Nat) (out : List Line) :
    count_pass self () d
        { heap := fun _ => ⟨reset_state.ack_expected, none, false, hd, calls⟩
          ack_expected := cap
          world := ⟨c, out⟩ } =
      .raised Exn.ObjectWasReset
        { heap := fun _ => ⟨reset_state.valid, none, false, hd, calls⟩
          ack_expected := some ()
          world := ⟨c, out ++ [Line.was_reset]⟩ } := by
  simp [count_pass, guarded_chain_ack]

/-- A run whose first operation returns goes on from the state it left. -/
theorem runEnd_returned {A β σ : Type} (f : A → σ → Outcome β σ) (a : A) (rest : List A)
    (s s1 : σ) (b : β) (h : f a s = .returned b s1) :
    runEnd f (a :: rest) s = runEnd f rest s1 := by
  simp [runEnd, h]

/-- A run whose first operation throws goes on from the state it left. -/
theorem runEnd_raised {A β σ : Type} (f : A → σ → Outcome β σ) (a : A) (rest : List A)
    (s s1 : σ) (e : Exn) (h : f a s = .raised e s1) :
    runEnd f (a :: rest) s = runEnd f rest s1 := by
  simp [runEnd, h]

/-- The outcomes of a run whose first operation returns. -/
theorem runWith_returned {A β σ : Type} (f : A → σ → Outcome β σ) (a : A) (rest : List A)
    (s s1 : σ) (b : β) (h : f a s = .returned b s1) :
    (runWith f (a :: rest) s).map Outcome.tag =
      Tag.returned b :: (runWith f rest s1).map Outcome.tag := by
  simp [runWith, h, Outcome.tag]

/-- The outcomes of a run whose first operation throws. -/
theorem runWith_raised {A β σ : Type} (f : A → σ → Outcome β σ) (a : A) (rest : List A)
    (s s1 : σ) (e : Exn) (h : f a s = .raised e s1) :
    (runWith f (a :: rest) s).map Outcome.tag =
      Tag.raised e :: (runWith f rest s1).map Outcome.tag := by
  simp [runWith, h, Outcome.tag]

/-- The worker's operation is a pass of the loop of `count`. -/
theorem runDemo_increment (worker controller : ThreadId) (d : Nat) (p : Process Unit Demo) :
    runDemo worker controller () d DemoOp.increment p = count_pass worker () d p := rfl

/-- The controller's operation is `reset()`. -/
theorem runDemo_reset (worker controller : ThreadId) (d : Nat) (p : Process Unit Demo) :
    runDemo worker controller () d DemoOp.reset p = ResetGuard.reset controller () p := rfl

/-- The first `k` passes of a run that starts on a `valid` state with the lock free all
return; they raise the counter by `k` modulo `2 ^ 64` and leave the guard as it was. -/
theorem passes_valid (worker controller : ThreadId) (d : Nat) (hd : ResetHandler Demo)
    (calls : List reset_state) (cap : Option Unit) (rest : List DemoOp) :
    ∀ (k c : Nat) (out : List Line), c < 2 ^ 64 → ∃ out1,
      runEnd (runDemo worker controller () d)
          (List.replicate k DemoOp.increment ++ rest)
          { heap := fun _ => ⟨reset_state.valid, none, false, hd, calls⟩
            ack_expected := cap
            world := ⟨c, out⟩ } =
        runEnd (runDemo worker controller () d) rest
          { heap := fun _ => ⟨reset_state.valid, none, false, hd, calls⟩
            ack_expected := cap
            world := ⟨(c + k) % 2 ^ 64, out1⟩ } ∧
      (runWith (runDemo worker controller () d)
          (List.replicate k DemoOp.increment ++ rest)
          { heap := fun _ => ⟨reset_state.valid, none, false, hd, calls⟩
            ack_expected := cap
            world := ⟨c, out⟩ }).map Outcome.tag =
        List.replicate k (Tag.returned ()) ++
          (runWith (runDemo worker controller () d) rest
            { heap := fun _ => ⟨reset_state.valid, none, false, hd, calls⟩
              ack_expected := cap
              world := ⟨(c + k) % 2 ^ 64, out1⟩ }).map Outcome.tag := by
  intro k
  induction k with
  | zero =>
    intro c out hc
    refine ⟨out, ?_, ?_⟩ <;>
      simp only [List.replicate_zero, List.nil_append, Nat.add_zero, Nat.mod_eq_of_lt hc]
  | succ k ih =>
    intro c out hc
    obtain ⟨out1, h1⟩ := count_pass_valid worker d hd calls cap c out
    rw [← runDemo_increment worker controller] at h1
    obtain ⟨out2, h2, h3⟩ := ih ((c + 1) % 2 ^ 64) out1 (Nat.mod_lt _ (by norm_num))
    have e : ((c + 1) % 2 ^ 64 + k) % 2 ^ 64 = (c + (k + 1)) % 2 ^ 64 := by omega
    rw [e] at h2 h3
    refine ⟨out2, ?_, ?_⟩
    · simp only [List.replicate_succ, List.cons_append]
      rw [runEnd_returned _ _ _ _ _ _ h1, h2]
    · simp only [List.replicate_succ, List.cons_append]
      rw [runWith_returned _ _ _ _ _ _ h1, h3]

/-- The run of the demonstration with one reset: `k` passes, a `reset()`, `m + 1` passes.
The first `k` passes and the reset return, the next pass is aborted by `ObjectWasReset`,
the last `m` passes return, and the counter ends at `m` modulo `2 ^ 64`. -/
theorem demo_run (worker controller : ThreadId) (d k m : Nat) :
    ∃ pEnd,
      runEnd (runDemo worker controller () d)
          (List.replicate k DemoOp.increment ++
            DemoOp.reset :: List.replicate (m + 1) DemoOp.increment)
          (Demo.start d 0) = some pEnd ∧
      pEnd.world.m_counter = m % 2 ^ 64 ∧
      (pEnd.heap ()).m_resetState = reset_state.valid ∧
      (runWith (runDemo worker controller () d)
          (List.replicate k DemoOp.increment ++
            DemoOp.reset :: List.replicate (m + 1) DemoOp.increment)
          (Demo.start d 0)).map Outcome.tag =
        List.replicate (k + 1) (Tag.returned ()) ++
          Tag.raised Exn.ObjectWasReset :: List.replicate m (Tag.returned ()) := by
  obtain ⟨out1, h1, t1⟩ :=
    passes_valid worker controller d (some (onReset d)) [] none
      (DemoOp.reset :: DemoOp.increment :: List.replicate m DemoOp.increment)
      k 0 [] (by norm_num)
  have hr := demo_reset controller d false [] none ((0 + k) % 2 ^ 64) out1
  rw [← runDemo_reset worker controller] at hr
  have ha := count_pass_ack worker d (some (onReset d))
    ([] ++ [reset_state.reset_required]) none 0 out1
  rw [← runDemo_increment worker controller] at ha
  obtain ⟨out2, h2, t2⟩ :=
    passes_valid worker controller d (some (onReset d))
      ([] ++ [reset_state.reset_required]) (some ()) [] m 0 (out1 ++ [Line.was_reset])
      (by norm_num)
  rw [List.append_nil] at h2 t2
  rw [Demo.start_eq, List.replicate_succ, h1, t1, runEnd_returned _ _ _ _ _ _ hr,
    runWith_returned _ _ _ _ _ _ hr, runEnd_raised _ _ _ _ _ _ ha,
    runWith_raised _ _ _ _ _ _ ha, h2, t2]
  refine ⟨_, rfl, by simp, rfl, ?_⟩
  rw [List.replicate_succ']
  simp [runWith]

/-- C14 (amended): for every chain of `d` wrappers and every `N` and `k` with `k < N`,
running `N` passes of `count` from a fresh guard and counter 0, with one `reset()`
completed between pass `k` and pass `k + 1`, comes to its end with the counter equal to
`(N - k - 1) % 2 ^ 64` (the counter is a `uint64_t`) and the state `valid`: passes
`1..k` and the reset return, pass `k + 1` is aborted by `ObjectWasReset`, passes
`k + 2..N` return. -/
theorem post_reset_count (worker controller : ThreadId) (d N k : Nat) (hk : k < N) :
    ∃ pEnd,
      runEnd (runDemo worker controller () d)
          (List.replicate k DemoOp.increment ++
            DemoOp.reset :: List.replicate (N - k) DemoOp.increment)
          (Demo.start d 0) = some pEnd ∧
      pEnd.world.m_counter = (N - k - 1) % 2 ^ 64 ∧
      (pEnd.heap ()).m_resetState = reset_state.valid ∧
      (runWith (runDemo worker controller () d)
          (List.replicate k DemoOp.increment ++
            DemoOp.reset :: List.replicate (N - k) DemoOp.increment)
          (Demo.start d 0)).map Outcome.tag =
        List.replicate (k + 1) (Tag.returned ()) ++
          Tag.raised Exn.ObjectWasReset :: List.replicate (N - k - 1) (Tag.returned ()) := by
  obtain ⟨m, hm⟩ : ∃ m, N - k = m + 1 := ⟨N - k - 1, by omega⟩
  rw [hm, Nat.add_sub_cancel]
  exact demo_run worker controller d k m

/-- C14 at the input of the claim: the chain of `main`, `N = 1000` and `k = 500` leave
the counter at 499. -/
theorem post_reset_count_witness :
    (500 < 1000) ∧
    (∃ pEnd,
      runEnd (runDemo 1 2 () 3)
          (List.replicate 500 DemoOp.increment ++
            DemoOp.reset :: List.replicate (1000 - 500) DemoOp.increment)
          (Demo.start 3 0) = some pEnd ∧
      pEnd.world.m_counter = 499 ∧
      (pEnd.heap ()).m_resetState = reset_state.valid ∧
      (runWith (runDemo 1 2 () 3)
          (List.replicate 500 DemoOp.increment ++
            DemoOp.reset :: List.replicate (1000 - 500) DemoOp.increment)
          (Demo.start 3 0)).map Outcome.tag =
        List.replicate (500 + 1) (Tag.returned ()) ++
          Tag.raised Exn.ObjectWasReset ::
            List.replicate (1000 - 500 - 1) (Tag.returned ())) :=
  ⟨by decide, post_reset_count 1 2 3 1000 500 (by decide)⟩

/-- C14 as written fails where the counter wraps: with `N = 2 ^ 64 + 1` and `k = 0` (the
reset first, then `2 ^ 64 + 1` passes: the first is aborted, the other `2 ^ 64` count),
the run comes to its end with the counter at 0, which is not `N - k - 1 = 2 ^ 64`. -/
theorem count_wraps_after_reset :
    ∃ pEnd,
      runEnd (runDemo 1 2 () 3)
          (List.replicate 0 DemoOp.increment ++
            DemoOp.reset :: List.replicate (2 ^ 64 + 1) DemoOp.increment)
          (Demo.start 3 0) = some pEnd ∧
      pEnd.world.m_counter = 0 ∧
      pEnd.world.m_counter ≠ 2 ^ 64 + 1 - 0 - 1 := by
  obtain ⟨pEnd, h, hc, _⟩ := demo_run 1 2 3 0 (2 ^ 64)
  have h0 : pEnd.world.m_counter = 0 := by rw [hc]; norm_num
  exact ⟨pEnd, h, h0, by rw [h0]; norm_num⟩

end Demonstration

end Resettable
